import Mathlib

/-!
Unity-AIDev-SmartContext: the analysis engine.

A shallow embedding of `ComponentDependencyAnalyzer.cpp`, `MonoBehaviourAnalyzer.cpp`,
`LifecycleAnalyzer.cpp` and `UnityPatternDetector.cpp` (all under `src/Core/UnityAnalyzer`),
of the walk of `src/Core/TreeSitterEngine/CSharpParser.cpp`, of
`CoreEngine::analyzeProject` (`src/Core/CoreEngine.cpp`) and of the functions of
`ProjectMetadata.cpp` and `ScriptableObjectAnalyzer.cpp` that the statements below are
about.

Conventions of the embedding:

* `std::string` is `String`; comparisons of `std::less<std::string>` are taken on the
  character lists (`String.data`), which is the lexicographic order of the string.
* `std::map<std::string, V>` is an association list whose keys are kept in ascending order
  (`StdMap.find`, `StdMap.assign`); iteration over the map is iteration over that list.
* `std::set<std::string>` is a list used through membership, `List.insert` and `List.erase`.
* `std::vector<T>` is `List T`; a loop of `push_back` is an append.
* The two recursive traversals take a fuel argument; the public entry points supply a fuel
  computed from the graph and return `none` only if that fuel were to run out.
-/

namespace UnityContextGen

/-! ## Strings -/

/-- Comparison `a <= b` of `std::string`, on the character lists. -/
def strLe (a b : String) : Prop := a.data ≤ b.data

/-- Comparison `a < b` of `std::string` (`std::less`), on the character lists. -/
def strLt (a b : String) : Prop := a.data < b.data

instance strLe.decidable : DecidableRel strLe :=
  fun a b => inferInstanceAs (Decidable (a.data ≤ b.data))

instance strLt.decidable : DecidableRel strLt :=
  fun a b => inferInstanceAs (Decidable (a.data < b.data))

/-- Strip the literal `lit` from the front of `s`, if `s` starts with it. -/
def stripLit : List Char → List Char → Option (List Char)
  | [], s => some s
  | _ :: _, [] => none
  | l :: lit, c :: s => if l = c then stripLit lit s else none

/-- Index of the first occurrence of `needle` in `s`: `std::string::find`, with `none`
for `npos`. -/
def findChars (needle : List Char) : List Char → Option Nat
  | [] => if needle = [] then some 0 else none
  | c :: s =>
    if (stripLit needle (c :: s)).isSome then some 0
    else (findChars needle s).map (· + 1)

/-- The call `s.find(needle)`. -/
def strFind (s needle : String) : Option Nat := findChars needle.data s.data

/-- The call `s.substr(pos)`. -/
def substr (s : String) (pos : Nat) : String := ⟨s.data.drop pos⟩

/-- The class `\w` of `std::regex` (ECMAScript grammar, classic locale). -/
def isWordChar (c : Char) : Bool := c.isAlphanum || c = '_'

/-- Match of the pattern `pre (\w+) post` anchored at the front of `s`, where `pre` and `post`
are literals: the capture group and the length of the whole match. `\w+` is greedy, and since
the patterns used here have a `post` that starts with a non-word character, the only
candidate for the group is the maximal run of word characters. -/
def matchAt (pre post : List Char) (s : List Char) : Option (List Char × Nat) :=
  match stripLit pre s with
  | none => none
  | some r =>
    let w := r.takeWhile isWordChar
    if w = [] then none
    else
      match stripLit post (r.dropWhile isWordChar) with
      | none => none
      | some _ => some (w, pre.length + w.length + post.length)

/-- The leftmost match of `pre (\w+) post` in `s` (`std::regex_search`): its capture group. -/
def regexSearch (pre post : List Char) : List Char → Option String
  | [] => none
  | c :: s =>
    match matchAt pre post (c :: s) with
    | some (w, _) => some ⟨w⟩
    | none => regexSearch pre post s

/-- All non-overlapping matches of `pre (\w+) post` in `s`, left to right
(`std::sregex_iterator`): their capture groups. `skip` counts the characters of the current
match still to be passed over. -/
def regexFindAll (pre post : List Char) : Nat → List Char → List String
  | _, [] => []
  | skip + 1, _ :: s => regexFindAll pre post skip s
  | 0, c :: s =>
    match matchAt pre post (c :: s) with
    | some (w, len) => ⟨w⟩ :: regexFindAll pre post (len - 1) s
    | none => regexFindAll pre post 0 s

/-! ## Sorting and de-duplication -/

/-- The call `std::sort(v.begin(), v.end())` on a vector of strings. -/
def stdSort (v : List String) : List String := v.insertionSort strLe

/-- The call `v.erase(std::unique(v.begin(), v.end()), v.end())`: of every run of equal
adjacent elements only one is kept. -/
def stdUnique : List String → List String
  | [] => []
  | [a] => [a]
  | a :: b :: t => if a = b then stdUnique (b :: t) else a :: stdUnique (b :: t)

/-! ## Ordered maps -/

/-- The lookup `m.find(k)` of a `std::map`; `none` stands for `end()`. -/
def StdMap.find {β : Type} : List (String × β) → String → Option β
  | [], _ => none
  | (k, v) :: m, key => if key = k then some v else StdMap.find m key

/-- The assignment `m[k] = v` of a `std::map`: the entry is replaced if the key is there,
and inserted at its place in key order otherwise. -/
def StdMap.assign {β : Type} : List (String × β) → String → β → List (String × β)
  | [], key, val => [(key, val)]
  | (k, v) :: m, key, val =>
    if strLt key k then (key, val) :: (k, v) :: m
    else if key = k then (key, val) :: m
    else (k, v) :: StdMap.assign m key val

/-- The statement `m[k].push_back(x)` on a map of vectors. -/
def StdMap.pushBack (m : List (String × List String)) (key x : String) :
    List (String × List String) :=
  StdMap.assign m key ((StdMap.find m key).getD [] ++ [x])

/-- The test `m.count(k) > 0`. -/
def StdMap.contains {β : Type} (m : List (String × β)) (key : String) : Bool :=
  (StdMap.find m key).isSome

/-- The keys in iteration order. -/
def StdMap.keys {β : Type} (m : List (String × β)) : List String := m.map Prod.fst

/-! ## Data model -/

/-- The struct `TreeSitter::ClassInfo` (fields read by the analyzers). -/
structure ClassInfo where
  name : String
  base_class : String
  attributes : List String
  start_line : Nat
  end_line : Nat
deriving DecidableEq

/-- The struct `TreeSitter::MethodInfo` (fields read by the analyzers). -/
structure MethodInfo where
  name : String
  start_line : Nat
deriving DecidableEq

/-- The struct `TreeSitter::FieldInfo` (fields read by the analyzers). -/
structure FieldInfo where
  name : String
  type : String
  attributes : List String
  access_modifier : String
deriving DecidableEq

/-- The struct `MonoBehaviourInfo`. -/
structure MonoBehaviourInfo where
  class_name : String
  file_path : String
  unity_methods : List String
  custom_methods : List String
  serialized_fields : List String
  component_dependencies : List String
  attributes : List String
  method_purposes : List (String × String)
  start_line : Nat
  end_line : Nat
deriving DecidableEq

/-- The struct `ComponentDependency`. -/
structure ComponentDependency where
  source_component : String
  target_component : String
  dependency_type : String
  method_context : String
  line_number : Nat
deriving DecidableEq

/-- The struct `ComponentGraph`. -/
structure ComponentGraph where
  dependencies : List (String × List String)
  dependents : List (String × List String)
  edges : List ComponentDependency
deriving DecidableEq

/-- The private state of `ComponentDependencyAnalyzer`. -/
structure ComponentDependencyAnalyzer where
  m_dependencies : List ComponentDependency
  m_components : List (String × MonoBehaviourInfo)
deriving DecidableEq

/-! ## MonoBehaviourAnalyzer -/

/-- The set `UNITY_LIFECYCLE_METHODS`. -/
def UNITY_LIFECYCLE_METHODS : List String :=
  ["Awake", "Start", "Update", "FixedUpdate", "LateUpdate",
   "OnEnable", "OnDisable", "OnDestroy"]

/-- The set `UNITY_EVENT_METHODS`. -/
def UNITY_EVENT_METHODS : List String :=
  ["OnTriggerEnter", "OnTriggerExit", "OnTriggerStay",
   "OnCollisionEnter", "OnCollisionExit", "OnCollisionStay",
   "OnTriggerEnter2D", "OnTriggerExit2D", "OnTriggerStay2D",
   "OnCollisionEnter2D", "OnCollisionExit2D", "OnCollisionStay2D"]

/-- The set `UNITY_PHYSICS_METHODS`. -/
def UNITY_PHYSICS_METHODS : List String :=
  ["FixedUpdate", "OnCollisionEnter", "OnCollisionExit", "OnCollisionStay",
   "OnTriggerEnter", "OnTriggerExit", "OnTriggerStay",
   "OnCollisionEnter2D", "OnCollisionExit2D", "OnCollisionStay2D",
   "OnTriggerEnter2D", "OnTriggerExit2D", "OnTriggerStay2D"]

/-- The set `UNITY_RENDERING_METHODS`. -/
def UNITY_RENDERING_METHODS : List String :=
  ["OnPreRender", "OnPostRender", "OnRenderObject", "OnWillRenderObject",
   "OnBecameVisible", "OnBecameInvisible", "OnDrawGizmos", "OnDrawGizmosSelected"]

/-- The set `UNITY_INPUT_METHODS`. -/
def UNITY_INPUT_METHODS : List String :=
  ["OnMouseDown", "OnMouseUp", "OnMouseEnter", "OnMouseExit", "OnMouseOver",
   "OnMouseDrag", "OnMouseUpAsButton"]

/-- The method `MonoBehaviourAnalyzer::isMonoBehaviour`. -/
def isMonoBehaviour (class_info : ClassInfo) : Bool :=
  class_info.base_class = "MonoBehaviour" ||
  class_info.base_class = "UnityEngine.MonoBehaviour"

/-- The method `MonoBehaviourAnalyzer::isUnityMethod`. -/
def isUnityMethod (method_name : String) : Bool :=
  decide (method_name ∈ UNITY_LIFECYCLE_METHODS) ||
  decide (method_name ∈ UNITY_EVENT_METHODS) ||
  decide (method_name ∈ UNITY_PHYSICS_METHODS) ||
  decide (method_name ∈ UNITY_RENDERING_METHODS) ||
  decide (method_name ∈ UNITY_INPUT_METHODS)

/-- The test `s.find(lit) == 0`. -/
def startsWithLit (s lit : String) : Bool := strFind s lit = some 0

/-- The method `MonoBehaviourAnalyzer::inferMethodPurpose`. -/
def inferMethodPurpose (method_name : String) : String :=
  if method_name = "Awake" then "Initialize component references and setup"
  else if method_name = "Start" then "Initialize after all objects are created"
  else if method_name = "Update" then "Handle per-frame logic and input"
  else if method_name = "FixedUpdate" then "Handle physics and fixed-timestep logic"
  else if method_name = "LateUpdate" then "Handle logic after all Update calls"
  else if method_name = "OnEnable" then "Handle component activation"
  else if method_name = "OnDisable" then "Handle component deactivation"
  else if method_name = "OnDestroy" then "Cleanup resources and references"
  else if startsWithLit method_name "OnTrigger" then "Handle trigger collision events"
  else if startsWithLit method_name "OnCollision" then "Handle physics collision events"
  else if startsWithLit method_name "OnMouse" then "Handle mouse input events"
  else "Unity callback method"

/-- The method `MonoBehaviourAnalyzer::extractGetComponentCalls`: the three regular
expressions are run over the whole text one after the other, then the captures are sorted
and de-duplicated. -/
def extractGetComponentCalls (source_code : String) : List String :=
  let components :=
    regexFindAll "GetComponent<".data ">()".data 0 source_code.data ++
    regexFindAll "GetComponentInChildren<".data ">()".data 0 source_code.data ++
    regexFindAll "GetComponentInParent<".data ">()".data 0 source_code.data
  stdUnique (stdSort components)

/-- The method `MonoBehaviourAnalyzer::extractComponentDependencies`. -/
def extractComponentDependencies (source_code : String) : List String :=
  [] ++ extractGetComponentCalls source_code

/-- The capture of `RequireComponent\(typeof\((\w+)\)\)` in an attribute text, behind
the guard `attr.find("RequireComponent") != npos`. -/
def requireComponentTarget (attr : String) : Option String :=
  if (strFind attr "RequireComponent").isSome then
    regexSearch "RequireComponent(typeof(".data "))".data attr.data
  else none

/-- The method `MonoBehaviourAnalyzer::extractRequireComponentAttributes`. -/
def extractRequireComponentAttributes (attributes : List String) : List String :=
  attributes.filterMap requireComponentTarget

/-- The method `MonoBehaviourAnalyzer::hasUnityAttribute`. -/
def hasUnityAttribute (attributes : List String) (attr_name : String) : Bool :=
  attributes.any (fun attr => (strFind attr attr_name).isSome)

/-- The method `MonoBehaviourAnalyzer::extractSerializedFields`. -/
def extractSerializedFields (fields : List FieldInfo) : List String :=
  (fields.filter (fun field =>
      field.access_modifier = "public" || hasUnityAttribute field.attributes "SerializeField")).map
    (fun field => field.name ++ " : " ++ field.type)

/-- The method loop of `MonoBehaviourAnalyzer::analyzeMonoBehaviour`: every method of the
file goes to the Unity list or to the custom list. -/
def classifyMethods (mb_info : MonoBehaviourInfo) : List MethodInfo → MonoBehaviourInfo
  | [] => mb_info
  | method :: rest =>
    if isUnityMethod method.name then
      classifyMethods
        { mb_info with
          unity_methods := mb_info.unity_methods ++ [method.name]
          method_purposes :=
            StdMap.assign mb_info.method_purposes method.name (inferMethodPurpose method.name) }
        rest
    else
      classifyMethods { mb_info with custom_methods := mb_info.custom_methods ++ [method.name] }
        rest

/-- The method `MonoBehaviourAnalyzer::analyzeMonoBehaviour`: the record pushed to
`m_monobehaviours`. `source_code` is `m_parser.getSourceCode()`, the text of the whole file. -/
def analyzeMonoBehaviour (class_info : ClassInfo) (methods : List MethodInfo)
    (fields : List FieldInfo) (file_path source_code : String) : MonoBehaviourInfo :=
  let mb_info : MonoBehaviourInfo :=
    { class_name := class_info.name
      file_path := file_path
      unity_methods := []
      custom_methods := []
      serialized_fields := []
      component_dependencies := []
      attributes := class_info.attributes
      method_purposes := []
      start_line := class_info.start_line
      end_line := class_info.end_line }
  let mb_info := classifyMethods mb_info methods
  { mb_info with
    serialized_fields := extractSerializedFields fields
    component_dependencies :=
      extractComponentDependencies source_code ++
        extractRequireComponentAttributes class_info.attributes }

/-- What `CSharpParser` hands over after a successful parse of one file. -/
structure ParsedFile where
  classes : List ClassInfo
  methods : List MethodInfo
  fields : List FieldInfo
  source_code : String
deriving DecidableEq

/-- The method `MonoBehaviourAnalyzer::analyzeCode`, given the outcome of
`m_parser.parseCode` (`none` when it returns false): the returned flag and the new value of
`m_monobehaviours`. -/
def analyzeCode (parsed : Option ParsedFile) (file_path : String) :
    Bool × List MonoBehaviourInfo :=
  match parsed with
  | none => (false, [])
  | some p =>
    (true,
      (p.classes.filter isMonoBehaviour).map
        (fun class_info => analyzeMonoBehaviour class_info p.methods p.fields file_path
          p.source_code))

/-! ## ComponentDependencyAnalyzer -/

/-- The method `ComponentDependencyAnalyzer::extractDependenciesFromComponent`: the edges
pushed to `m_dependencies`, first one per declared dependency, then one per
`RequireComponent` attribute. -/
def extractDependenciesFromComponent (mb_info : MonoBehaviourInfo) : List ComponentDependency :=
  mb_info.component_dependencies.map
      (fun component_dep =>
        { source_component := mb_info.class_name
          target_component := component_dep
          dependency_type := "GetComponent"
          method_context := "Runtime"
          line_number := 0 }) ++
    mb_info.attributes.filterMap
      (fun attr =>
        (requireComponentTarget attr).map
          (fun target =>
            { source_component := mb_info.class_name
              target_component := target
              dependency_type := "RequireComponent"
              method_context := "Declaration"
              line_number := mb_info.start_line }))

/-- The method `ComponentDependencyAnalyzer::addMonoBehaviour`. -/
def addMonoBehaviour (s : ComponentDependencyAnalyzer) (mb_info : MonoBehaviourInfo) :
    ComponentDependencyAnalyzer :=
  { m_components := StdMap.assign s.m_components mb_info.class_name mb_info
    m_dependencies := s.m_dependencies ++ extractDependenciesFromComponent mb_info }

/-- The field loop of `analyzeCrossComponentReferences` for one component: the edge of a
field text `name : type` whose type is a key of `m_components`. -/
def crossReferenceEdge (m_components : List (String × MonoBehaviourInfo))
    (mb_info : MonoBehaviourInfo) (field : String) : Option ComponentDependency :=
  match strFind field " : " with
  | none => none
  | some colon_pos =>
    let field_type := substr field (colon_pos + 3)
    if StdMap.contains m_components field_type then
      some
        { source_component := mb_info.class_name
          target_component := field_type
          dependency_type := "Reference"
          method_context := "Field"
          line_number := 0 }
    else none

/-- The method `ComponentDependencyAnalyzer::analyzeCrossComponentReferences`. -/
def analyzeCrossComponentReferences (s : ComponentDependencyAnalyzer) :
    ComponentDependencyAnalyzer :=
  { s with
    m_dependencies :=
      s.m_dependencies ++
        s.m_components.flatMap
          (fun comp_pair =>
            comp_pair.2.serialized_fields.filterMap
              (crossReferenceEdge s.m_components comp_pair.2)) }

/-- The analyzer as constructed: both containers empty. -/
def ComponentDependencyAnalyzer.init : ComponentDependencyAnalyzer :=
  { m_dependencies := [], m_components := [] }

/-- The method `ComponentDependencyAnalyzer::analyzeProject`; the state before the call is
cleared, so it is no argument. -/
def analyzeProject (monobehaviours : List MonoBehaviourInfo) : ComponentDependencyAnalyzer :=
  analyzeCrossComponentReferences
    (monobehaviours.foldl addMonoBehaviour ComponentDependencyAnalyzer.init)

/-- The two sort-and-unique loops of `buildDependencyGraph`, on one of the maps. -/
def sortUniqueValues (m : List (String × List String)) : List (String × List String) :=
  m.map (fun pair => (pair.1, stdUnique (stdSort pair.2)))

/-- The first loop of `buildDependencyGraph`: one step per raw edge. -/
def addEdge (graph : ComponentGraph) (dep : ComponentDependency) : ComponentGraph :=
  { dependencies := StdMap.pushBack graph.dependencies dep.source_component dep.target_component
    dependents := StdMap.pushBack graph.dependents dep.target_component dep.source_component
    edges := graph.edges ++ [dep] }

/-- The method `ComponentDependencyAnalyzer::buildDependencyGraph`. -/
def buildDependencyGraph (s : ComponentDependencyAnalyzer) : ComponentGraph :=
  let graph := s.m_dependencies.foldl addEdge { dependencies := [], dependents := [], edges := [] }
  { dependencies := sortUniqueValues graph.dependencies
    dependents := sortUniqueValues graph.dependents
    edges := graph.edges }

/-- The method `ComponentDependencyAnalyzer::getDependencies`. -/
def getDependencies (s : ComponentDependencyAnalyzer) : List ComponentDependency :=
  s.m_dependencies

/-- The method `ComponentDependencyAnalyzer::getComponentDependencies`. -/
def getComponentDependencies (s : ComponentDependencyAnalyzer) (component_name : String) :
    List String :=
  stdUnique (stdSort
    ((s.m_dependencies.filter (fun dep => dep.source_component = component_name)).map
      (fun dep => dep.target_component)))

/-- The method `ComponentDependencyAnalyzer::getComponentDependents`. -/
def getComponentDependents (s : ComponentDependencyAnalyzer) (component_name : String) :
    List String :=
  stdUnique (stdSort
    ((s.m_dependencies.filter (fun dep => dep.target_component = component_name)).map
      (fun dep => dep.source_component)))

/-- The adjacency list read by the traversals: `graph.dependencies.find(component)`, empty
when the key is absent. -/
def ComponentGraph.adj (graph : ComponentGraph) (component : String) : List String :=
  (StdMap.find graph.dependencies component).getD []

/-- The loop over `deps_it->second` in `hasCyclicDependenciesRecursive`, with the recursive
call as a parameter: the result is the flag returned so far and the sets `visiting` and
`visited`. A `true` ends the loop (`return true`). -/
def cyclicLoop (recurse : String → List String → List String →
      Option (Bool × List String × List String)) :
    List String → List String → List String → Option (Bool × List String × List String)
  | [], visiting, visited => some (false, visiting, visited)
  | dep :: rest, visiting, visited =>
    if dep ∈ visiting then some (true, visiting, visited)
    else if dep ∉ visited then
      match recurse dep visiting visited with
      | none => none
      | some (true, visiting1, visited1) => some (true, visiting1, visited1)
      | some (false, visiting1, visited1) => cyclicLoop recurse rest visiting1 visited1
    else cyclicLoop recurse rest visiting visited

/-- The method `ComponentDependencyAnalyzer::hasCyclicDependenciesRecursive`: the returned
flag and the sets `visiting` and `visited` after the call; `none` when the fuel runs out. -/
def hasCyclicDependenciesRecursive (graph : ComponentGraph) :
    Nat → String → List String → List String → Option (Bool × List String × List String)
  | 0, _, _, _ => none
  | fuel + 1, component, visiting, visited =>
    match cyclicLoop (hasCyclicDependenciesRecursive graph fuel) (graph.adj component)
        (visiting.insert component) visited with
    | none => none
    | some (true, visiting1, visited1) => some (true, visiting1, visited1)
    | some (false, visiting1, visited1) =>
      some (false, visiting1.erase component, visited1.insert component)

/-- The loop over `m_components` in `hasCyclicDependencies`. -/
def cyclicOuterLoop (graph : ComponentGraph) (fuel : Nat) :
    List String → List String → List String → Option Bool
  | [], _, _ => some false
  | component :: rest, visiting, visited =>
    if component ∉ visited then
      match hasCyclicDependenciesRecursive graph fuel component visiting visited with
      | none => none
      | some (true, _, _) => some true
      | some (false, visiting1, visited1) => cyclicOuterLoop graph fuel rest visiting1 visited1
    else cyclicOuterLoop graph fuel rest visiting visited

/-- A recursion depth no traversal of the graph of `s` exceeds: one more than the number of
names that occur as a component or as an end of an edge. -/
def traversalFuel (s : ComponentDependencyAnalyzer) : Nat :=
  (StdMap.keys s.m_components).length + s.m_dependencies.length + s.m_dependencies.length + 1

/-- The method `ComponentDependencyAnalyzer::hasCyclicDependencies`. -/
def hasCyclicDependencies (s : ComponentDependencyAnalyzer) : Option Bool :=
  cyclicOuterLoop (buildDependencyGraph s) (traversalFuel s) (StdMap.keys s.m_components) [] []

/-- The loop over `deps_it->second` in `topologicalSortRecursive`, with the recursive call
as a parameter: the set `visited` and the vector `result`. -/
def topologicalLoop (recurse : String → List String → List String →
      Option (List String × List String)) :
    List String → List String → List String → Option (List String × List String)
  | [], visited, result => some (visited, result)
  | dep :: rest, visited, result =>
    if dep ∉ visited then
      match recurse dep visited result with
      | none => none
      | some (visited1, result1) => topologicalLoop recurse rest visited1 result1
    else topologicalLoop recurse rest visited result

/-- The method `ComponentDependencyAnalyzer::topologicalSortRecursive`: the set `visited` and
the vector `result` after the call; `none` when the fuel runs out. -/
def topologicalSortRecursive (graph : ComponentGraph) :
    Nat → String → List String → List String → Option (List String × List String)
  | 0, _, _, _ => none
  | fuel + 1, component, visited, result =>
    match topologicalLoop (topologicalSortRecursive graph fuel) (graph.adj component)
        (visited.insert component) result with
    | none => none
    | some (visited1, result1) => some (visited1, result1 ++ [component])

/-- The loop over `m_components` in `getTopologicalOrder`. -/
def topologicalOuterLoop (graph : ComponentGraph) (fuel : Nat) :
    List String → List String → List String → Option (List String × List String)
  | [], visited, result => some (visited, result)
  | component :: rest, visited, result =>
    if component ∉ visited then
      match topologicalSortRecursive graph fuel component visited result with
      | none => none
      | some (visited1, result1) => topologicalOuterLoop graph fuel rest visited1 result1
    else topologicalOuterLoop graph fuel rest visited result

/-- The method `ComponentDependencyAnalyzer::getTopologicalOrder`. -/
def getTopologicalOrder (s : ComponentDependencyAnalyzer) : Option (List String) :=
  match topologicalOuterLoop (buildDependencyGraph s) (traversalFuel s)
      (StdMap.keys s.m_components) [] [] with
  | none => none
  | some (_, result) => some result.reverse

/-- A record with the given name and declared dependencies, everything else empty. -/
def simpleComponent (class_name : String) (component_dependencies : List String) :
    MonoBehaviourInfo :=
  { class_name := class_name
    file_path := ""
    unity_methods := []
    custom_methods := []
    serialized_fields := []
    component_dependencies := component_dependencies
    attributes := []
    method_purposes := []
    start_line := 0
    end_line := 0 }

/-- The targets of the raw edges that leave `k`, in edge order. -/
def targetsOf (edges : List ComponentDependency) (k : String) : List String :=
  (edges.filter (fun dep => dep.source_component = k)).map (fun dep => dep.target_component)

/-- The sources of the raw edges that enter `k`, in edge order. -/
def sourcesOf (edges : List ComponentDependency) (k : String) : List String :=
  (edges.filter (fun dep => dep.target_component = k)).map (fun dep => dep.source_component)

/-- The list `graph.dependents[component]`, empty when the key is absent. -/
def ComponentGraph.rev (graph : ComponentGraph) (component : String) : List String :=
  (StdMap.find graph.dependents component).getD []

/-- The edge relation of the graph: `a` depends on `b`. -/
def ComponentGraph.Edge (graph : ComponentGraph) (a b : String) : Prop := b ∈ graph.adj a

/-- The analyzer states that the public interface can produce: the constructed analyzer,
followed by any sequence of `addMonoBehaviour` and `analyzeProject` calls. -/
inductive Reachable : ComponentDependencyAnalyzer → Prop
  | init : Reachable ComponentDependencyAnalyzer.init
  | add (s : ComponentDependencyAnalyzer) (mb_info : MonoBehaviourInfo) :
      Reachable s → Reachable (addMonoBehaviour s mb_info)
  | analyze (monobehaviours : List MonoBehaviourInfo) : Reachable (analyzeProject monobehaviours)

/-- The graph has a cycle: a nonempty directed path from some name back to itself. -/
def ComponentGraph.HasCycle (graph : ComponentGraph) : Prop :=
  ∃ n : String, Relation.TransGen graph.Edge n n

/-- A list of names in which every name has all its dependencies further down the list. -/
def OrderedClosed (graph : ComponentGraph) : List String → Prop
  | [] => True
  | n :: l => (∀ m ∈ graph.adj n, m ∈ l) ∧ OrderedClosed graph l

/-- All names a traversal of the graph of `s` can meet: the registered components and both
ends of every raw edge. -/
def allNames (s : ComponentDependencyAnalyzer) : List String :=
  StdMap.keys s.m_components ++ s.m_dependencies.map (fun dep => dep.source_component) ++
    s.m_dependencies.map (fun dep => dep.target_component)

/-- How many of the names in `names` are not yet in `seen`. -/
def unseenCount (names seen : List String) : Nat :=
  (names.toFinset \ seen.toFinset).card

/-- The invariant of cycle detection between calls: `visited` lists every finished name
above all its dependencies, without repetition, and shares no name with `visiting`. -/
def CycInv (g : ComponentGraph) (visiting visited : List String) : Prop :=
  visited.Nodup ∧ OrderedClosed g visited ∧ ∀ x ∈ visiting, x ∉ visited

/-- What a call of the recursive cycle test guarantees when it returns. -/
def CycSpec (g : ComponentGraph)
    (recurse : String → List String → List String → Option (Bool × List String × List String)) :
    Prop :=
  ∀ c vg vd b vg1 vd1, recurse c vg vd = some (b, vg1, vd1) → c ∉ vg → c ∉ vd →
    CycInv g vg vd → (∀ x ∈ vg, Relation.ReflTransGen g.Edge x c) →
    (b = true → g.HasCycle) ∧
    (b = false → vg1 = vg ∧ CycInv g vg vd1 ∧ c ∈ vd1 ∧ ∀ x ∈ vd, x ∈ vd1)

/-- With fuel `f` the recursive cycle test returns whenever at most `f` names of `U` are
unseen, and it never forgets a name. -/
def CycTotal (U : List String)
    (recurse : String → List String → List String → Option (Bool × List String × List String))
    (f : Nat) : Prop :=
  ∀ c vg vd, c ∈ U → c ∉ vg → c ∉ vd → unseenCount U (vg ++ vd) ≤ f →
    ∃ b vg1 vd1, recurse c vg vd = some (b, vg1, vd1) ∧
      (∀ x ∈ vg, x ∈ vg1) ∧ ∀ x ∈ vd, x ∈ vd1

/-- Every raw edge leaves a registered component. -/
def SourcesRegistered (s : ComponentDependencyAnalyzer) : Prop :=
  ∀ dep ∈ s.m_dependencies, dep.source_component ∈ StdMap.keys s.m_components

/-- Every entry of the component map is filed under its own class name. -/
def KeysMatch (s : ComponentDependencyAnalyzer) : Prop :=
  ∀ pair ∈ s.m_components, pair.1 = pair.2.class_name

/-- The invariant of the topological traversal. `stk` is the chain of calls in progress.
The result has no repetition; the visited names are the finished ones and the ones in
progress; every dependency of a finished name has been visited; and, when the graph has no
cycle, every finished name comes after all its dependencies in `result`. -/
def TopInv (g : ComponentGraph) (stk visited result : List String) : Prop :=
  result.Nodup ∧ (∀ x, x ∈ visited ↔ x ∈ result ∨ x ∈ stk) ∧ (∀ x ∈ stk, x ∉ result) ∧
  (∀ x ∈ result, ∀ m ∈ g.adj x, m ∈ visited) ∧
  (¬ g.HasCycle → OrderedClosed g result.reverse)

/-- What a call of the recursive topological visit guarantees when it returns. -/
def TopSpec (g : ComponentGraph)
    (recurse : String → List String → List String → Option (List String × List String)) :
    Prop :=
  ∀ c stk vd res vd1 res1, recurse c vd res = some (vd1, res1) → c ∉ vd →
    TopInv g stk vd res → (∀ x ∈ stk, Relation.ReflTransGen g.Edge x c) →
    TopInv g stk vd1 res1 ∧ c ∈ res1 ∧ (∀ x ∈ vd, x ∈ vd1) ∧ (∀ x ∈ res, x ∈ res1) ∧
      ∀ x ∈ res1, x ∈ res ∨ Relation.ReflTransGen g.Edge c x

/-- With fuel `f` the recursive topological visit returns whenever at most `f` names of `U`
are unvisited, and it never forgets a visited name. -/
def TopTotal (U : List String)
    (recurse : String → List String → List String → Option (List String × List String))
    (f : Nat) : Prop :=
  ∀ c vd res, c ∈ U → c ∉ vd → unseenCount U vd ≤ f →
    ∃ vd1 res1, recurse c vd res = some (vd1, res1) ∧ ∀ x ∈ vd, x ∈ vd1

/-- The keys of the component map are strictly ascending. -/
def KeysSorted (s : ComponentDependencyAnalyzer) : Prop :=
  List.Sorted strLt (StdMap.keys s.m_components)

/-- The edges that `analyzeCrossComponentReferences` appends, given the component map. -/
def crossReferenceEdges (m_components : List (String × MonoBehaviourInfo)) :
    List ComponentDependency :=
  m_components.flatMap
    (fun comp_pair =>
      comp_pair.2.serialized_fields.filterMap (crossReferenceEdge m_components comp_pair.2))

/-- The last record of the list that carries the class name `n`. -/
def lastNamed (mbs : List MonoBehaviourInfo) (n : String) : Option MonoBehaviourInfo :=
  (mbs.filter (fun mb => mb.class_name = n)).getLast?

/-- The edge that the first loop of `extractDependenciesFromComponent` pushes for one declared
dependency. -/
def getComponentEdge (class_name component_dep : String) : ComponentDependency :=
  { source_component := class_name
    target_component := component_dep
    dependency_type := "GetComponent"
    method_context := "Runtime"
    line_number := 0 }

/-- A file with one component class `A` that carries `RequireComponent(typeof(Rigidbody))`. -/
def requireRigidbodyFile : ParsedFile :=
  { classes :=
      [{ name := "A"
         base_class := "MonoBehaviour"
         attributes := ["RequireComponent(typeof(Rigidbody))"]
         start_line := 1
         end_line := 1 }]
    methods := []
    fields := []
    source_code := "[RequireComponent(typeof(Rigidbody))] class A : MonoBehaviour \x7b \x7d" }

/-- The type text that `analyzeCrossComponentReferences` reads off a field text: what follows
the first ` : `. -/
def fieldTypeOf (field : String) : Option String :=
  (strFind field " : ").map (fun colon_pos => substr field (colon_pos + 3))

/-- The edge that `analyzeCrossComponentReferences` pushes for a field of a known type. -/
def referenceEdge (class_name field_type : String) : ComponentDependency :=
  { source_component := class_name
    target_component := field_type
    dependency_type := "Reference"
    method_context := "Field"
    line_number := 0 }

/-- The arguments of one call of `analyzeMonoBehaviour`: a qualifying class, the methods and
fields the parser extracted, the path and the text of the file. -/
structure ComponentInput where
  class_info : ClassInfo
  methods : List MethodInfo
  fields : List FieldInfo
  file_path : String
  source_code : String
deriving DecidableEq

/-- The record that `analyzeMonoBehaviour` builds from the input. -/
def ComponentInput.record (input : ComponentInput) : MonoBehaviourInfo :=
  analyzeMonoBehaviour input.class_info input.methods input.fields input.file_path
    input.source_code

/-- The last input of the list whose class carries the name `n`. -/
def lastInputNamed (inputs : List ComponentInput) (n : String) : Option ComponentInput :=
  (inputs.filter (fun input => input.class_info.name = n)).getLast?

/-- Two components: `A` with a public field `b` of type `B` and a private field of type `B`,
and `B` without fields. -/
def fieldReferenceInputs : List ComponentInput :=
  [{ class_info :=
       { name := "A", base_class := "MonoBehaviour", attributes := [], start_line := 1,
         end_line := 5 }
     methods := []
     fields :=
       [{ name := "b", type := "B", attributes := [], access_modifier := "public" },
        { name := "c", type := "C", attributes := [], access_modifier := "private" }]
     file_path := "A.cs"
     source_code := "class A : MonoBehaviour \x7b public B b; private C c; \x7d" },
   { class_info :=
       { name := "B", base_class := "MonoBehaviour", attributes := [], start_line := 1,
         end_line := 1 }
     methods := []
     fields := []
     file_path := "B.cs"
     source_code := "class B : MonoBehaviour \x7b \x7d" }]

/-- A component class `A` whose text calls `GetComponent<T>()` at two places. -/
def twoCallSitesInput : ComponentInput :=
  { class_info :=
      { name := "A", base_class := "MonoBehaviour", attributes := [], start_line := 1,
        end_line := 1 }
    methods := [{ name := "Start", start_line := 1 }]
    fields := []
    file_path := "A.cs"
    source_code :=
      "class A : MonoBehaviour \x7b void Start() \x7b GetComponent<T>(); GetComponent<T>(); \x7d \x7d" }

/-- The file of `twoCallSitesInput` as the parser hands it over. -/
def twoCallSitesFile : ParsedFile :=
  { classes := [twoCallSitesInput.class_info]
    methods := twoCallSitesInput.methods
    fields := twoCallSitesInput.fields
    source_code := twoCallSitesInput.source_code }

/-- The call `std::sort(v.begin(), v.end(), comp)` with a comparison `comp` ("comes before").
`std::sort` leaves the relative order of equivalent elements unspecified; the model inserts
stably, which is one of the results it may give. -/
def stdSortBy {α : Type} (comp : α → α → Bool) (v : List α) : List α :=
  v.insertionSort (fun a b => comp b a = false)

/-- The enum `LifecyclePhase`. -/
inductive LifecyclePhase
  | Initialization
  | Activation
  | FrameUpdate
  | PhysicsUpdate
  | LateFrameUpdate
  | PhysicsEvent
  | InputEvent
  | RenderingEvent
  | Deactivation
  | Cleanup
  | Custom
deriving DecidableEq

/-- The value of the enumerator, which orders the keys of `phase_methods`. -/
def LifecyclePhase.toNat : LifecyclePhase → Nat
  | Initialization => 0
  | Activation => 1
  | FrameUpdate => 2
  | PhysicsUpdate => 3
  | LateFrameUpdate => 4
  | PhysicsEvent => 5
  | InputEvent => 6
  | RenderingEvent => 7
  | Deactivation => 8
  | Cleanup => 9
  | Custom => 10

/-- The struct `LifecycleMethodInfo`. -/
structure LifecycleMethodInfo where
  method_name : String
  class_name : String
  phase : LifecyclePhase
  execution_order : Int
  purpose : String
  interactions : List String
  line_number : Nat
deriving DecidableEq

/-- The struct `LifecycleFlow`. -/
structure LifecycleFlow where
  component_name : String
  methods : List LifecycleMethodInfo
  phase_methods : List (LifecyclePhase × List String)
  data_flow : List String
deriving DecidableEq

/-- The table `LifecycleAnalyzer::METHOD_PHASES`, in the order of its initialiser; the keys
are pairwise different, so a lookup does not depend on the order. -/
def METHOD_PHASES : List (String × LifecyclePhase) :=
  [("Awake", LifecyclePhase.Initialization),
   ("Start", LifecyclePhase.Initialization),
   ("OnEnable", LifecyclePhase.Activation),
   ("Update", LifecyclePhase.FrameUpdate),
   ("FixedUpdate", LifecyclePhase.PhysicsUpdate),
   ("LateUpdate", LifecyclePhase.LateFrameUpdate),
   ("OnTriggerEnter", LifecyclePhase.PhysicsEvent),
   ("OnTriggerExit", LifecyclePhase.PhysicsEvent),
   ("OnTriggerStay", LifecyclePhase.PhysicsEvent),
   ("OnCollisionEnter", LifecyclePhase.PhysicsEvent),
   ("OnCollisionExit", LifecyclePhase.PhysicsEvent),
   ("OnCollisionStay", LifecyclePhase.PhysicsEvent),
   ("OnTriggerEnter2D", LifecyclePhase.PhysicsEvent),
   ("OnTriggerExit2D", LifecyclePhase.PhysicsEvent),
   ("OnTriggerStay2D", LifecyclePhase.PhysicsEvent),
   ("OnCollisionEnter2D", LifecyclePhase.PhysicsEvent),
   ("OnCollisionExit2D", LifecyclePhase.PhysicsEvent),
   ("OnCollisionStay2D", LifecyclePhase.PhysicsEvent),
   ("OnMouseDown", LifecyclePhase.InputEvent),
   ("OnMouseUp", LifecyclePhase.InputEvent),
   ("OnMouseEnter", LifecyclePhase.InputEvent),
   ("OnMouseExit", LifecyclePhase.InputEvent),
   ("OnMouseOver", LifecyclePhase.InputEvent),
   ("OnMouseDrag", LifecyclePhase.InputEvent),
   ("OnMouseUpAsButton", LifecyclePhase.InputEvent),
   ("OnPreRender", LifecyclePhase.RenderingEvent),
   ("OnPostRender", LifecyclePhase.RenderingEvent),
   ("OnRenderObject", LifecyclePhase.RenderingEvent),
   ("OnWillRenderObject", LifecyclePhase.RenderingEvent),
   ("OnBecameVisible", LifecyclePhase.RenderingEvent),
   ("OnBecameInvisible", LifecyclePhase.RenderingEvent),
   ("OnDrawGizmos", LifecyclePhase.RenderingEvent),
   ("OnDrawGizmosSelected", LifecyclePhase.RenderingEvent),
   ("OnDisable", LifecyclePhase.Deactivation),
   ("OnDestroy", LifecyclePhase.Cleanup)]

/-- The table `LifecycleAnalyzer::METHOD_EXECUTION_ORDER`, in the order of its initialiser;
the keys are pairwise different. -/
def METHOD_EXECUTION_ORDER : List (String × Int) :=
  [("Awake", 1),
   ("OnEnable", 2),
   ("Start", 3),
   ("Update", 100),
   ("FixedUpdate", 101),
   ("LateUpdate", 102),
   ("OnTriggerEnter", 200),
   ("OnTriggerStay", 201),
   ("OnTriggerExit", 202),
   ("OnCollisionEnter", 203),
   ("OnCollisionStay", 204),
   ("OnCollisionExit", 205),
   ("OnMouseDown", 300),
   ("OnMouseUp", 301),
   ("OnMouseEnter", 302),
   ("OnMouseExit", 303),
   ("OnMouseOver", 304),
   ("OnMouseDrag", 305),
   ("OnMouseUpAsButton", 306),
   ("OnPreRender", 400),
   ("OnWillRenderObject", 401),
   ("OnRenderObject", 402),
   ("OnPostRender", 403),
   ("OnBecameVisible", 404),
   ("OnBecameInvisible", 405),
   ("OnDrawGizmos", 406),
   ("OnDrawGizmosSelected", 407),
   ("OnDisable", 500),
   ("OnDestroy", 501)]

/-- The method `LifecycleAnalyzer::getMethodPhase`. -/
def getMethodPhase (method_name : String) : LifecyclePhase :=
  match StdMap.find METHOD_PHASES method_name with
  | some phase => phase
  | none => LifecyclePhase.Custom

/-- The method `LifecycleAnalyzer::getMethodExecutionOrder`. -/
def getMethodExecutionOrder (method_name : String) : Int :=
  match StdMap.find METHOD_EXECUTION_ORDER method_name with
  | some order => order
  | none => 1000

/-- The method `LifecycleAnalyzer::analyzeMethodInteractions`. -/
def analyzeMethodInteractions (mb_info : MonoBehaviourInfo) (method_name : String) :
    List String :=
  let interactions := mb_info.component_dependencies.map (fun dep => "Interacts with " ++ dep)
  if method_name = "Awake" then
    interactions ++ ["Initializes component references", "Sets up initial state"]
  else if method_name = "Start" then
    interactions ++ ["Accesses other initialized components", "Starts component behaviors"]
  else if method_name = "Update" then
    interactions ++ ["Processes input", "Updates game state"]
  else if method_name = "FixedUpdate" then
    interactions ++ ["Applies physics forces", "Updates rigidbody properties"]
  else interactions

/-- The locals of `extractDataFlow`: the three flags and the list built so far. -/
structure DataFlowState where
  has_input : Bool
  has_physics : Bool
  has_rendering : Bool
  data_flow : List String
deriving DecidableEq

/-- One pass of the loop of `extractDataFlow` over `mb_info.unity_methods`. -/
def dataFlowStep (st : DataFlowState) (method : String) : DataFlowState :=
  if method = "Update" then
    { st with has_input := true, data_flow := st.data_flow ++ ["Input Processing"] }
  else if method = "FixedUpdate" then
    { st with has_physics := true, data_flow := st.data_flow ++ ["Physics Update"] }
  else if (strFind method "OnRender").isSome || (strFind method "OnDraw").isSome then
    { st with has_rendering := true, data_flow := st.data_flow ++ ["Rendering"] }
  else st

/-- The method `LifecycleAnalyzer::extractDataFlow`. -/
def extractDataFlow (mb_info : MonoBehaviourInfo) : List String :=
  let st := mb_info.unity_methods.foldl dataFlowStep
    { has_input := false, has_physics := false, has_rendering := false, data_flow := [] }
  let data_flow :=
    if st.has_input && st.has_physics then st.data_flow ++ ["Input → Physics"] else st.data_flow
  if st.has_physics && st.has_rendering then data_flow ++ ["Physics → Rendering"] else data_flow

/-- The lookup `m.find(k)` of a map keyed by `LifecyclePhase`. -/
def phaseMapFind : List (LifecyclePhase × List String) → LifecyclePhase → Option (List String)
  | [], _ => none
  | (k, v) :: m, key => if key = k then some v else phaseMapFind m key

/-- The assignment `m[k] = v` of a map keyed by `LifecyclePhase`, the keys kept in the order
of the enumerators. -/
def phaseMapAssign : List (LifecyclePhase × List String) → LifecyclePhase → List String →
    List (LifecyclePhase × List String)
  | [], key, val => [(key, val)]
  | (k, v) :: m, key, val =>
    if key.toNat < k.toNat then (key, val) :: (k, v) :: m
    else if key = k then (key, val) :: m
    else (k, v) :: phaseMapAssign m key val

/-- The record that the loop of `analyzeComponent` builds for one lifecycle method. -/
def lifecycleMethodInfo (mb_info : MonoBehaviourInfo) (method_name : String) :
    LifecycleMethodInfo :=
  { method_name := method_name
    class_name := mb_info.class_name
    phase := getMethodPhase method_name
    execution_order := getMethodExecutionOrder method_name
    purpose := (StdMap.find mb_info.method_purposes method_name).getD ""
    interactions := analyzeMethodInteractions mb_info method_name
    line_number := 0 }

/-- One pass of the first loop of `analyzeComponent`. -/
def lifecycleFlowStep (mb_info : MonoBehaviourInfo) (flow : LifecycleFlow)
    (method_name : String) : LifecycleFlow :=
  let method_info := lifecycleMethodInfo mb_info method_name
  { flow with
    methods := flow.methods ++ [method_info]
    phase_methods :=
      phaseMapAssign flow.phase_methods method_info.phase
        ((phaseMapFind flow.phase_methods method_info.phase).getD [] ++ [method_name]) }

/-- The flow that `analyzeComponent` computes for a component, before it is stored. -/
def componentLifecycleFlow (mb_info : MonoBehaviourInfo) : LifecycleFlow :=
  let flow := mb_info.unity_methods.foldl (lifecycleFlowStep mb_info)
    { component_name := mb_info.class_name, methods := [], phase_methods := [], data_flow := [] }
  { flow with
    methods := stdSortBy (fun a b => decide (a.execution_order < b.execution_order)) flow.methods
    data_flow := extractDataFlow mb_info }

/-- The private state of `LifecycleAnalyzer`: the map `m_component_lifecycles`. -/
structure LifecycleAnalyzer where
  m_component_lifecycles : List (String × LifecycleFlow)
deriving DecidableEq

/-- The method `LifecycleAnalyzer::analyzeComponent`. -/
def LifecycleAnalyzer.analyzeComponent (s : LifecycleAnalyzer) (mb_info : MonoBehaviourInfo) :
    LifecycleAnalyzer :=
  { m_component_lifecycles :=
      StdMap.assign s.m_component_lifecycles mb_info.class_name (componentLifecycleFlow mb_info) }

/-- The method `LifecycleAnalyzer::analyzeProject`; the map is cleared first, so the state
before the call is no argument. -/
def LifecycleAnalyzer.analyzeProject (monobehaviours : List MonoBehaviourInfo) :
    LifecycleAnalyzer :=
  monobehaviours.foldl LifecycleAnalyzer.analyzeComponent { m_component_lifecycles := [] }

/-- The method `LifecycleAnalyzer::getComponentLifecycle`; a default-constructed flow when
the component is unknown. -/
def LifecycleAnalyzer.getComponentLifecycle (s : LifecycleAnalyzer) (component_name : String) :
    LifecycleFlow :=
  match StdMap.find s.m_component_lifecycles component_name with
  | some flow => flow
  | none => { component_name := "", methods := [], phase_methods := [], data_flow := [] }

/-- The method `LifecycleAnalyzer::getAllLifecycleFlows`. -/
def LifecycleAnalyzer.getAllLifecycleFlows (s : LifecycleAnalyzer) : List LifecycleFlow :=
  s.m_component_lifecycles.map Prod.snd

/-- A record with the given name and lifecycle methods, everything else empty. -/
def lifecycleComponent (class_name : String) (unity_methods : List String) :
    MonoBehaviourInfo :=
  { simpleComponent class_name [] with unity_methods := unity_methods }

/-- The closed vocabulary of callback names: the five sets of `isUnityMethod` together. -/
def unityMethodNames : List String :=
  UNITY_LIFECYCLE_METHODS ++ UNITY_EVENT_METHODS ++ UNITY_PHYSICS_METHODS ++
    UNITY_RENDERING_METHODS ++ UNITY_INPUT_METHODS

/-- The callbacks of the vocabulary that `METHOD_EXECUTION_ORDER` has no entry for. -/
def callbacksWithoutOrder : List String :=
  ["OnTriggerEnter2D", "OnTriggerExit2D", "OnTriggerStay2D",
   "OnCollisionEnter2D", "OnCollisionExit2D", "OnCollisionStay2D"]

/-- The test of the third branch of the loop of `extractDataFlow`: the name contains
`OnRender` or `OnDraw`. -/
def isRenderingName (method : String) : Bool :=
  (strFind method "OnRender").isSome || (strFind method "OnDraw").isSome

/-- The label that the loop of `extractDataFlow` pushes for a method, if any. -/
def dataFlowLabel (method : String) : Option String :=
  if method = "Update" then some "Input Processing"
  else if method = "FixedUpdate" then some "Physics Update"
  else if isRenderingName method then some "Rendering"
  else none

/-- A non-negative finite value of the C++ type `float` (IEEE 754 binary32): the number
`mant * 2 ^ exp`. The values that occur here are positive and far from the overflow and
subnormal ranges, which are not modelled. -/
structure Float32 where
  mant : Nat
  exp : Int
deriving DecidableEq

/-- The real number that a `Float32` denotes. -/
def Float32.toRat (x : Float32) : ℚ := (x.mant : ℚ) * (2 : ℚ) ^ x.exp

/-- The number of binary digits of `n`, computed with `fuel` halvings at most. -/
def bitLengthAux : Nat → Nat → Nat
  | 0, _ => 0
  | fuel + 1, n => if n = 0 then 0 else bitLengthAux fuel (n / 2) + 1

/-- The number of binary digits of `n`. -/
def bitLength (n : Nat) : Nat := bitLengthAux n n

/-- Rounding of the exact number `mant * 2 ^ exp` to binary32: the significand is cut to 24
bits, to nearest, ties to even. -/
def Float32.round (mant : Nat) (exp : Int) : Float32 :=
  if mant < 2 ^ 24 then { mant := mant, exp := exp }
  else
    let k := bitLength mant - 24
    let q := mant / 2 ^ k
    let r := mant % 2 ^ k
    let half := 2 ^ (k - 1)
    let q := if half < r ∨ (r = half ∧ q % 2 = 1) then q + 1 else q
    { mant := q, exp := exp + k }

/-- The conversion of a `size_t` to `float`. -/
def Float32.ofNat (n : Nat) : Float32 := Float32.round n 0

/-- The product of two floats, `x * y`. -/
def Float32.mul (x y : Float32) : Float32 := Float32.round (x.mant * y.mant) (x.exp + y.exp)

/-- The sum of two floats, `x + y`. -/
def Float32.add (x y : Float32) : Float32 :=
  let e := min x.exp y.exp
  Float32.round (x.mant * 2 ^ (x.exp - e).toNat + y.mant * 2 ^ (y.exp - e).toNat) e

/-- The comparison `x < y` of two floats. -/
def Float32.lt (x y : Float32) : Bool :=
  let e := min x.exp y.exp
  decide (x.mant * 2 ^ (x.exp - e).toNat < y.mant * 2 ^ (y.exp - e).toNat)

/-- The call `std::min(a, b)`, which is `b` when `b < a` and `a` otherwise. -/
def Float32.min (a b : Float32) : Float32 := if Float32.lt b a then b else a

/-- The literal `0.5f`. -/
def Float32.half : Float32 := { mant := 1, exp := -1 }

/-- The literal `0.15f`: the binary32 value nearest to 0.15. -/
def Float32.c015 : Float32 := { mant := 10066330, exp := -26 }

/-- The literal `0.95f`: the binary32 value nearest to 0.95. -/
def Float32.c095 : Float32 := { mant := 15938355, exp := -24 }

/-- The method `UnityPatternDetector::calculateConfidenceScore`. -/
def calculateConfidenceScore (evidence : List String) : Float32 :=
  let base_score := Float32.half
  let evidence_bonus := Float32.mul (Float32.ofNat evidence.length) Float32.c015
  Float32.min Float32.c095 (Float32.add base_score evidence_bonus)

/-- The enum `UnityPattern`. -/
inductive UnityPattern
  | SingletonMonoBehaviour
  | ObjectPooling
  | StatePattern
  | ObserverPattern
  | ComponentComposition
  | ServiceLocator
  | FactoryPattern
  | CommandPattern
  | MVC_Pattern
  | ECS_Pattern
  | Unknown
deriving DecidableEq

/-- The struct `PatternInstance`. -/
structure PatternInstance where
  pattern_type : UnityPattern
  pattern_name : String
  involved_components : List String
  description : String
  purpose : String
  confidence_score : Float32
  evidence : List String
deriving DecidableEq

/-- What every detector does once it fires: fill a `PatternInstance`, push the three evidence
strings and compute the confidence from them. -/
def makePattern (pattern_type : UnityPattern) (pattern_name : String)
    (involved_components : List String) (description purpose : String)
    (evidence : List String) : PatternInstance :=
  { pattern_type := pattern_type
    pattern_name := pattern_name
    involved_components := involved_components
    description := description
    purpose := purpose
    confidence_score := calculateConfidenceScore evidence
    evidence := evidence }

/-- The test `s.find(needle) != std::string::npos`. -/
def containsStr (s needle : String) : Bool := (strFind s needle).isSome

/-- The character class of `.` in a `std::regex` (ECMAScript grammar): every character but
a line terminator. -/
def isDotChar (c : Char) : Bool := !(c = '\n' || c = '\r')

/-- Whether the whole of `s` matches `.*lit.*` (`std::regex_match`): `lit` occurs in `s`,
with nothing but `.` characters before and after it. -/
def matchDotStarLit (lit : List Char) : List Char → Bool
  | [] => lit.isEmpty
  | c :: s =>
    (match stripLit lit (c :: s) with
      | some rest => rest.all isDotChar
      | none => false) ||
    (isDotChar c && matchDotStarLit lit s)

/-- The call `std::regex_match(s, pattern)` for a pattern `.*L1.*|.*L2.*|...`, given by
its literals `L1`, `L2`, ...: the only patterns the detectors use. -/
def regexMatchAny (literals : List String) (s : String) : Bool :=
  literals.any (fun lit => matchDotStarLit lit.data s.data)

/-- The method `UnityPatternDetector::findComponentsByPattern`, the pattern
`.*L1.*|.*L2.*|...` given by its literals. -/
def findComponentsByPattern (m_monobehaviours : List MonoBehaviourInfo)
    (literals : List String) : List String :=
  (m_monobehaviours.filter (fun mb_info => regexMatchAny literals mb_info.class_name)).map
    (fun mb_info => mb_info.class_name)

/-- The method `UnityPatternDetector::hasSingletonCharacteristics`. -/
def hasSingletonCharacteristics (mb_info : MonoBehaviourInfo) : Bool :=
  let has_static_instance :=
    mb_info.serialized_fields.any
      (fun field => containsStr field "static" && containsStr field "instance")
  let has_instance_access :=
    mb_info.custom_methods.any (fun method => method = "Instance" || method = "GetInstance")
  has_static_instance || has_instance_access

/-- The method `UnityPatternDetector::hasPoolingCharacteristics`. -/
def hasPoolingCharacteristics (mb_info : MonoBehaviourInfo) : Bool :=
  let has_pool_collection :=
    mb_info.serialized_fields.any
      (fun field =>
        containsStr field "Pool" || containsStr field "Queue" || containsStr field "List")
  let has_pool_methods :=
    mb_info.custom_methods.any
      (fun method =>
        containsStr method "Get" || containsStr method "Return" || containsStr method "Pool")
  has_pool_collection && has_pool_methods

/-- The method `UnityPatternDetector::hasStatePatternCharacteristics`. -/
def hasStatePatternCharacteristics (components : List MonoBehaviourInfo) : Bool :=
  let state_classes :=
    (components.filter (fun mb_info => containsStr mb_info.class_name "State")).length
  decide (2 ≤ state_classes)

/-- The method `UnityPatternDetector::hasObserverCharacteristics`: the two flags are set from
the custom methods of all components together. -/
def hasObserverCharacteristics (components : List MonoBehaviourInfo) : Bool :=
  let has_events :=
    components.any (fun mb_info =>
      mb_info.custom_methods.any
        (fun method => containsStr method "Event" || containsStr method "Notify"))
  let has_listeners :=
    components.any (fun mb_info =>
      mb_info.custom_methods.any
        (fun method => containsStr method "Subscribe" || containsStr method "Listen"))
  has_events && has_listeners

/-- The method `UnityPatternDetector::detectSingletonPattern`: the patterns it pushes. -/
def detectSingletonPattern (m_monobehaviours : List MonoBehaviourInfo) : List PatternInstance :=
  (m_monobehaviours.filter hasSingletonCharacteristics).map (fun mb_info =>
    makePattern UnityPattern.SingletonMonoBehaviour "Singleton MonoBehaviour"
      [mb_info.class_name]
      "MonoBehaviour implementing singleton pattern for global access"
      "Ensure single instance and provide global access point"
      ["Static instance field", "Instance access method", "DontDestroyOnLoad usage"])

/-- The method `UnityPatternDetector::detectObjectPoolingPattern`: the patterns it pushes. -/
def detectObjectPoolingPattern (m_monobehaviours : List MonoBehaviourInfo) :
    List PatternInstance :=
  (m_monobehaviours.filter hasPoolingCharacteristics).map (fun mb_info =>
    makePattern UnityPattern.ObjectPooling "Object Pooling" [mb_info.class_name]
      "Reuses objects to avoid frequent allocation/deallocation"
      "Optimize performance by reusing game objects"
      ["Pool collection field", "Get/Return methods", "SetActive usage"])

/-- The method `UnityPatternDetector::detectStatePattern`: the patterns it pushes. -/
def detectStatePattern (m_monobehaviours : List MonoBehaviourInfo) : List PatternInstance :=
  if hasStatePatternCharacteristics m_monobehaviours then
    let state_components := findComponentsByPattern m_monobehaviours ["State"]
    if !state_components.isEmpty then
      [makePattern UnityPattern.StatePattern "State Pattern" state_components
        "Implements state-based behavior with state transitions"
        "Manage complex object behavior through states"
        ["Multiple state classes", "State transition methods", "Current state field"]]
    else []
  else []

/-- The inner loops of `detectObserverPattern` for one component: whether it is pushed to
`observer_components`. The names tested are those of `unity_methods`. -/
def isObserverComponent (mb_info : MonoBehaviourInfo) : Bool :=
  let has_events :=
    mb_info.unity_methods.any
      (fun method => containsStr method "Event" || containsStr method "Notify")
  let has_listeners :=
    mb_info.unity_methods.any
      (fun method => containsStr method "Subscribe" || containsStr method "Listen")
  has_events || has_listeners

/-- The method `UnityPatternDetector::detectObserverPattern`: the patterns it pushes. -/
def detectObserverPattern (m_monobehaviours : List MonoBehaviourInfo) : List PatternInstance :=
  if hasObserverCharacteristics m_monobehaviours then
    let observer_components :=
      (m_monobehaviours.filter isObserverComponent).map (fun mb_info => mb_info.class_name)
    if !observer_components.isEmpty then
      [makePattern UnityPattern.ObserverPattern "Observer Pattern" observer_components
        "Implements event-driven communication between objects"
        "Decouple objects through event notifications"
        ["Event declarations", "Subscribe/Unsubscribe methods", "Notification methods"]]
    else []
  else []

/-- The method `UnityPatternDetector::detectComponentCompositionPattern`: the patterns it
pushes. -/
def detectComponentCompositionPattern (m_monobehaviours : List MonoBehaviourInfo) :
    List PatternInstance :=
  (m_monobehaviours.filter (fun mb_info => decide (3 ≤ mb_info.component_dependencies.length))).map
    (fun mb_info =>
      makePattern UnityPattern.ComponentComposition "Component Composition"
        [mb_info.class_name]
        "Combines multiple components to create complex behavior"
        "Build complex functionality through component composition"
        ["Multiple component dependencies", "GetComponent calls", "RequireComponent attributes"])

/-- The method `UnityPatternDetector::detectServiceLocatorPattern`: the patterns it
pushes. -/
def detectServiceLocatorPattern (m_monobehaviours : List MonoBehaviourInfo) :
    List PatternInstance :=
  let service_components := findComponentsByPattern m_monobehaviours ["Service", "Manager"]
  if 2 ≤ service_components.length then
    [makePattern UnityPattern.ServiceLocator "Service Locator" service_components
      "Provides centralized access to services"
      "Manage and provide access to game services"
      ["Service/Manager classes", "Service registration", "Service lookup methods"]]
  else []

/-- The method `UnityPatternDetector::detectFactoryPattern`: the patterns it pushes. -/
def detectFactoryPattern (m_monobehaviours : List MonoBehaviourInfo) : List PatternInstance :=
  let factory_components :=
    findComponentsByPattern m_monobehaviours ["Factory", "Creator", "Builder"]
  if !factory_components.isEmpty then
    [makePattern UnityPattern.FactoryPattern "Factory Pattern" factory_components
      "Creates objects without specifying exact classes"
      "Encapsulate object creation logic"
      ["Factory/Creator classes", "Create methods", "Instantiate calls"]]
  else []

/-- The method `UnityPatternDetector::detectCommandPattern`: the patterns it pushes. -/
def detectCommandPattern (m_monobehaviours : List MonoBehaviourInfo) : List PatternInstance :=
  let command_components := findComponentsByPattern m_monobehaviours ["Command", "Action"]
  if !command_components.isEmpty then
    [makePattern UnityPattern.CommandPattern "Command Pattern" command_components
      "Encapsulates requests as objects"
      "Support undo/redo operations and request queuing"
      ["Command/Action classes", "Execute methods", "Undo/Redo support"]]
  else []

/-- The method `UnityPatternDetector::detectMVCPattern`: the patterns it pushes. The three
families are searched one after the other and the matches appended. -/
def detectMVCPattern (m_monobehaviours : List MonoBehaviourInfo) : List PatternInstance :=
  let mvc_components :=
    findComponentsByPattern m_monobehaviours ["Controller"] ++
    findComponentsByPattern m_monobehaviours ["View"] ++
    findComponentsByPattern m_monobehaviours ["Model"]
  if 3 ≤ mvc_components.length then
    [makePattern UnityPattern.MVC_Pattern "MVC Pattern" mvc_components
      "Separates application logic into Model, View, and Controller"
      "Improve code organization and maintainability"
      ["Controller classes", "View classes", "Model classes"]]
  else []

/-- The method `UnityPatternDetector::detectECSPattern`: the patterns it pushes. -/
def detectECSPattern (m_monobehaviours : List MonoBehaviourInfo) : List PatternInstance :=
  let ecs_components :=
    findComponentsByPattern m_monobehaviours ["Entity", "Component", "System"]
  if 3 ≤ ecs_components.length then
    [makePattern UnityPattern.ECS_Pattern "Entity Component System" ecs_components
      "Implements data-oriented design with entities, components, and systems"
      "Optimize performance and improve code modularity"
      ["Entity classes", "Component data", "System logic"]]
  else []

/-- The private state of `UnityPatternDetector`. -/
structure UnityPatternDetector where
  m_monobehaviours : List MonoBehaviourInfo
  m_dependency_graph : ComponentGraph
  m_detected_patterns : List PatternInstance
deriving DecidableEq

/-- The method `UnityPatternDetector::analyzeProject`; all three members are overwritten,
so the state before the call is no argument. -/
def UnityPatternDetector.analyzeProject (monobehaviours : List MonoBehaviourInfo)
    (dependency_graph : ComponentGraph) : UnityPatternDetector :=
  { m_monobehaviours := monobehaviours
    m_dependency_graph := dependency_graph
    m_detected_patterns :=
      detectSingletonPattern monobehaviours ++
      detectObjectPoolingPattern monobehaviours ++
      detectStatePattern monobehaviours ++
      detectObserverPattern monobehaviours ++
      detectComponentCompositionPattern monobehaviours ++
      detectServiceLocatorPattern monobehaviours ++
      detectFactoryPattern monobehaviours ++
      detectCommandPattern monobehaviours ++
      detectMVCPattern monobehaviours ++
      detectECSPattern monobehaviours }

/-- The method `UnityPatternDetector::getDetectedPatterns`. -/
def UnityPatternDetector.getDetectedPatterns (s : UnityPatternDetector) : List PatternInstance :=
  s.m_detected_patterns

/-- The method `UnityPatternDetector::getPatternsByType`. -/
def UnityPatternDetector.getPatternsByType (s : UnityPatternDetector)
    (pattern_type : UnityPattern) : List PatternInstance :=
  s.m_detected_patterns.filter (fun pattern => pattern.pattern_type = pattern_type)

/-- The graph of an analyzer that has seen nothing. -/
def emptyGraph : ComponentGraph := { dependencies := [], dependents := [], edges := [] }

/-- A record with the given name and custom methods, everything else empty. -/
def customComponent (class_name : String) (custom_methods : List String) : MonoBehaviourInfo :=
  { simpleComponent class_name [] with custom_methods := custom_methods }

/-- The method `UnityPatternDetector::getPatternName`. -/
def getPatternName (pattern : UnityPattern) : String :=
  match pattern with
  | UnityPattern.SingletonMonoBehaviour => "Singleton MonoBehaviour"
  | UnityPattern.ObjectPooling => "Object Pooling"
  | UnityPattern.StatePattern => "State Pattern"
  | UnityPattern.ObserverPattern => "Observer Pattern"
  | UnityPattern.ComponentComposition => "Component Composition"
  | UnityPattern.ServiceLocator => "Service Locator"
  | UnityPattern.FactoryPattern => "Factory Pattern"
  | UnityPattern.CommandPattern => "Command Pattern"
  | UnityPattern.MVC_Pattern => "MVC Pattern"
  | UnityPattern.ECS_Pattern => "Entity Component System"
  | UnityPattern.Unknown => "Unknown Pattern"

/-- The instance that `detectComponentCompositionPattern` pushes for a component. -/
def compositionPattern (class_name : String) : PatternInstance :=
  makePattern UnityPattern.ComponentComposition "Component Composition" [class_name]
    "Combines multiple components to create complex behavior"
    "Build complex functionality through component composition"
    ["Multiple component dependencies", "GetComponent calls", "RequireComponent attributes"]

/-- The components whose class name matches `.*L1.*|.*L2.*|...`, as records. -/
def matchingComponents (mbs : List MonoBehaviourInfo) (literals : List String) :
    List MonoBehaviourInfo :=
  mbs.filter (fun mb_info => regexMatchAny literals mb_info.class_name)

/-- A component class `EventHub` with a notifying and a subscribing method of its own and
the callback `Update`. -/
def observerInput : ComponentInput :=
  { class_info :=
      { name := "EventHub", base_class := "MonoBehaviour", attributes := [], start_line := 1,
        end_line := 5 }
    methods :=
      [{ name := "Update", start_line := 2 }, { name := "NotifyListeners", start_line := 3 },
       { name := "Subscribe", start_line := 4 }]
    fields := []
    file_path := "EventHub.cs"
    source_code := "class EventHub : MonoBehaviour" }

/-- Two components with distinct names, one of which matches two of the MVC families. -/
def mvcTwoComponents : List MonoBehaviourInfo :=
  [simpleComponent "ViewModel" [], simpleComponent "PlayerController" []]

/-- Whether a class name matches at most one of the three MVC families. -/
def matchesOneFamily (class_name : String) : Bool :=
  !(regexMatchAny ["Controller"] class_name && regexMatchAny ["View"] class_name) &&
  !(regexMatchAny ["Controller"] class_name && regexMatchAny ["Model"] class_name) &&
  !(regexMatchAny ["View"] class_name && regexMatchAny ["Model"] class_name)

/-- A file with four classes: `Player` derives from `MonoBehaviour`, `Enemy` from the user
class `Player`, `Boss` from `UnityEngine.MonoBehaviour`, and `SaveData` from nothing. -/
def derivedClassFile : ParsedFile :=
  { classes :=
      [{ name := "Player", base_class := "MonoBehaviour", attributes := [], start_line := 1,
         end_line := 3 },
       { name := "Enemy", base_class := "Player", attributes := [], start_line := 4,
         end_line := 6 },
       { name := "Boss", base_class := "UnityEngine.MonoBehaviour", attributes := [],
         start_line := 7, end_line := 9 },
       { name := "SaveData", base_class := "", attributes := [], start_line := 10,
         end_line := 12 }]
    methods := []
    fields := []
    source_code := "" }

/-- Whether a method starts between the first and the last line of a class: the methods
"declared inside that class" of the statement about the two method lists. The analyzer has
no such test. -/
def declaredInside (class_info : ClassInfo) (method : MethodInfo) : Bool :=
  decide (class_info.start_line ≤ method.start_line) &&
    decide (method.start_line ≤ class_info.end_line)

/-- A file with two component classes: `A` (lines 1 to 4) declares `Update` and
`CustomMethod`, `B` (lines 5 to 8) declares `Awake` and `Helper`. -/
def twoClassFile : ParsedFile :=
  { classes :=
      [{ name := "A", base_class := "MonoBehaviour", attributes := [], start_line := 1,
         end_line := 4 },
       { name := "B", base_class := "MonoBehaviour", attributes := [], start_line := 5,
         end_line := 8 }]
    methods :=
      [{ name := "Update", start_line := 2 }, { name := "CustomMethod", start_line := 3 },
       { name := "Awake", start_line := 6 }, { name := "Helper", start_line := 7 }]
    fields := []
    source_code := "" }

/-- The method `ProjectMetadataGenerator::findHighCouplingComponents`: first the keys of
`dependencies` with 5 or more entries, in map order, then the keys of `dependents` with 5 or
more entries that `std::find` does not find in the vector built so far. -/
def findHighCouplingComponents (dependency_graph : ComponentGraph) : List String :=
  let high_coupling :=
    (dependency_graph.dependencies.filter
      (fun dep_pair => decide (5 ≤ dep_pair.2.length))).map Prod.fst
  dependency_graph.dependents.foldl
    (fun high_coupling dep_pair =>
      if 5 ≤ dep_pair.2.length then
        if dep_pair.1 ∉ high_coupling then high_coupling ++ [dep_pair.1] else high_coupling
      else high_coupling)
    high_coupling

/-- A component `Hub` with five declared dependencies, and five components that each
depend on `Hub` and on `Core`. -/
def couplingScenario : List MonoBehaviourInfo :=
  [simpleComponent "Hub" ["A", "B", "C", "D", "E"],
   simpleComponent "P1" ["Hub", "Core"], simpleComponent "P2" ["Hub", "Core"],
   simpleComponent "P3" ["Hub", "Core"], simpleComponent "P4" ["Hub", "Core"],
   simpleComponent "P5" ["Hub", "Core"]]

/-- Every name that occurs in the adjacency map of a graph, as a key or in a list. -/
def graphNames (graph : ComponentGraph) : List String :=
  graph.dependencies.flatMap (fun dep_pair => dep_pair.1 :: dep_pair.2)

/-- Components with a self-loop (`A`), a cycle of length two (`B`, `C`) and a dependency
that is no registered component (`Rigidbody`). -/
def cyclicScenario : List MonoBehaviourInfo :=
  [simpleComponent "A" ["A", "Rigidbody"], simpleComponent "B" ["C"],
   simpleComponent "C" ["B"]]

/-- The method `ComponentDependencyAnalyzer::analyzeProject` as a step from the state `s`
before the call: both containers are cleared, every component is added, then the cross
references are analysed. -/
def ComponentDependencyAnalyzer.analyzeProjectFrom (s : ComponentDependencyAnalyzer)
    (monobehaviours : List MonoBehaviourInfo) : ComponentDependencyAnalyzer :=
  let s := { s with m_dependencies := [] }
  let s := { s with m_components := [] }
  analyzeCrossComponentReferences (monobehaviours.foldl addMonoBehaviour s)

/-- The `LifecycleAnalyzer` as constructed: an empty map. -/
def LifecycleAnalyzer.init : LifecycleAnalyzer := { m_component_lifecycles := [] }

/-- The method `LifecycleAnalyzer::analyzeProject` as a step from the state `s` before the
call: the map is cleared, then every component is analysed. -/
def LifecycleAnalyzer.analyzeProjectFrom (s : LifecycleAnalyzer)
    (monobehaviours : List MonoBehaviourInfo) : LifecycleAnalyzer :=
  let s := { s with m_component_lifecycles := [] }
  monobehaviours.foldl LifecycleAnalyzer.analyzeComponent s

/-- The `UnityPatternDetector` as constructed: all members empty. -/
def UnityPatternDetector.init : UnityPatternDetector :=
  { m_monobehaviours := [], m_dependency_graph := emptyGraph, m_detected_patterns := [] }

/-- One `detect...Pattern()` call on the detector: the patterns it finds in
`m_monobehaviours` are pushed to `m_detected_patterns`. -/
def UnityPatternDetector.detect (s : UnityPatternDetector)
    (detector : List MonoBehaviourInfo → List PatternInstance) : UnityPatternDetector :=
  { s with m_detected_patterns := s.m_detected_patterns ++ detector s.m_monobehaviours }

/-- The method `UnityPatternDetector::analyzeProject` as a step from the state `s` before
the call: the two inputs are stored, the pattern vector is cleared, and the ten detectors
run in turn. -/
def UnityPatternDetector.analyzeProjectFrom (s : UnityPatternDetector)
    (monobehaviours : List MonoBehaviourInfo) (dependency_graph : ComponentGraph) :
    UnityPatternDetector :=
  let s := { s with m_monobehaviours := monobehaviours }
  let s := { s with m_dependency_graph := dependency_graph }
  let s := { s with m_detected_patterns := [] }
  let s := s.detect detectSingletonPattern
  let s := s.detect detectObjectPoolingPattern
  let s := s.detect detectStatePattern
  let s := s.detect detectObserverPattern
  let s := s.detect detectComponentCompositionPattern
  let s := s.detect detectServiceLocatorPattern
  let s := s.detect detectFactoryPattern
  let s := s.detect detectCommandPattern
  let s := s.detect detectMVCPattern
  s.detect detectECSPattern

/-! ## CSharpParser -/

/-- A node of the syntax tree as the class `ASTNode` shows it: its type (`getType`), its
text (`getText`), the field name under which its parent holds it (empty when it has none),
its first and last row (`getStartRow`, `getEndRow`) and its children (`getChildren`, which
leaves out null nodes, so no node of the model is null). -/
inductive ASTNode where
  | mk (type text field_name : String) (start_row end_row : Nat) (children : List ASTNode)

/-- The method `ASTNode::getType`. -/
def ASTNode.getType : ASTNode → String
  | ASTNode.mk type _ _ _ _ _ => type

/-- The method `ASTNode::getText`. -/
def ASTNode.getText : ASTNode → String
  | ASTNode.mk _ text _ _ _ _ => text

/-- The field name under which the parent holds the node. -/
def ASTNode.fieldName : ASTNode → String
  | ASTNode.mk _ _ field_name _ _ _ => field_name

/-- The method `ASTNode::getStartRow`. -/
def ASTNode.getStartRow : ASTNode → Nat
  | ASTNode.mk _ _ _ start_row _ _ => start_row

/-- The method `ASTNode::getEndRow`. -/
def ASTNode.getEndRow : ASTNode → Nat
  | ASTNode.mk _ _ _ _ end_row _ => end_row

/-- The method `ASTNode::getChildren`. -/
def ASTNode.getChildren : ASTNode → List ASTNode
  | ASTNode.mk _ _ _ _ _ children => children

/-- The method `ASTNode::getChildByFieldName`: the first child held under the field name,
`none` for a null pointer. -/
def ASTNode.getChildByFieldName (node : ASTNode) (field_name : String) : Option ASTNode :=
  node.getChildren.find? (fun child => child.fieldName = field_name)

mutual
/-- The method `ASTNode::findNodesByType` (through `findNodesByTypeRecursive`): the node
itself when it has the type, then the matches below each child. -/
def ASTNode.findNodesByType (type : String) : ASTNode → List ASTNode
  | ASTNode.mk t x f a b children =>
    (if t = type then [ASTNode.mk t x f a b children] else []) ++
      ASTNode.findNodesByTypeIn type children
/-- The loop over the children in `findNodesByTypeRecursive`. -/
def ASTNode.findNodesByTypeIn (type : String) : List ASTNode → List ASTNode
  | [] => []
  | child :: rest => ASTNode.findNodesByType type child ++ ASTNode.findNodesByTypeIn type rest
end

/-- The method `CSharpParser::extractAttributes`. -/
def extractAttributes (node : ASTNode) : List String :=
  (node.findNodesByType "attribute_list").flatMap
    (fun attr_list => (attr_list.findNodesByType "attribute").map ASTNode.getText)

/-- The method `CSharpParser::extractAccessModifier`. -/
def extractAccessModifier (node : ASTNode) : String :=
  match ((node.findNodesByType "modifier").map ASTNode.getText).find?
      (fun mod_text =>
        mod_text = "public" || mod_text = "private" || mod_text = "protected" ||
          mod_text = "internal") with
  | some mod_text => mod_text
  | none => "private"

/-- The loop over the children of the `base_list` in `extractClassInfo`, for `base_class`:
the text of the first child other than `:` and `,` found while `base_class` is empty. -/
def baseClassOf (base_list : ASTNode) : String :=
  base_list.getChildren.foldl
    (fun base_class child =>
      if child.getType ≠ ":" ∧ child.getType ≠ "," then
        if base_class = "" then child.getText else base_class
      else base_class)
    ""

/-- The method `CSharpParser::extractClassInfo` (the members the analyzers read). -/
def extractClassInfo (class_node : ASTNode) : ClassInfo :=
  { name :=
      match class_node.getChildByFieldName "name" with
      | some name_node => name_node.getText
      | none => ""
    base_class :=
      match class_node.getChildren.find? (fun child => child.getType = "base_list") with
      | some base_list => baseClassOf base_list
      | none => ""
    attributes := extractAttributes class_node
    start_line := class_node.getStartRow + 1
    end_line := class_node.getEndRow + 1 }

/-- The method `CSharpParser::extractMethodInfo` (the members the analyzers read). -/
def extractMethodInfo (method_node : ASTNode) : MethodInfo :=
  { name :=
      match method_node.getChildByFieldName "name" with
      | some name_node => name_node.getText
      | none => ""
    start_line := method_node.getStartRow + 1 }

/-- The method `CSharpParser::extractFieldInfo` (the members the analyzers read). -/
def extractFieldInfo (field_node : ASTNode) : FieldInfo :=
  let declaration := field_node.getChildByFieldName "declaration"
  { name :=
      match declaration with
      | some declaration =>
        match declaration.getChildByFieldName "declarator" with
        | some declarator =>
          match declarator.getChildByFieldName "name" with
          | some name_node => name_node.getText
          | none => ""
        | none => ""
      | none => ""
    type :=
      match declaration with
      | some declaration =>
        match declaration.getChildByFieldName "type" with
        | some type_node => type_node.getText
        | none => ""
      | none => ""
    attributes := extractAttributes field_node
    access_modifier := extractAccessModifier field_node }

/-- The vectors and the string that `CSharpParser` fills. -/
structure CSharpParser where
  m_classes : List ClassInfo
  m_methods : List MethodInfo
  m_fields : List FieldInfo
  m_using_directives : List String
  m_namespace : String
deriving DecidableEq

/-- The chain of tests on `node_type` in `CSharpParser::analyzeNode`: what one node adds. -/
def CSharpParser.visit (s : CSharpParser) (node : ASTNode) : CSharpParser :=
  if node.getType = "using_directive" then
    { s with m_using_directives := s.m_using_directives ++ [node.getText] }
  else if node.getType = "namespace_declaration" then
    match node.getChildByFieldName "name" with
    | some name_node => { s with m_namespace := name_node.getText }
    | none => s
  else if node.getType = "class_declaration" then
    { s with m_classes := s.m_classes ++ [extractClassInfo node] }
  else if node.getType = "method_declaration" then
    { s with m_methods := s.m_methods ++ [extractMethodInfo node] }
  else if node.getType = "field_declaration" then
    { s with m_fields := s.m_fields ++ [extractFieldInfo node] }
  else s

mutual
/-- The method `CSharpParser::analyzeNode`: the node is looked at, then every child is
analysed in turn. -/
def CSharpParser.analyzeNode (s : CSharpParser) : ASTNode → CSharpParser
  | ASTNode.mk t x f a b children =>
    CSharpParser.analyzeChildren (s.visit (ASTNode.mk t x f a b children)) children
/-- The loop over `children` in `analyzeNode`. -/
def CSharpParser.analyzeChildren (s : CSharpParser) : List ASTNode → CSharpParser
  | [] => s
  | child :: rest => CSharpParser.analyzeChildren (CSharpParser.analyzeNode s child) rest
end

/-- The method `CSharpParser::parseCode`, given what `m_wrapper` delivers: the root node, or
`none` when `m_wrapper.parseCode` fails or there is no root. The containers are cleared
first. -/
def CSharpParser.parseCode (_s : CSharpParser) (root : Option ASTNode) : Bool × CSharpParser :=
  let s : CSharpParser :=
    { m_classes := [], m_methods := [], m_fields := [], m_using_directives := [],
      m_namespace := "" }
  match root with
  | none => (false, s)
  | some root => (true, s.analyzeNode root)

mutual
/-- All nodes of a tree in depth-first pre-order: a node, then the nodes below its first
child, then those below the next child, and so on. -/
def ASTNode.preorder : ASTNode → List ASTNode
  | ASTNode.mk t x f a b children => ASTNode.mk t x f a b children :: ASTNode.preorderIn children
/-- The nodes below a list of siblings, in depth-first pre-order. -/
def ASTNode.preorderIn : List ASTNode → List ASTNode
  | [] => []
  | child :: rest => ASTNode.preorder child ++ ASTNode.preorderIn rest
end

/-- A leaf of the syntax tree on row 0. -/
def astLeaf (type text field_name : String) : ASTNode :=
  ASTNode.mk type text field_name 0 0 []

/-- The syntax tree of a file with a `using` directive and the class
`TestClass : MonoBehaviour`, which declares a field `speed`, the method `Start` and a nested
class `Inner` with the method `Run`; the statement in the body of `Start` has a node type
the parser has no case for. -/
def sampleTree : ASTNode :=
  ASTNode.mk "compilation_unit" "" "" 0 12
    [ASTNode.mk "using_directive" "using UnityEngine;" "" 1 1 [],
     ASTNode.mk "class_declaration" "" "" 3 12
       [astLeaf "modifier" "public" "",
        astLeaf "identifier" "TestClass" "name",
        ASTNode.mk "base_list" ": MonoBehaviour" "" 3 3
          [astLeaf ":" ":" "", astLeaf "identifier" "MonoBehaviour" ""],
        ASTNode.mk "declaration_list" "" "body" 4 12
          [ASTNode.mk "field_declaration" "public float speed;" "" 5 5
             [astLeaf "modifier" "public" "",
              ASTNode.mk "variable_declaration" "float speed" "declaration" 5 5
                [astLeaf "predefined_type" "float" "type",
                 ASTNode.mk "variable_declarator" "speed" "declarator" 5 5
                   [astLeaf "identifier" "speed" "name"]]],
           ASTNode.mk "method_declaration" "" "" 6 9
             [astLeaf "predefined_type" "void" "type",
              astLeaf "identifier" "Start" "name",
              ASTNode.mk "block" "" "body" 7 9
                [astLeaf "expression_statement" "Debug.Log(1);" ""]],
           ASTNode.mk "class_declaration" "" "" 10 11
             [astLeaf "identifier" "Inner" "name",
              ASTNode.mk "declaration_list" "" "body" 10 11
                [ASTNode.mk "method_declaration" "" "" 11 11
                   [astLeaf "identifier" "Run" "name"]]]]]]

/-! ## Regular expressions with repeated character classes -/

/-- How often an item of a regular expression repeats: once, `*` or `+`. -/
inductive RxQuant
  | one
  | star
  | plus
deriving DecidableEq

/-- One item of a regular expression: a character class with its quantifier. The regular
expressions of `ScriptableObjectAnalyzer` modelled here are sequences of such items. -/
structure RxItem where
  test : Char → Bool
  quant : RxQuant

/-- The items of a literal. -/
def rxLit (lit : String) : List RxItem :=
  lit.data.map (fun c => { test := fun d => d = c, quant := RxQuant.one })

/-- The class `\s` of `std::regex` (classic locale): blank, `\t`, `\n`, `\v`, `\f`, `\r`. -/
def isSpaceChar (c : Char) : Bool :=
  c = ' ' || (9 ≤ c.toNat && c.toNat ≤ 13)

/-- The greedy choice for a repeated class: the continuation `cont` is tried after `k`
characters, then after `k - 1`, and so on down to `lo`; the first success is the match
(backtracking of the ECMAScript grammar). The result lists the number of characters each
item consumed. -/
def rxTryLengths (cont : List Char → Option (List Nat)) (s : List Char) (lo : Nat) :
    Nat → Option (List Nat)
  | 0 => if lo = 0 then (cont s).map (fun r => 0 :: r) else none
  | k + 1 =>
    if lo ≤ k + 1 then
      match cont (s.drop (k + 1)) with
      | some r => some ((k + 1) :: r)
      | none => rxTryLengths cont s lo k
    else none

/-- Match of a sequence of items anchored at the front of `s`: the number of characters
each item consumed. -/
def rxMatchHere : List RxItem → List Char → Option (List Nat)
  | [], _ => some []
  | item :: rest, s =>
    match item.quant with
    | RxQuant.one =>
      match s with
      | [] => none
      | c :: s1 => if item.test c then (rxMatchHere rest s1).map (fun r => 1 :: r) else none
    | RxQuant.star => rxTryLengths (rxMatchHere rest) s 0 (s.takeWhile item.test).length
    | RxQuant.plus => rxTryLengths (rxMatchHere rest) s 1 (s.takeWhile item.test).length

/-- The leftmost match of the items in `s` (`std::regex_search`): the offset of the match
and the number of characters each item consumed. -/
def rxSearch (items : List RxItem) : List Char → Option (Nat × List Nat)
  | [] => (rxMatchHere items []).map (fun r => (0, r))
  | c :: s =>
    match rxMatchHere items (c :: s) with
    | some r => some (0, r)
    | none => (rxSearch items s).map (fun found => (found.1 + 1, found.2))

/-- The text of a capture group that spans the items `first`, ..., `first + count - 1`. -/
def rxGroup (s : List Char) (found : Nat × List Nat) (first count : Nat) : String :=
  ⟨(s.drop (found.1 + (found.2.take first).sum)).take ((found.2.drop first).take count).sum⟩

/-- The pattern `class\s+(\w+)\s*:\s*\w*ScriptableObject`. -/
def classRegex : List RxItem :=
  rxLit "class" ++
    [{ test := isSpaceChar, quant := RxQuant.plus }, { test := isWordChar, quant := RxQuant.plus },
     { test := isSpaceChar, quant := RxQuant.star }] ++
    rxLit ":" ++
    [{ test := isSpaceChar, quant := RxQuant.star },
     { test := isWordChar, quant := RxQuant.star }] ++
    rxLit "ScriptableObject"

/-- The pattern `\[CreateAssetMenu\s*\(([^)]*)\)\]`; the group is item 18 (counted from 0). -/
def createMenuRegex : List RxItem :=
  rxLit "[CreateAssetMenu" ++ [{ test := isSpaceChar, quant := RxQuant.star }] ++ rxLit "(" ++
    [{ test := fun c => c ≠ ')', quant := RxQuant.star }] ++ rxLit ")]"

/-- The pattern `order\s*=\s*(\d+)`; the group is item 8 (counted from 0). -/
def orderRegex : List RxItem :=
  rxLit "order" ++ [{ test := isSpaceChar, quant := RxQuant.star }] ++ rxLit "=" ++
    [{ test := isSpaceChar, quant := RxQuant.star },
     { test := Char.isDigit, quant := RxQuant.plus }]

/-- The call `std::stoi(str)` on a string of decimal digits (what `(\d+)` captures): the
number, or the exception `std::out_of_range` when it does not fit an `int`; `what()` of that
exception is `stoi` in libstdc++. -/
def stdStoi (str : String) : Except String Int :=
  let value : Nat := str.data.foldl (fun acc c => 10 * acc + (c.toNat - 48)) 0
  if value ≤ 2147483647 then Except.ok (value : Int) else Except.error "stoi"

/-! ## ScriptableObjectAnalyzer: which files make it throw -/

/-- The method `ScriptableObjectAnalyzer::parseCreateAssetMenuAttribute`, as far as it can
throw: `some what` when `std::stoi` throws on the `order` parameter, `none` when the method
returns. The members it fills are not modelled. -/
def parseCreateAssetMenuAttribute (file_content : String) : Option String :=
  match rxSearch createMenuRegex file_content.data with
  | none => none
  | some found =>
    let params := rxGroup file_content.data found 18 1
    match rxSearch orderRegex params.data with
    | none => none
    | some order_match =>
      match stdStoi (rxGroup params.data order_match 8 1) with
      | Except.ok _ => none
      | Except.error what => some what

/-- What the engine meets outside the program: `fileExists` is `std::filesystem::exists`,
`readFile` the text an `std::ifstream` reads (`none` when the file cannot be opened),
`treeSitter` the root node that `TreeSitterWrapper` delivers for a text (`none` when it
fails), `afterCreateAssetMenu` the exception, if any, that the statements of
`ScriptableObjectAnalyzer::analyzeFile` after `parseCreateAssetMenuAttribute` throw on a
file, and `otherStages` the exception, if any, that the stages of `analyzeProject` after the
ScriptableObject analysis throw (API detection, metadata, context summary; the export
catches its own). -/
structure Environment where
  fileExists : String → Bool
  readFile : String → Option String
  treeSitter : String → Option ASTNode
  afterCreateAssetMenu : String → Option String
  otherStages : Option String

/-- The method `ScriptableObjectAnalyzer::analyzeFile`, as far as it can throw: `some what`
for an exception, `none` when it returns (true or false). -/
def ScriptableObjectAnalyzer.analyzeFile (env : Environment) (file_path : String) :
    Option String :=
  match env.readFile file_path with
  | none => none
  | some file_content =>
    if (strFind file_content "ScriptableObject").isNone then none
    else
      match rxSearch classRegex file_content.data with
      | none => none
      | some _ =>
        match parseCreateAssetMenuAttribute file_content with
        | some what => some what
        | none => env.afterCreateAssetMenu file_path

/-- The method `ScriptableObjectAnalyzer::analyzeProject`, as far as it can throw: the files
are analysed in turn, a file that returns false is passed over, and the first exception
leaves the loop. -/
def ScriptableObjectAnalyzer.analyzeProject (env : Environment) : List String → Option String
  | [] => none
  | file_path :: rest =>
    match ScriptableObjectAnalyzer.analyzeFile env file_path with
    | some what => some what
    | none => ScriptableObjectAnalyzer.analyzeProject env rest

/-! ## CoreEngine -/

/-- The method `CSharpParser::parseFile` followed by the three getters and
`getSourceCode`: `none` when it returns false. -/
def Environment.parseFile (env : Environment) (file_path : String) : Option ParsedFile :=
  match env.readFile file_path with
  | none => none
  | some source_code =>
    match CSharpParser.parseCode
        { m_classes := [], m_methods := [], m_fields := [], m_using_directives := [],
          m_namespace := "" }
        (env.treeSitter source_code) with
    | (false, _) => none
    | (true, parser) =>
      some
        { classes := parser.m_classes
          methods := parser.m_methods
          fields := parser.m_fields
          source_code := source_code }

/-- The method `MonoBehaviourAnalyzer::analyzeFile`: the returned flag and the new value of
`m_monobehaviours`. Its body is that of `analyzeCode` after `m_parser.parseFile`. -/
def MonoBehaviourAnalyzer.analyzeFile (env : Environment) (file_path : String) :
    Bool × List MonoBehaviourInfo :=
  analyzeCode (env.parseFile file_path) file_path

/-- The method `CoreEngine::isValidCSharpFile`. -/
def isValidCSharpFile (env : Environment) (file_path : String) : Bool :=
  decide (3 ≤ file_path.length) && substr file_path (file_path.length - 3) = ".cs" &&
    env.fileExists file_path

/-- The struct `AnalysisOptions` (the switches of the stages modelled here). -/
structure AnalysisOptions where
  analyze_dependencies : Bool
  analyze_lifecycle : Bool
  detect_patterns : Bool
  analyze_scriptable_objects : Bool
deriving DecidableEq

/-- The default-constructed `AnalysisOptions`. -/
def AnalysisOptions.default : AnalysisOptions :=
  { analyze_dependencies := true, analyze_lifecycle := true, detect_patterns := true,
    analyze_scriptable_objects := true }

/-- The struct `AnalysisResult` (the members the analyzers modelled here fill). -/
structure AnalysisResult where
  success : Bool
  error_message : String
  monobehaviours : List MonoBehaviourInfo
  dependency_graph : ComponentGraph
  lifecycle_flows : List LifecycleFlow
  patterns : List PatternInstance
deriving DecidableEq

/-- The file loop of `CoreEngine::analyzeProject`: one step. A path that is no valid C#
file is passed over, and so is a file that `analyzeFile` fails on. -/
def collectMonoBehaviours (env : Environment) (all_monobehaviours : List MonoBehaviourInfo)
    (file_path : String) : List MonoBehaviourInfo :=
  if !isValidCSharpFile env file_path then all_monobehaviours
  else
    match MonoBehaviourAnalyzer.analyzeFile env file_path with
    | (false, _) => all_monobehaviours
    | (true, file_monobehaviours) => all_monobehaviours ++ file_monobehaviours

/-- The method `CoreEngine::analyzeProject`. The analyzers are members of the engine;
each `analyzeProject` clears what an earlier run left. An exception thrown inside the `try`
block leaves `success` false and sets `error_message`. -/
def CoreEngine.analyzeProject (env : Environment) (source_files : List String)
    (options : AnalysisOptions) : AnalysisResult :=
  let result : AnalysisResult :=
    { success := false, error_message := "", monobehaviours := [],
      dependency_graph := emptyGraph, lifecycle_flows := [], patterns := [] }
  let all_monobehaviours := source_files.foldl (collectMonoBehaviours env) []
  let result := { result with monobehaviours := all_monobehaviours }
  let result :=
    if options.analyze_dependencies then
      { result with
        dependency_graph :=
          buildDependencyGraph (UnityContextGen.analyzeProject all_monobehaviours) }
    else result
  let result :=
    if options.analyze_lifecycle then
      { result with
        lifecycle_flows :=
          (LifecycleAnalyzer.analyzeProject all_monobehaviours).getAllLifecycleFlows }
    else result
  let result :=
    if options.detect_patterns then
      { result with
        patterns :=
          (UnityPatternDetector.analyzeProject all_monobehaviours
            result.dependency_graph).getDetectedPatterns }
    else result
  let thrown :=
    match
      (if options.analyze_scriptable_objects then
        ScriptableObjectAnalyzer.analyzeProject env source_files
      else none) with
    | some what => some what
    | none => env.otherStages
  match thrown with
  | some what => { result with error_message := "Analysis failed: " ++ what }
  | none => { result with success := true }

/-- The method `CoreEngine::analyzeSingleFile`. -/
def CoreEngine.analyzeSingleFile (env : Environment) (file_path : String)
    (options : AnalysisOptions) : AnalysisResult :=
  CoreEngine.analyzeProject env [file_path] options
/-- The quotient `x / y` of two floats for a divisor other than zero, rounded to nearest:
the significand of the quotient is computed to more than 26 bits, with one more bit that
tells whether the division left a remainder. -/
def Float32.div (x y : Float32) : Float32 :=
  let q := (x.mant * 2 ^ 50) / y.mant
  let sticky := if (x.mant * 2 ^ 50) % y.mant = 0 then 0 else 1
  Float32.round (2 * q + sticky) (x.exp - y.exp - 51)

/-- The method `ProjectMetadataGenerator::inferComplexityLevel`. For an empty vector the
quotient is `0.0f / 0`, a NaN, and every comparison with a NaN is false. -/
def inferComplexityLevel (monobehaviours : List MonoBehaviourInfo) : String :=
  let total_complexity :=
    monobehaviours.foldl
      (fun total mb_info =>
        total + mb_info.unity_methods.length * 2 + mb_info.custom_methods.length +
          mb_info.component_dependencies.length * 3)
      0
  if monobehaviours.length = 0 then "Very Complex"
  else
    let avg_complexity :=
      Float32.div (Float32.ofNat total_complexity) (Float32.ofNat monobehaviours.length)
    if Float32.lt avg_complexity (Float32.ofNat 10) then "Simple"
    else if Float32.lt avg_complexity (Float32.ofNat 25) then "Moderate"
    else if Float32.lt avg_complexity (Float32.ofNat 50) then "Complex"
    else "Very Complex"

/-- A disk without files, on which every later stage completes. -/
def emptyDisk : Environment :=
  { fileExists := fun _ => false
    readFile := fun _ => none
    treeSitter := fun _ => none
    afterCreateAssetMenu := fun _ => none
    otherStages := none }

/-- The syntax tree of a file that declares one class with one method. -/
def classTree (class_name base_class method_name : String) : ASTNode :=
  ASTNode.mk "compilation_unit" "" "" 0 0
    [ASTNode.mk "class_declaration" "" "" 0 0
       [astLeaf "identifier" class_name "name",
        ASTNode.mk "base_list" "" "" 0 0
          [astLeaf ":" ":" "", astLeaf "identifier" base_class ""],
        ASTNode.mk "declaration_list" "" "body" 0 0
          [ASTNode.mk "method_declaration" "" "" 0 0
             [astLeaf "identifier" method_name "name"]]]]

/-- The text of `Player.cs`. -/
def playerSource : String := "class Player : MonoBehaviour \x7b void Update() \x7b \x7d \x7d"

/-- The text of `Enemy.cs`. -/
def enemySource : String := "class Enemy : MonoBehaviour \x7b void Start() \x7b \x7d \x7d"

/-- The text of `Settings.cs`: a ScriptableObject whose `CreateAssetMenu` attribute gives
an `order` beyond the range of `int`. -/
def settingsSource : String :=
  "[CreateAssetMenu(order = 99999999999)] class Settings : ScriptableObject \x7b void Reset() \x7b \x7d \x7d"

/-- A disk with the three files `Player.cs`, `Enemy.cs` and `Settings.cs`; nothing else
throws. -/
def threeFileDisk : Environment :=
  { fileExists := fun file_path => file_path ∈ ["Player.cs", "Enemy.cs", "Settings.cs"]
    readFile := fun file_path =>
      if file_path = "Player.cs" then some playerSource
      else if file_path = "Enemy.cs" then some enemySource
      else if file_path = "Settings.cs" then some settingsSource
      else none
    treeSitter := fun source_code =>
      if source_code = playerSource then some (classTree "Player" "MonoBehaviour" "Update")
      else if source_code = enemySource then some (classTree "Enemy" "MonoBehaviour" "Start")
      else if source_code = settingsSource then
        some (classTree "Settings" "ScriptableObject" "Reset")
      else none
    afterCreateAssetMenu := fun _ => none
    otherStages := none }

/-- Whether the file loop of `CoreEngine::analyzeProject` takes the components of a file:
the path is a valid C# file and `analyzeFile` returns true. -/
def analyzedSuccessfully (env : Environment) (file_path : String) : Bool :=
  isValidCSharpFile env file_path && (MonoBehaviourAnalyzer.analyzeFile env file_path).1

/-- One component references another: the raw edge list `m_dependencies` of the analyzer
holds an edge from `a` to `b`. -/
def ComponentDependencyAnalyzer.References (s : ComponentDependencyAnalyzer) (a b : String) :
    Prop :=
  ∃ dep ∈ s.m_dependencies, dep.source_component = a ∧ dep.target_component = b

/-- The text has a typed-accessor call site for the type `T`: somewhere in it stands
`GetComponent<T>()`, `GetComponentInChildren<T>()` or `GetComponentInParent<T>()`, where `T`
is a nonempty run of word characters. -/
def HasCallSite (source_code T : String) : Prop :=
  T.data ≠ [] ∧ (∀ c ∈ T.data, isWordChar c = true) ∧
  ∃ accessor ∈ ["GetComponent", "GetComponentInChildren", "GetComponentInParent"],
    ∃ before after : List Char,
      source_code.data = before ++ (accessor.data ++ '<' :: T.data ++ ">()".data) ++ after

/-- The literals of an accessor pattern: `pre` is a word that starts with `g`, a letter it
does not hold again, followed by `l`; `post` starts with `p`; `l` and `p` are different
characters outside `\w`, and `g` does not occur in `post`. -/
structure AccessorPattern (g : Char) (body : List Char) (l p : Char) (post1 : List Char) :
    Prop where
  g_not_body : g ∉ body
  g_not_post : g ∉ p :: post1
  word_body : ∀ c ∈ g :: body, isWordChar c = true
  not_word_l : isWordChar l = false
  not_word_p : isWordChar p = false
  l_ne_p : l ≠ p

/-- The class `A : MonoBehaviour` of `siblingFieldTree`: its body declares nothing. -/
def siblingFieldClassA : ASTNode :=
  ASTNode.mk "class_declaration" "class A : MonoBehaviour \x7b \x7d" "" 0 0
    [astLeaf "identifier" "A" "name",
     ASTNode.mk "base_list" ": MonoBehaviour" "" 0 0
       [astLeaf ":" ":" "", astLeaf "identifier" "MonoBehaviour" ""],
     ASTNode.mk "declaration_list" "\x7b \x7d" "body" 0 0 []]

/-- The class `Helper` of `siblingFieldTree`, no component: it declares the field
`public B target;`. -/
def siblingFieldClassHelper : ASTNode :=
  ASTNode.mk "class_declaration" "class Helper \x7b public B target; \x7d" "" 1 1
    [astLeaf "identifier" "Helper" "name",
     ASTNode.mk "declaration_list" "\x7b public B target; \x7d" "body" 1 1
       [ASTNode.mk "field_declaration" "public B target;" "" 1 1
          [ASTNode.mk "modifier" "public" "" 1 1 [],
           ASTNode.mk "variable_declaration" "B target" "declaration" 1 1
             [ASTNode.mk "identifier" "B" "type" 1 1 [],
              ASTNode.mk "variable_declarator" "target" "declarator" 1 1
                [ASTNode.mk "identifier" "target" "name" 1 1 []]]]]]

/-- The class `B : MonoBehaviour` of `siblingFieldTree`: its body declares nothing. -/
def siblingFieldClassB : ASTNode :=
  ASTNode.mk "class_declaration" "class B : MonoBehaviour \x7b \x7d" "" 2 2
    [ASTNode.mk "identifier" "B" "name" 2 2 [],
     ASTNode.mk "base_list" ": MonoBehaviour" "" 2 2
       [ASTNode.mk ":" ":" "" 2 2 [], ASTNode.mk "identifier" "MonoBehaviour" "" 2 2 []],
     ASTNode.mk "declaration_list" "\x7b \x7d" "body" 2 2 []]

/-- The text of `Game.cs`: the component classes `A` and `B`, which declare no field, and
between them the plain class `Helper` with a public field of type `B`. -/
def siblingFieldSource : String :=
  "class A : MonoBehaviour \x7b \x7d\nclass Helper \x7b public B target; \x7d\nclass B : MonoBehaviour \x7b \x7d"

/-- The syntax tree of `siblingFieldSource`. -/
def siblingFieldTree : ASTNode :=
  ASTNode.mk "compilation_unit" siblingFieldSource "" 0 2
    [siblingFieldClassA, siblingFieldClassHelper, siblingFieldClassB]

/-- A disk with the one file `Game.cs`. -/
def siblingFieldDisk : Environment :=
  { fileExists := fun file_path => file_path = "Game.cs"
    readFile := fun file_path => if file_path = "Game.cs" then some siblingFieldSource else none
    treeSitter := fun source_code =>
      if source_code = siblingFieldSource then some siblingFieldTree else none
    afterCreateAssetMenu := fun _ => none
    otherStages := none }

/-! ## The stages after the analysis: API detection, AI analysis, metadata, context -/

/-- What the stages of `CoreEngine::analyzeProject` after the ScriptableObject analysis meet
outside the code embedded here. `apiAnalyzeCode` is `UnityAPIDetector::analyzeCode` on a text
and a path: the exception it throws, or whether `detected_apis` comes out non-empty.
`ai_enabled` is the test `m_claude_analyzer && enable_ai_analysis`, `aiAnalyzeCode` the
exception, if any, that `ClaudeAnalyzer::analyzeCode` throws for a path and a text, and
`analyzeComponent` the exception, if any, that `ComponentMetadataGenerator::analyzeComponent`
throws on a record (it runs a regular expression over the class name). -/
structure LaterStages where
  apiAnalyzeCode : String → String → Except String Bool
  ai_enabled : Bool
  aiAnalyzeCode : String → String → Option String
  analyzeComponent : MonoBehaviourInfo → Option String

/-- The method `UnityAPIDetector::analyzeFile`: the exception it throws, or whether
`detected_apis` is non-empty. A file that cannot be opened gives an empty `UnityAPIUsage`. -/
def UnityAPIDetector.analyzeFile (env : Environment) (world : LaterStages)
    (file_path : String) : Except String Bool :=
  match env.readFile file_path with
  | none => Except.ok false
  | some code_content => world.apiAnalyzeCode code_content file_path

/-- The method `UnityAPIDetector::analyzeProject`: the exception it throws, or the paths of
the usages it returns (those with a detected API), in the order of the files. -/
def UnityAPIDetector.analyzeProject (env : Environment) (world : LaterStages) :
    List String → Except String (List String)
  | [] => Except.ok []
  | file_path :: rest =>
    if containsStr file_path ".cs" then
      match UnityAPIDetector.analyzeFile env world file_path with
      | Except.error what => Except.error what
      | Except.ok detected =>
        match UnityAPIDetector.analyzeProject env world rest with
        | Except.error what => Except.error what
        | Except.ok results => Except.ok (if detected then file_path :: results else results)
    else UnityAPIDetector.analyzeProject env world rest

/-- The loop over `result.api_usage` in `CoreEngine::analyzeProject`, as far as it can throw:
the file of every usage is read and, when it opens, handed to `ClaudeAnalyzer::analyzeCode`. -/
def CoreEngine.runAIAnalysis (env : Environment) (world : LaterStages) :
    List String → Option String
  | [] => none
  | file_path :: rest =>
    match env.readFile file_path with
    | none => CoreEngine.runAIAnalysis env world rest
    | some code_content =>
      match world.aiAnalyzeCode file_path code_content with
      | some what => some what
      | none => CoreEngine.runAIAnalysis env world rest

/-- The struct `ComponentMetadata` (the members the project metadata reads). -/
structure ComponentMetadata where
  class_name : String
  dependencies : List String
  dependents : List String
  complexity_score : Nat
deriving DecidableEq

/-- The method `ComponentMetadataGenerator::analyzeComponent`, for the members modelled:
the two lookups in the graph and `calculateMetrics`. -/
def ComponentMetadataGenerator.analyzeComponent (mb_info : MonoBehaviourInfo)
    (dependency_graph : ComponentGraph) : ComponentMetadata :=
  { class_name := mb_info.class_name
    dependencies := dependency_graph.adj mb_info.class_name
    dependents := dependency_graph.rev mb_info.class_name
    complexity_score :=
      mb_info.unity_methods.length * 2 + mb_info.custom_methods.length +
        mb_info.component_dependencies.length * 3 + mb_info.serialized_fields.length }

/-- The method `ComponentMetadataGenerator::analyzeProject` on the cleared map
`m_component_metadata`: the exception thrown for the first record that throws, or the map. -/
def ComponentMetadataGenerator.analyzeProject (world : LaterStages)
    (dependency_graph : ComponentGraph) :
    List MonoBehaviourInfo → List (String × ComponentMetadata) →
      Except String (List (String × ComponentMetadata))
  | [], m_component_metadata => Except.ok m_component_metadata
  | mb_info :: rest, m_component_metadata =>
    match world.analyzeComponent mb_info with
    | some what => Except.error what
    | none =>
      ComponentMetadataGenerator.analyzeProject world dependency_graph rest
        (StdMap.assign m_component_metadata mb_info.class_name
          (ComponentMetadataGenerator.analyzeComponent mb_info dependency_graph))

/-- The statement `m[k]++` on a map of counters. -/
def StdMap.increment (m : List (String × Nat)) (key : String) : List (String × Nat) :=
  StdMap.assign m key ((StdMap.find m key).getD 0 + 1)

/-- The call `std::transform(s.begin(), s.end(), s.begin(), ::tolower)`. -/
def toLowerCase (s : String) : String := ⟨s.data.map Char.toLower⟩

/-- The loop `for (pair : votes) if (pair.second > max) { max = pair.second; best = pair.first; }`
over a map of counters, from the given start. -/
def maxVote (votes : List (String × Nat)) (start : String) : String :=
  (votes.foldl
    (fun (best : String × Nat) vote => if vote.2 > best.2 then (vote.1, vote.2) else best)
    (start, 0)).1

/-- The chain of tests on the lower-cased class name in `inferGameType`. -/
def gameTypeIndicator (class_name : String) : Option String :=
  if containsStr class_name "platformer" || containsStr class_name "jump" then some "Platformer"
  else if containsStr class_name "fps" || containsStr class_name "shooter" then
    some "First-Person Shooter"
  else if containsStr class_name "rpg" || containsStr class_name "inventory" then some "RPG"
  else if containsStr class_name "puzzle" then some "Puzzle"
  else if containsStr class_name "racing" || containsStr class_name "car" then some "Racing"
  else if containsStr class_name "strategy" || containsStr class_name "rts" then
    some "Strategy"
  else none

/-- The method `ProjectMetadataGenerator::inferGameType`. -/
def inferGameType (monobehaviours : List MonoBehaviourInfo) : String :=
  let type_indicators :=
    monobehaviours.foldl
      (fun (type_indicators : List (String × Nat)) mb_info =>
        match gameTypeIndicator (toLowerCase mb_info.class_name) with
        | some indicator => StdMap.increment type_indicators indicator
        | none => type_indicators)
      []
  if type_indicators = [] then "Generic Game"
  else maxVote type_indicators "Generic Game"

/-- The chain of tests on the lower-cased class name in `identifyKeySystems`. -/
def keySystemOf (class_name : String) : Option String :=
  if containsStr class_name "player" then some "Player Control"
  else if containsStr class_name "enemy" || containsStr class_name "ai" then some "Enemy AI"
  else if containsStr class_name "physics" then some "Physics Interaction"
  else if containsStr class_name "ui" then some "User Interface"
  else if containsStr class_name "audio" then some "Audio System"
  else if containsStr class_name "camera" then some "Camera Control"
  else none

/-- The method `ProjectMetadataGenerator::identifyKeySystems`. -/
def identifyKeySystems (monobehaviours : List MonoBehaviourInfo) : List String :=
  let system_importance :=
    monobehaviours.foldl
      (fun (system_importance : List (String × Nat)) mb_info =>
        match keySystemOf (toLowerCase mb_info.class_name) with
        | some system => StdMap.increment system_importance system
        | none => system_importance)
      []
  (system_importance.filter (fun system => decide (system.2 > 0))).map Prod.fst

/-- The chain of tests on the pattern name in `inferArchitecturePattern`. -/
def architectureVote (pattern_name : String) : Option String :=
  if containsStr pattern_name "MVC" then some "Model-View-Controller"
  else if containsStr pattern_name "ECS" then some "Entity-Component-System"
  else if containsStr pattern_name "Component" then some "Component-based"
  else if containsStr pattern_name "Observer" then some "Event-driven"
  else if containsStr pattern_name "State" then some "State-based"
  else none

/-- The method `ProjectMetadataGenerator::inferArchitecturePattern`. -/
def inferArchitecturePattern (patterns : List PatternInstance) : String :=
  let architecture_votes :=
    patterns.foldl
      (fun (architecture_votes : List (String × Nat)) pattern =>
        match architectureVote pattern.pattern_name with
        | some architecture => StdMap.increment architecture_votes architecture
        | none => architecture_votes)
      []
  maxVote architecture_votes "Component-based"

/-- The chain of tests on the lower-cased class name in `analyzeSystemGroups`. -/
def systemNameOf (class_name : String) : String :=
  if containsStr class_name "player" then "Player System"
  else if containsStr class_name "enemy" || containsStr class_name "ai" then "AI System"
  else if containsStr class_name "ui" || containsStr class_name "menu" then "UI System"
  else if containsStr class_name "camera" then "Camera System"
  else if containsStr class_name "audio" || containsStr class_name "sound" then "Audio System"
  else if containsStr class_name "physics" then "Physics System"
  else if containsStr class_name "manager" then "Management System"
  else if containsStr class_name "controller" then "Control System"
  else "Core System"

/-- The struct `ProjectMetadata::ProjectSummary` (`data_flow` is never assigned). -/
structure ProjectSummary where
  architecture_pattern : String
  key_systems : List String
  game_type : String
  complexity_level : String
  total_components : Nat
  total_dependencies : Nat
deriving DecidableEq

/-- The struct `ProjectMetadata::SystemAnalysis`. -/
structure SystemAnalysis where
  system_groups : List (String × List String)
  core_systems : List String
  support_systems : List String
  system_complexity : List (String × Nat)
deriving DecidableEq

/-- The struct `ProjectMetadata::DependencyAnalysis`. -/
structure DependencyAnalysis where
  dependency_clusters : List String
  high_coupling_components : List String
  isolated_components : List String
  has_circular_dependencies : Bool
  topological_order : List String
deriving DecidableEq

/-- The struct `ProjectMetadata::PatternAnalysis` (without the float
`pattern_consistency_score` and without `recommended_patterns`, which is never assigned). -/
structure PatternAnalysis where
  pattern_frequency : List (String × Nat)
  dominant_patterns : List String
deriving DecidableEq

/-- The struct `ProjectMetadata`, without the floats of `quality` and without the time stamp. -/
structure ProjectMetadata where
  project_summary : ProjectSummary
  systems : SystemAnalysis
  dependencies : DependencyAnalysis
  patterns : PatternAnalysis
  components : List (String × ComponentMetadata)
  files_analyzed : List String
deriving DecidableEq

/-- The method `ProjectMetadataGenerator::analyzeSystemGroups`. -/
def analyzeSystemGroups (monobehaviours : List MonoBehaviourInfo)
    (components : List (String × ComponentMetadata)) : SystemAnalysis :=
  let groups :=
    monobehaviours.foldl
      (fun (groups : List (String × List String)) mb_info =>
        StdMap.pushBack groups (systemNameOf (toLowerCase mb_info.class_name))
          mb_info.class_name)
      []
  { system_groups := groups
    core_systems := (groups.filter (fun group => decide (group.2.length ≥ 3))).map Prod.fst
    support_systems :=
      (groups.filter (fun group => !decide (group.2.length ≥ 3))).map Prod.fst
    system_complexity :=
      groups.foldl
        (fun (system_complexity : List (String × Nat)) group =>
          StdMap.assign system_complexity group.1
            (group.2.foldl
              (fun complexity component =>
                match StdMap.find components component with
                | some metadata => complexity + metadata.complexity_score
                | none => complexity)
              0))
        [] }

/-- The method `ProjectMetadataGenerator::findDependencyClusters`. -/
def findDependencyClusters (dependency_graph : ComponentGraph) : List String :=
  (dependency_graph.dependencies.filter (fun dep_pair => decide (dep_pair.2.length ≥ 3))).map
    (fun dep_pair =>
      dep_pair.1 ++ " cluster (" ++ toString dep_pair.2.length ++ " dependencies)")

/-- The method `ProjectMetadataGenerator::analyzeDependencyStructure`. The two traversals run
on an analyzer filled by `addMonoBehaviour`; they return for every analyzer state. -/
def analyzeDependencyStructure (dependency_graph : ComponentGraph)
    (components : List (String × ComponentMetadata)) : DependencyAnalysis :=
  let analyzer :=
    components.foldl
      (fun analyzer comp_pair =>
        addMonoBehaviour analyzer (simpleComponent comp_pair.1 comp_pair.2.dependencies))
      ComponentDependencyAnalyzer.init
  { dependency_clusters := findDependencyClusters dependency_graph
    high_coupling_components := findHighCouplingComponents dependency_graph
    isolated_components :=
      (components.filter
        (fun comp_pair =>
          comp_pair.2.dependencies.isEmpty && comp_pair.2.dependents.isEmpty)).map Prod.fst
    has_circular_dependencies := (hasCyclicDependencies analyzer).getD false
    topological_order := (getTopologicalOrder analyzer).getD [] }

/-- The method `ProjectMetadataGenerator::analyzePatternUsage`, for the members modelled. -/
def analyzePatternUsage (patterns : List PatternInstance) : PatternAnalysis :=
  let frequency :=
    patterns.foldl
      (fun (frequency : List (String × Nat)) pattern =>
        StdMap.increment frequency pattern.pattern_name)
      []
  let max_count :=
    frequency.foldl (fun max_count pair => if pair.2 > max_count then pair.2 else max_count) 0
  { pattern_frequency := frequency
    dominant_patterns :=
      (frequency.filter (fun pair => decide (pair.2 = max_count ∧ max_count > 0))).map Prod.fst }

/-- The method `ProjectMetadataGenerator::analyzeProject`: the exception it throws, or the
metadata it leaves in `m_project_metadata`. Only the per-component loop can throw; the
project-level functions count, compare and concatenate. -/
def ProjectMetadataGenerator.analyzeProject (world : LaterStages)
    (monobehaviours : List MonoBehaviourInfo) (dependency_graph : ComponentGraph)
    (_lifecycle_flows : List LifecycleFlow) (patterns : List PatternInstance)
    (file_paths : List String) : Except String ProjectMetadata :=
  match ComponentMetadataGenerator.analyzeProject world dependency_graph monobehaviours [] with
  | Except.error what => Except.error what
  | Except.ok components =>
    Except.ok
      { project_summary :=
          { architecture_pattern := inferArchitecturePattern patterns
            key_systems := identifyKeySystems monobehaviours
            game_type := inferGameType monobehaviours
            complexity_level := inferComplexityLevel monobehaviours
            total_components := monobehaviours.length
            total_dependencies :=
              monobehaviours.foldl
                (fun total_dependencies mb_info =>
                  total_dependencies + mb_info.component_dependencies.length)
                0 }
        systems := analyzeSystemGroups monobehaviours components
        dependencies := analyzeDependencyStructure dependency_graph components
        patterns := analyzePatternUsage patterns
        components := components
        files_analyzed := file_paths }

/-- A value-initialised `ProjectMetadata`, as far as its strings and containers go. In a
default-constructed `AnalysisResult` the numbers and flags are indeterminate; the members of
the context modelled below do not read them. -/
def ProjectMetadata.empty : ProjectMetadata :=
  { project_summary :=
      { architecture_pattern := "", key_systems := [], game_type := "", complexity_level := "",
        total_components := 0, total_dependencies := 0 }
    systems :=
      { system_groups := [], core_systems := [], support_systems := [],
        system_complexity := [] }
    dependencies :=
      { dependency_clusters := [], high_coupling_components := [], isolated_components := [],
        has_circular_dependencies := false, topological_order := [] }
    patterns := { pattern_frequency := [], dominant_patterns := [] }
    components := []
    files_analyzed := [] }

/-- The struct `ProjectContext`: the members that are computed without floats. -/
structure ProjectContext where
  project_type : String
  architecture_pattern : String
  complexity_level : String
  recommended_approach : String
  key_patterns : List String
  critical_components : List String
deriving DecidableEq

/-- The method `ProjectSummarizer::extractKeyPatterns`. -/
def extractKeyPatterns (project_metadata : ProjectMetadata) : List String :=
  let patterns :=
    (project_metadata.patterns.pattern_frequency.filter
      (fun pattern_pair => decide (pattern_pair.2 > 0))).map Prod.fst
  let patterns :=
    if patterns.isEmpty then
      patterns ++ ["Standard Unity MonoBehaviour pattern", "Component-based architecture"]
    else patterns
  patterns ++ ["Unity lifecycle method usage", "SerializeField for inspector exposure"]

/-- The method `ProjectSummarizer::identifyCriticalComponents`. -/
def identifyCriticalComponents (project_metadata : ProjectMetadata) : List String :=
  let critical :=
    project_metadata.components.flatMap
      (fun comp_pair =>
        (if comp_pair.2.dependents.length > 5 ∨ comp_pair.2.complexity_score > 50 then
            [comp_pair.2.class_name]
          else []) ++
        (if containsStr (toLowerCase comp_pair.2.class_name) "manager" ||
              containsStr (toLowerCase comp_pair.2.class_name) "controller" then
            [comp_pair.2.class_name]
          else []))
  stdUnique (stdSort critical)

/-- The method `ProjectSummarizer::generateProjectContext`, for the members modelled. None
of its statements throws: they copy, count, compare and concatenate. -/
def generateProjectContext (project_metadata : ProjectMetadata) : ProjectContext :=
  { project_type := project_metadata.project_summary.game_type
    architecture_pattern := project_metadata.project_summary.architecture_pattern
    complexity_level := project_metadata.project_summary.complexity_level
    recommended_approach := "Follow established patterns and maintain component separation"
    key_patterns := extractKeyPatterns project_metadata
    critical_components := identifyCriticalComponents project_metadata }

/-- The stages of `CoreEngine::analyzeProject` between the ScriptableObject analysis and
`result.success = true`: API detection over the files, the AI analysis of every usage when
it is switched on, the metadata when `generate_metadata` is set and the context when
`generate_context` is set. The outcome is the exception thrown, or the metadata (`none` when
it is not generated) and the context. The export that follows `result.success = true`
catches what it throws. The switches `generate_metadata` and `generate_context` of
`AnalysisOptions` are arguments here. -/
def CoreEngine.laterStages (env : Environment) (world : LaterStages)
    (source_files : List String) (monobehaviours : List MonoBehaviourInfo)
    (dependency_graph : ComponentGraph) (lifecycle_flows : List LifecycleFlow)
    (patterns : List PatternInstance) (generate_metadata generate_context : Bool) :
    Except String (Option ProjectMetadata × Option ProjectContext) :=
  match UnityAPIDetector.analyzeProject env world source_files with
  | Except.error what => Except.error what
  | Except.ok api_usage =>
    match (if world.ai_enabled then CoreEngine.runAIAnalysis env world api_usage else none) with
    | some what => Except.error what
    | none =>
      match
        (if generate_metadata then
          match ProjectMetadataGenerator.analyzeProject world monobehaviours dependency_graph
              lifecycle_flows patterns source_files with
          | Except.error what => Except.error what
          | Except.ok project_metadata => Except.ok (some project_metadata)
        else Except.ok none) with
      | Except.error what => Except.error what
      | Except.ok project_metadata =>
        Except.ok
          (project_metadata,
            if generate_context then
              some (generateProjectContext (project_metadata.getD ProjectMetadata.empty))
            else none)

/-- The environment of one run of `analyzeProject` over `source_files`: `otherStages` is the
exception, if any, that the stages after the ScriptableObject analysis throw on the results
of this very run. -/
def Environment.forRun (env : Environment) (world : LaterStages) (source_files : List String)
    (options : AnalysisOptions) (generate_metadata generate_context : Bool) : Environment :=
  { env with
    otherStages :=
      match CoreEngine.laterStages env world source_files
          (CoreEngine.analyzeProject env source_files options).monobehaviours
          (CoreEngine.analyzeProject env source_files options).dependency_graph
          (CoreEngine.analyzeProject env source_files options).lifecycle_flows
          (CoreEngine.analyzeProject env source_files options).patterns
          generate_metadata generate_context with
      | Except.error what => some what
      | Except.ok _ => none }

/-! ## Strings, sorting and maps: basic facts -/

theorem strLe_iff (a b : String) : strLe a b ↔ a ≤ b := String.le_iff_toList_le.symm

theorem strLt_iff (a b : String) : strLt a b ↔ a < b := String.lt_iff_toList_lt.symm

theorem strLe_isTotal : IsTotal String strLe :=
  ⟨fun a b => by simp only [strLe_iff]; exact le_total a b⟩

theorem strLe_isTrans : IsTrans String strLe :=
  ⟨fun a b c => by simp only [strLe_iff]; exact le_trans⟩

theorem strLe_isAntisymm : IsAntisymm String strLe :=
  ⟨fun a b => by simp only [strLe_iff]; exact le_antisymm⟩

theorem strLt_isTrans : IsTrans String strLt :=
  ⟨fun a b c => by simp only [strLt_iff]; exact lt_trans⟩

theorem strLt_isIrrefl : IsIrrefl String strLt :=
  ⟨fun a => by simp only [strLt_iff]; exact lt_irrefl a⟩

theorem mem_stdSort {x : String} {l : List String} : x ∈ stdSort l ↔ x ∈ l :=
  List.mem_insertionSort strLe

theorem sorted_stdSort (l : List String) : List.Sorted strLe (stdSort l) :=
  @List.sorted_insertionSort _ strLe _ strLe_isTotal strLe_isTrans l

theorem stdSort_perm (l : List String) : (stdSort l).Perm l :=
  List.perm_insertionSort strLe l

theorem stdSort_congr {l₁ l₂ : List String} (h : l₁.Perm l₂) : stdSort l₁ = stdSort l₂ :=
  @List.eq_of_perm_of_sorted _ strLe strLe_isAntisymm _ _
    (((stdSort_perm l₁).trans h).trans (stdSort_perm l₂).symm)
    (sorted_stdSort l₁) (sorted_stdSort l₂)

theorem mem_stdUnique {x : String} : ∀ {l : List String}, x ∈ stdUnique l ↔ x ∈ l
  | [] => by simp [stdUnique]
  | [a] => by simp [stdUnique]
  | a :: b :: t => by
    have ih := @mem_stdUnique x (b :: t)
    unfold stdUnique
    split
    · next h => subst h; rw [ih]; simp
    · simp [ih]

theorem sorted_stdUnique : ∀ {l : List String}, List.Sorted strLe l →
    List.Sorted strLt (stdUnique l)
  | [], _ => by simp [stdUnique]
  | [a], _ => by simp [stdUnique]
  | a :: b :: t, h => by
    have ih := sorted_stdUnique (List.Sorted.of_cons h)
    unfold stdUnique
    split
    · exact ih
    · next hne =>
      rw [List.sorted_cons] at h ⊢
      refine ⟨fun x hx => ?_, ih⟩
      rw [mem_stdUnique] at hx
      have hab : a < b :=
        lt_of_le_of_ne ((strLe_iff a b).1 (h.1 b (List.mem_cons_self b t))) hne
      rw [strLt_iff]
      rcases List.mem_cons.1 hx with rfl | hxt
      · exact hab
      · exact lt_of_lt_of_le hab ((strLe_iff b x).1 ((List.sorted_cons.1 h.2).1 x hxt))

theorem StdMap.find_assign {β : Type} (key : String) (val : β) (k : String) :
    ∀ m : List (String × β),
      StdMap.find (StdMap.assign m key val) k = if k = key then some val else StdMap.find m k
  | [] => by simp [StdMap.assign, StdMap.find]
  | (k0, v0) :: m => by
    have ih := StdMap.find_assign key val k m
    unfold StdMap.assign
    split
    · simp [StdMap.find]
    · split
      · next h => subst h; simp only [StdMap.find]; split <;> rfl
      · next h =>
        simp only [StdMap.find, ih]
        by_cases h1 : k = k0
        · have : k ≠ key := fun h2 => h (h2 ▸ h1)
          subst h1
          simp [this]
        · simp [h1]

theorem find_sortUniqueValues (k : String) : ∀ m : List (String × List String),
    StdMap.find (sortUniqueValues m) k = (StdMap.find m k).map (fun l => stdUnique (stdSort l))
  | [] => rfl
  | (k0, v0) :: m => by
    have ih := find_sortUniqueValues k m
    simp only [sortUniqueValues, List.map_cons, StdMap.find] at ih ⊢
    split
    · rfl
    · exact ih

theorem find_foldl_addEdge_dependencies (k : String) :
    ∀ (edges : List ComponentDependency) (g : ComponentGraph),
      StdMap.find (edges.foldl addEdge g).dependencies k =
        if targetsOf edges k = [] then StdMap.find g.dependencies k
        else some ((StdMap.find g.dependencies k).getD [] ++ targetsOf edges k)
  | [], g => by simp [targetsOf]
  | e :: edges, g => by
    rw [List.foldl_cons, find_foldl_addEdge_dependencies k edges (addEdge g e)]
    simp only [addEdge, StdMap.pushBack, StdMap.find_assign, targetsOf, List.filter_cons]
    by_cases h : e.source_component = k
    · subst h; simp
    · have h2 : ¬ k = e.source_component := fun h3 => h h3.symm
      simp [h, h2]

theorem find_foldl_addEdge_dependents (k : String) :
    ∀ (edges : List ComponentDependency) (g : ComponentGraph),
      StdMap.find (edges.foldl addEdge g).dependents k =
        if sourcesOf edges k = [] then StdMap.find g.dependents k
        else some ((StdMap.find g.dependents k).getD [] ++ sourcesOf edges k)
  | [], g => by simp [sourcesOf]
  | e :: edges, g => by
    rw [List.foldl_cons, find_foldl_addEdge_dependents k edges (addEdge g e)]
    simp only [addEdge, StdMap.pushBack, StdMap.find_assign, sourcesOf, List.filter_cons]
    by_cases h : e.target_component = k
    · subst h; simp
    · have h2 : ¬ k = e.target_component := fun h3 => h h3.symm
      simp [h, h2]

theorem edges_foldl_addEdge : ∀ (edges : List ComponentDependency) (g : ComponentGraph),
    (edges.foldl addEdge g).edges = g.edges ++ edges
  | [], g => by simp
  | e :: edges, g => by
    rw [List.foldl_cons, edges_foldl_addEdge edges (addEdge g e)]
    simp [addEdge]

theorem buildDependencyGraph_edges (s : ComponentDependencyAnalyzer) :
    (buildDependencyGraph s).edges = s.m_dependencies := by
  simp [buildDependencyGraph, edges_foldl_addEdge]

theorem find_dependencies (s : ComponentDependencyAnalyzer) (k : String) :
    StdMap.find (buildDependencyGraph s).dependencies k =
      if targetsOf s.m_dependencies k = [] then none
      else some (stdUnique (stdSort (targetsOf s.m_dependencies k))) := by
  simp only [buildDependencyGraph, find_sortUniqueValues, find_foldl_addEdge_dependencies,
    StdMap.find]
  split <;> simp

theorem find_dependents (s : ComponentDependencyAnalyzer) (k : String) :
    StdMap.find (buildDependencyGraph s).dependents k =
      if sourcesOf s.m_dependencies k = [] then none
      else some (stdUnique (stdSort (sourcesOf s.m_dependencies k))) := by
  simp only [buildDependencyGraph, find_sortUniqueValues, find_foldl_addEdge_dependents,
    StdMap.find]
  split <;> simp

theorem stdUnique_nil : stdUnique [] = [] := rfl

theorem stdSort_nil : stdSort [] = [] := rfl

theorem adj_eq (s : ComponentDependencyAnalyzer) (k : String) :
    (buildDependencyGraph s).adj k = stdUnique (stdSort (targetsOf s.m_dependencies k)) := by
  simp only [ComponentGraph.adj, find_dependencies]
  split
  · next h => simp [h, stdSort_nil, stdUnique_nil]
  · simp

theorem mem_targetsOf {edges : List ComponentDependency} {a b : String} :
    b ∈ targetsOf edges a ↔
      ∃ dep ∈ edges, dep.source_component = a ∧ dep.target_component = b := by
  simp [targetsOf, and_assoc]

theorem mem_sourcesOf {edges : List ComponentDependency} {a b : String} :
    a ∈ sourcesOf edges b ↔
      ∃ dep ∈ edges, dep.source_component = a ∧ dep.target_component = b := by
  simp only [sourcesOf, List.mem_map, List.mem_filter, decide_eq_true_eq]
  constructor
  · rintro ⟨d, ⟨h1, h2⟩, h3⟩; exact ⟨d, h1, h3, h2⟩
  · rintro ⟨d, h1, h2, h3⟩; exact ⟨d, ⟨h1, h3⟩, h2⟩

theorem mem_adj {s : ComponentDependencyAnalyzer} {a b : String} :
    b ∈ (buildDependencyGraph s).adj a ↔
      ∃ dep ∈ s.m_dependencies, dep.source_component = a ∧ dep.target_component = b := by
  rw [adj_eq, mem_stdUnique, mem_stdSort, mem_targetsOf]

theorem rev_eq (s : ComponentDependencyAnalyzer) (k : String) :
    (buildDependencyGraph s).rev k = stdUnique (stdSort (sourcesOf s.m_dependencies k)) := by
  simp only [ComponentGraph.rev, find_dependents]
  split
  · next h => simp [h, stdSort_nil, stdUnique_nil]
  · simp

theorem mem_rev {s : ComponentDependencyAnalyzer} {a b : String} :
    a ∈ (buildDependencyGraph s).rev b ↔
      ∃ dep ∈ s.m_dependencies, dep.source_component = a ∧ dep.target_component = b := by
  rw [rev_eq, mem_stdUnique, mem_stdSort, mem_sourcesOf]

theorem sorted_values_sortUniqueValues {m : List (String × List String)}
    {pair : String × List String} (h : pair ∈ sortUniqueValues m) :
    List.Sorted strLt pair.2 := by
  simp only [sortUniqueValues, List.mem_map] at h
  obtain ⟨q, _, rfl⟩ := h
  exact sorted_stdUnique (sorted_stdSort q.2)

theorem orderedClosed_mem_of_edge {g : ComponentGraph} : ∀ {l : List String},
    OrderedClosed g l → ∀ x ∈ l, ∀ m, g.Edge x m → m ∈ l
  | [], _, x, hx, _, _ => by simp at hx
  | n :: l, h, x, hx, m, hm => by
    rcases List.mem_cons.1 hx with rfl | hx
    · exact List.mem_cons_of_mem _ (h.1 m hm)
    · exact List.mem_cons_of_mem _ (orderedClosed_mem_of_edge h.2 x hx m hm)

theorem orderedClosed_mem_of_reach {g : ComponentGraph} {l : List String}
    (h : OrderedClosed g l) {x m : String} (hx : x ∈ l)
    (hr : Relation.ReflTransGen g.Edge x m) : m ∈ l := by
  induction hr with
  | refl => exact hx
  | tail _ hbc ih => exact orderedClosed_mem_of_edge h _ ih _ hbc

theorem orderedClosed_no_cycle {g : ComponentGraph} : ∀ {l : List String},
    OrderedClosed g l → l.Nodup → ∀ x ∈ l, ¬ Relation.TransGen g.Edge x x
  | [], _, _, x, hx => by simp at hx
  | n :: l, h, hnd, x, hx => by
    rcases List.mem_cons.1 hx with rfl | hx
    · intro hc
      obtain ⟨m, hxm, hmx⟩ := Relation.TransGen.head'_iff.1 hc
      exact (List.nodup_cons.1 hnd).1 (orderedClosed_mem_of_reach h.2 (h.1 m hxm) hmx)
    · exact orderedClosed_no_cycle h.2 (List.nodup_cons.1 hnd).2 x hx

theorem cyclicLoop_spec {g : ComponentGraph}
    {recurse : String → List String → List String → Option (Bool × List String × List String)}
    (hrec : CycSpec g recurse) (p : String) :
    ∀ (deps vg vd : List String) (b : Bool) (vg1 vd1 : List String),
      cyclicLoop recurse deps vg vd = some (b, vg1, vd1) →
      (∀ d ∈ deps, g.Edge p d) → CycInv g vg vd →
      (∀ x ∈ vg, Relation.ReflTransGen g.Edge x p) →
      (b = true → g.HasCycle) ∧
      (b = false → vg1 = vg ∧ CycInv g vg vd1 ∧ (∀ d ∈ deps, d ∈ vd1) ∧ ∀ x ∈ vd, x ∈ vd1)
  | [], vg, vd, b, vg1, vd1, h, _, hinv, _ => by
    simp only [cyclicLoop, Option.some.injEq, Prod.mk.injEq] at h
    obtain ⟨rfl, rfl, rfl⟩ := h
    simp [hinv]
  | dep :: rest, vg, vd, b, vg1, vd1, h, hdeps, hinv, hstack => by
    have hrest : ∀ d ∈ rest, g.Edge p d := fun d hd => hdeps d (List.mem_cons_of_mem _ hd)
    unfold cyclicLoop at h
    split at h
    · next hmem =>
      simp only [Option.some.injEq, Prod.mk.injEq] at h
      obtain ⟨rfl, rfl, rfl⟩ := h
      refine ⟨fun _ => ⟨p, ?_⟩, by simp⟩
      exact Relation.TransGen.head' (hdeps dep (List.mem_cons_self _ _)) (hstack dep hmem)
    · next hnvg =>
      split at h
      · next hnvd =>
        have hstack2 : ∀ x ∈ vg, Relation.ReflTransGen g.Edge x dep := fun x hx =>
          (hstack x hx).tail (hdeps dep (List.mem_cons_self _ _))
        split at h
        · simp at h
        · next vg2 vd2 heq =>
          simp only [Option.some.injEq, Prod.mk.injEq] at h
          obtain ⟨rfl, rfl, rfl⟩ := h
          exact ⟨fun _ => (hrec _ _ _ _ _ _ heq hnvg hnvd hinv hstack2).1 rfl, by simp⟩
        · next vg2 vd2 heq =>
          obtain ⟨rfl, hinv2, hdep, hsub⟩ :=
            (hrec _ _ _ _ _ _ heq hnvg hnvd hinv hstack2).2 rfl
          have ih := cyclicLoop_spec hrec p rest vg2 vd2 b vg1 vd1 h hrest hinv2 hstack
          refine ⟨ih.1, fun hb => ?_⟩
          obtain ⟨h1, h2, h3, h4⟩ := ih.2 hb
          refine ⟨h1, h2, fun d hd => ?_, fun x hx => h4 x (hsub x hx)⟩
          rcases List.mem_cons.1 hd with rfl | hd
          · exact h4 _ hdep
          · exact h3 d hd
      · next hvd =>
        have hvd : dep ∈ vd := by simpa using hvd
        have ih := cyclicLoop_spec hrec p rest vg vd b vg1 vd1 h hrest hinv hstack
        refine ⟨ih.1, fun hb => ?_⟩
        obtain ⟨h1, h2, h3, h4⟩ := ih.2 hb
        refine ⟨h1, h2, fun d hd => ?_, h4⟩
        rcases List.mem_cons.1 hd with rfl | hd
        · exact h4 _ hvd
        · exact h3 d hd

theorem hasCyclicDependenciesRecursive_spec (g : ComponentGraph) :
    ∀ fuel : Nat, CycSpec g (hasCyclicDependenciesRecursive g fuel)
  | 0 => by
    intro c vg vd b vg1 vd1 h
    simp [hasCyclicDependenciesRecursive] at h
  | fuel + 1 => by
    intro c vg vd b vg1 vd1 h hcvg hcvd hinv hstack
    have ih := hasCyclicDependenciesRecursive_spec g fuel
    unfold hasCyclicDependenciesRecursive at h
    rw [List.insert_of_not_mem hcvg] at h
    have hinv2 : CycInv g (c :: vg) vd := by
      refine ⟨hinv.1, hinv.2.1, fun x hx => ?_⟩
      rcases List.mem_cons.1 hx with rfl | hx
      · exact hcvd
      · exact hinv.2.2 x hx
    have hstack2 : ∀ x ∈ c :: vg, Relation.ReflTransGen g.Edge x c := by
      intro x hx
      rcases List.mem_cons.1 hx with rfl | hx
      · exact Relation.ReflTransGen.refl
      · exact hstack x hx
    split at h
    · simp at h
    · next vg2 vd2 heq =>
      simp only [Option.some.injEq, Prod.mk.injEq] at h
      obtain ⟨rfl, rfl, rfl⟩ := h
      exact ⟨fun _ => (cyclicLoop_spec ih c _ _ _ _ _ _ heq (fun d hd => hd) hinv2 hstack2).1 rfl,
        by simp⟩
    · next vg2 vd2 heq =>
      simp only [Option.some.injEq, Prod.mk.injEq] at h
      obtain ⟨rfl, rfl, rfl⟩ := h
      obtain ⟨rfl, hinv3, hdeps, hsub⟩ :=
        (cyclicLoop_spec ih c _ _ _ _ _ _ heq (fun d hd => hd) hinv2 hstack2).2 rfl
      have hcvd2 : c ∉ vd2 := hinv3.2.2 c (List.mem_cons_self _ _)
      refine ⟨by simp, fun _ => ⟨by simp, ?_, ?_, ?_⟩⟩
      · rw [List.insert_of_not_mem hcvd2]
        refine ⟨List.nodup_cons.2 ⟨hcvd2, hinv3.1⟩, ⟨hdeps, hinv3.2.1⟩, fun x hx => ?_⟩
        intro hx2
        rcases List.mem_cons.1 hx2 with rfl | hx2
        · exact hcvg hx
        · exact hinv3.2.2 x (List.mem_cons_of_mem _ hx) hx2
      · simp
      · intro x hx
        exact List.mem_insert_of_mem (hsub x hx)

theorem unseenCount_mono (U : List String) {vs vs1 : List String} (h : ∀ x ∈ vs, x ∈ vs1) :
    unseenCount U vs1 ≤ unseenCount U vs := by
  unfold unseenCount
  apply Finset.card_le_card
  intro x hx
  simp only [Finset.mem_sdiff, List.mem_toFinset] at hx ⊢
  exact ⟨hx.1, fun hxs => hx.2 (h x hxs)⟩

theorem unseenCount_lt (U vs vs1 : List String) (c : String) (hcU : c ∈ U)
    (hc : c ∉ vs) (hc1 : c ∈ vs1) (h : ∀ x ∈ vs, x ∈ vs1) :
    unseenCount U vs1 < unseenCount U vs := by
  unfold unseenCount
  apply Finset.card_lt_card
  rw [Finset.ssubset_iff_of_subset]
  · exact ⟨c, by simp [hcU, hc], by simp [hc1]⟩
  · intro x hx
    simp only [Finset.mem_sdiff, List.mem_toFinset] at hx ⊢
    exact ⟨hx.1, fun hxs => hx.2 (h x hxs)⟩

theorem unseenCount_le_length (U vs : List String) : unseenCount U vs ≤ U.length := by
  unfold unseenCount
  exact (Finset.card_le_card Finset.sdiff_subset).trans (List.toFinset_card_le U)

theorem cyclicLoop_total {U : List String}
    {recurse : String → List String → List String → Option (Bool × List String × List String)}
    {f : Nat} (hrec : CycTotal U recurse f) :
    ∀ (deps vg vd : List String), (∀ d ∈ deps, d ∈ U) → unseenCount U (vg ++ vd) ≤ f →
      ∃ b vg1 vd1, cyclicLoop recurse deps vg vd = some (b, vg1, vd1) ∧
        (∀ x ∈ vg, x ∈ vg1) ∧ ∀ x ∈ vd, x ∈ vd1
  | [], vg, vd, _, _ => ⟨false, vg, vd, rfl, fun _ h => h, fun _ h => h⟩
  | dep :: rest, vg, vd, hU, hf => by
    have hrestU : ∀ d ∈ rest, d ∈ U := fun d hd => hU d (List.mem_cons_of_mem _ hd)
    unfold cyclicLoop
    split
    · exact ⟨true, vg, vd, rfl, fun _ h => h, fun _ h => h⟩
    · next hnvg =>
      split
      · next hnvd =>
        obtain ⟨b, vg2, vd2, heq, hsub1, hsub2⟩ :=
          hrec dep vg vd (hU dep (List.mem_cons_self _ _)) hnvg hnvd hf
        rw [heq]
        cases b with
        | true => exact ⟨true, vg2, vd2, rfl, hsub1, hsub2⟩
        | false =>
          have hf2 : unseenCount U (vg2 ++ vd2) ≤ f :=
            (unseenCount_mono U (fun x hx => by
              rcases List.mem_append.1 hx with h | h
              · exact List.mem_append_left _ (hsub1 x h)
              · exact List.mem_append_right _ (hsub2 x h))).trans hf
          obtain ⟨b, vg3, vd3, heq3, hsub3, hsub4⟩ := cyclicLoop_total hrec rest vg2 vd2 hrestU hf2
          exact ⟨b, vg3, vd3, heq3, fun x hx => hsub3 x (hsub1 x hx),
            fun x hx => hsub4 x (hsub2 x hx)⟩
      · exact cyclicLoop_total hrec rest vg vd hrestU hf

theorem hasCyclicDependenciesRecursive_total (g : ComponentGraph) (U : List String)
    (hU : ∀ x d, d ∈ g.adj x → d ∈ U) :
    ∀ fuel : Nat, CycTotal U (hasCyclicDependenciesRecursive g fuel) fuel
  | 0 => by
    intro c vg vd hc hcvg hcvd hf
    have := unseenCount_lt U (vg ++ vd) (c :: (vg ++ vd)) c hc
      (by simp [hcvg, hcvd]) (by simp) (fun x hx => List.mem_cons_of_mem _ hx)
    omega
  | fuel + 1 => by
    intro c vg vd hc hcvg hcvd hf
    have ih := hasCyclicDependenciesRecursive_total g U hU fuel
    unfold hasCyclicDependenciesRecursive
    rw [List.insert_of_not_mem hcvg]
    have hlt : unseenCount U ((c :: vg) ++ vd) ≤ fuel := by
      have := unseenCount_lt U (vg ++ vd) ((c :: vg) ++ vd) c hc
        (by simp [hcvg, hcvd]) (by simp) (fun x hx => by simp at hx ⊢; tauto)
      omega
    obtain ⟨b, vg2, vd2, heq, hsub1, hsub2⟩ :=
      cyclicLoop_total ih (g.adj c) (c :: vg) vd (fun d hd => hU c d hd) hlt
    rw [heq]
    cases b with
    | true =>
      exact ⟨true, vg2, vd2, rfl, fun x hx => hsub1 x (List.mem_cons_of_mem _ hx), hsub2⟩
    | false =>
      refine ⟨false, _, _, rfl, fun x hx => ?_, fun x hx => List.mem_insert_of_mem (hsub2 x hx)⟩
      have hne : x ≠ c := fun h => hcvg (h ▸ hx)
      exact (List.mem_erase_of_ne hne).2 (hsub1 x (List.mem_cons_of_mem _ hx))

theorem cyclicOuterLoop_run {g : ComponentGraph} {U : List String} {fuel : Nat}
    (hspec : CycSpec g (hasCyclicDependenciesRecursive g fuel))
    (hrec : CycTotal U (hasCyclicDependenciesRecursive g fuel) fuel)
    (hfuel : U.length ≤ fuel) :
    ∀ (comps vd : List String), (∀ c ∈ comps, c ∈ U) → CycInv g [] vd →
      ∃ b, cyclicOuterLoop g fuel comps [] vd = some b ∧ (b = true → g.HasCycle) ∧
        (b = false → ∃ vd1 : List String, vd1.Nodup ∧ OrderedClosed g vd1 ∧
          (∀ c ∈ comps, c ∈ vd1) ∧ ∀ x ∈ vd, x ∈ vd1)
  | [], vd, _, hinv => ⟨false, rfl, by simp, fun _ => ⟨vd, hinv.1, hinv.2.1, by simp, fun _ h => h⟩⟩
  | c :: rest, vd, hU, hinv => by
    have hrestU : ∀ d ∈ rest, d ∈ U := fun d hd => hU d (List.mem_cons_of_mem _ hd)
    unfold cyclicOuterLoop
    split
    · next hnvd =>
      obtain ⟨b, vg2, vd2, heq, _, _⟩ :=
        hrec c [] vd (hU c (List.mem_cons_self _ _)) (List.not_mem_nil c) hnvd
          ((unseenCount_le_length U _).trans hfuel)
      have hs := hspec c [] vd b vg2 vd2 heq (List.not_mem_nil c) hnvd hinv (by simp)
      rw [heq]
      cases b with
      | true => exact ⟨true, rfl, fun _ => hs.1 rfl, by simp⟩
      | false =>
        obtain ⟨rfl, hinv2, hc2, hsub⟩ := hs.2 rfl
        obtain ⟨b, hb, h1, h2⟩ := cyclicOuterLoop_run hspec hrec hfuel rest vd2 hrestU hinv2
        refine ⟨b, hb, h1, fun hbf => ?_⟩
        obtain ⟨vd3, h3, h4, h5, h6⟩ := h2 hbf
        refine ⟨vd3, h3, h4, fun d hd => ?_, fun x hx => h6 x (hsub x hx)⟩
        rcases List.mem_cons.1 hd with rfl | hd
        · exact h6 _ hc2
        · exact h5 d hd
    · next hvd =>
      have hvd : c ∈ vd := by simpa using hvd
      obtain ⟨b, hb, h1, h2⟩ := cyclicOuterLoop_run hspec hrec hfuel rest vd hrestU hinv
      refine ⟨b, hb, h1, fun hbf => ?_⟩
      obtain ⟨vd3, h3, h4, h5, h6⟩ := h2 hbf
      refine ⟨vd3, h3, h4, fun d hd => ?_, h6⟩
      rcases List.mem_cons.1 hd with rfl | hd
      · exact h6 _ hvd
      · exact h5 d hd

theorem StdMap.mem_assign {β : Type} {key : String} {val : β} {pair : String × β} :
    ∀ {m : List (String × β)}, pair ∈ StdMap.assign m key val → pair = (key, val) ∨ pair ∈ m
  | [], h => by simpa [StdMap.assign] using h
  | (k0, v0) :: m, h => by
    unfold StdMap.assign at h
    split at h
    · simpa using h
    · split at h
      · rcases List.mem_cons.1 h with h | h
        · exact Or.inl h
        · exact Or.inr (List.mem_cons_of_mem _ h)
      · rcases List.mem_cons.1 h with h | h
        · exact Or.inr (h ▸ List.mem_cons_self _ _)
        · rcases StdMap.mem_assign h with h | h
          · exact Or.inl h
          · exact Or.inr (List.mem_cons_of_mem _ h)

theorem StdMap.mem_keys_iff_find {β : Type} {k : String} : ∀ {m : List (String × β)},
    k ∈ StdMap.keys m ↔ (StdMap.find m k).isSome
  | [] => by simp [StdMap.keys, StdMap.find]
  | (k0, v0) :: m => by
    have ih := @StdMap.mem_keys_iff_find β k m
    simp only [StdMap.keys, List.map_cons, List.mem_cons, StdMap.find] at ih ⊢
    by_cases h : k = k0
    · simp [h]
    · simp [h, ih]

theorem StdMap.mem_keys_assign {β : Type} {key : String} {val : β} {k : String}
    {m : List (String × β)} :
    k ∈ StdMap.keys (StdMap.assign m key val) ↔ k = key ∨ k ∈ StdMap.keys m := by
  rw [StdMap.mem_keys_iff_find, StdMap.mem_keys_iff_find, StdMap.find_assign]
  by_cases h : k = key <;> simp [h]

theorem mem_extractDependenciesFromComponent {mb : MonoBehaviourInfo}
    {dep : ComponentDependency} (h : dep ∈ extractDependenciesFromComponent mb) :
    dep.source_component = mb.class_name := by
  simp only [extractDependenciesFromComponent, List.mem_append, List.mem_map,
    List.mem_filterMap, Option.map_eq_some'] at h
  rcases h with ⟨_, _, rfl⟩ | ⟨_, _, _, _, rfl⟩ <;> rfl

theorem sourcesRegistered_add {s : ComponentDependencyAnalyzer} (mb : MonoBehaviourInfo)
    (h : SourcesRegistered s) : SourcesRegistered (addMonoBehaviour s mb) := by
  intro dep hdep
  simp only [addMonoBehaviour, List.mem_append] at hdep ⊢
  rw [StdMap.mem_keys_assign]
  rcases hdep with hdep | hdep
  · exact Or.inr (h dep hdep)
  · exact Or.inl (mem_extractDependenciesFromComponent hdep)

theorem keysMatch_add {s : ComponentDependencyAnalyzer} (mb : MonoBehaviourInfo)
    (h : KeysMatch s) : KeysMatch (addMonoBehaviour s mb) := by
  intro pair hp
  rcases StdMap.mem_assign hp with rfl | hp
  · rfl
  · exact h pair hp

theorem invariants_foldl_add : ∀ (mbs : List MonoBehaviourInfo) (s : ComponentDependencyAnalyzer),
    SourcesRegistered s → KeysMatch s →
      SourcesRegistered (mbs.foldl addMonoBehaviour s) ∧ KeysMatch (mbs.foldl addMonoBehaviour s)
  | [], _, h1, h2 => ⟨h1, h2⟩
  | mb :: mbs, s, h1, h2 =>
    invariants_foldl_add mbs (addMonoBehaviour s mb) (sourcesRegistered_add mb h1)
      (keysMatch_add mb h2)

theorem mem_crossReferenceEdge {m : List (String × MonoBehaviourInfo)} {mb : MonoBehaviourInfo}
    {field : String} {dep : ComponentDependency} (h : crossReferenceEdge m mb field = some dep) :
    dep.source_component = mb.class_name := by
  unfold crossReferenceEdge at h
  split at h
  · simp at h
  · simp only at h
    split at h
    · simp only [Option.some.injEq] at h
      rw [← h]
    · simp at h

theorem invariants_crossReferences {s : ComponentDependencyAnalyzer}
    (h1 : SourcesRegistered s) (h2 : KeysMatch s) :
    SourcesRegistered (analyzeCrossComponentReferences s) ∧
      KeysMatch (analyzeCrossComponentReferences s) := by
  refine ⟨fun dep hdep => ?_, h2⟩
  simp only [analyzeCrossComponentReferences, List.mem_append, List.mem_flatMap,
    List.mem_filterMap] at hdep ⊢
  rcases hdep with hdep | ⟨pair, hp, field, _, hf⟩
  · exact h1 dep hdep
  · rw [mem_crossReferenceEdge hf, ← h2 pair hp]
    exact List.mem_map_of_mem _ hp

theorem reachable_invariants {s : ComponentDependencyAnalyzer} (h : Reachable s) :
    SourcesRegistered s ∧ KeysMatch s := by
  induction h with
  | init => exact ⟨by simp [SourcesRegistered, ComponentDependencyAnalyzer.init],
      by simp [KeysMatch, ComponentDependencyAnalyzer.init]⟩
  | add s mb _ ih => exact ⟨sourcesRegistered_add mb ih.1, keysMatch_add mb ih.2⟩
  | analyze mbs =>
    have := invariants_foldl_add mbs ComponentDependencyAnalyzer.init
      (by simp [SourcesRegistered, ComponentDependencyAnalyzer.init])
      (by simp [KeysMatch, ComponentDependencyAnalyzer.init])
    exact invariants_crossReferences this.1 this.2

theorem adj_mem_allNames (s : ComponentDependencyAnalyzer) (x d : String)
    (h : d ∈ (buildDependencyGraph s).adj x) : d ∈ allNames s := by
  obtain ⟨dep, hdep, _, rfl⟩ := mem_adj.1 h
  simp only [allNames, List.mem_append, List.mem_map]
  exact Or.inr ⟨dep, hdep, rfl⟩

theorem keys_mem_allNames (s : ComponentDependencyAnalyzer) (c : String)
    (h : c ∈ StdMap.keys s.m_components) : c ∈ allNames s := by
  simp only [allNames, List.mem_append]
  exact Or.inl (Or.inl h)

theorem allNames_length_le (s : ComponentDependencyAnalyzer) :
    (allNames s).length ≤ traversalFuel s := by
  simp only [allNames, traversalFuel, List.length_append, List.length_map]
  omega

theorem edge_source_registered {s : ComponentDependencyAnalyzer} (h : Reachable s)
    {a b : String} (hab : (buildDependencyGraph s).Edge a b) :
    a ∈ StdMap.keys s.m_components := by
  obtain ⟨dep, hdep, rfl, _⟩ := mem_adj.1 hab
  exact (reachable_invariants h).1 dep hdep

theorem cycInv_nil (g : ComponentGraph) : CycInv g [] [] :=
  ⟨List.nodup_nil, trivial, by simp⟩

theorem topologicalLoop_spec {g : ComponentGraph}
    {recurse : String → List String → List String → Option (List String × List String)}
    (hrec : TopSpec g recurse) (p : String) (stk : List String) (hp : p ∈ stk) :
    ∀ (deps vd res vd1 res1 : List String),
      topologicalLoop recurse deps vd res = some (vd1, res1) →
      (∀ d ∈ deps, g.Edge p d) → TopInv g stk vd res →
      (∀ x ∈ stk, Relation.ReflTransGen g.Edge x p) →
      TopInv g stk vd1 res1 ∧ (∀ x ∈ vd, x ∈ vd1) ∧ (∀ x ∈ res, x ∈ res1) ∧
        (∀ d ∈ deps, d ∈ vd1) ∧ (¬ g.HasCycle → ∀ d ∈ deps, d ∈ res1) ∧
        ∀ x ∈ res1, x ∈ res ∨ Relation.ReflTransGen g.Edge p x
  | [], vd, res, vd1, res1, h, _, hinv, _ => by
    simp only [topologicalLoop, Option.some.injEq, Prod.mk.injEq] at h
    obtain ⟨rfl, rfl⟩ := h
    exact ⟨hinv, fun _ h => h, fun _ h => h, by simp, by simp, fun _ h => Or.inl h⟩
  | dep :: rest, vd, res, vd1, res1, h, hdeps, hinv, hstack => by
    have hrest : ∀ d ∈ rest, g.Edge p d := fun d hd => hdeps d (List.mem_cons_of_mem _ hd)
    have hpd : g.Edge p dep := hdeps dep (List.mem_cons_self _ _)
    unfold topologicalLoop at h
    split at h
    · next hnvd =>
      have hstack2 : ∀ x ∈ stk, Relation.ReflTransGen g.Edge x dep := fun x hx =>
        (hstack x hx).tail hpd
      split at h
      · simp at h
      · next vd2 res2 heq =>
        obtain ⟨hinv2, hdep, hsub1, hsub2, hreach⟩ :=
          hrec dep stk vd res vd2 res2 heq hnvd hinv hstack2
        obtain ⟨h1, h2, h3, h4, h5, h6⟩ :=
          topologicalLoop_spec hrec p stk hp rest vd2 res2 vd1 res1 h hrest hinv2 hstack
        refine ⟨h1, fun x hx => h2 x (hsub1 x hx), fun x hx => h3 x (hsub2 x hx),
          fun d hd => ?_, fun hac d hd => ?_, fun x hx => ?_⟩
        · rcases List.mem_cons.1 hd with rfl | hd
          · exact h2 _ ((hinv2.2.1 _).2 (Or.inl hdep))
          · exact h4 d hd
        · rcases List.mem_cons.1 hd with rfl | hd
          · exact h3 _ hdep
          · exact h5 hac d hd
        · rcases h6 x hx with hx2 | hx2
          · rcases hreach x hx2 with hx3 | hx3
            · exact Or.inl hx3
            · exact Or.inr (Relation.ReflTransGen.head hpd hx3)
          · exact Or.inr hx2
    · next hvd =>
      have hvd : dep ∈ vd := by simpa using hvd
      obtain ⟨h1, h2, h3, h4, h5, h6⟩ :=
        topologicalLoop_spec hrec p stk hp rest vd res vd1 res1 h hrest hinv hstack
      refine ⟨h1, h2, h3, fun d hd => ?_, fun hac d hd => ?_, h6⟩
      · rcases List.mem_cons.1 hd with rfl | hd
        · exact h2 _ hvd
        · exact h4 d hd
      · rcases List.mem_cons.1 hd with rfl | hd
        · rcases (hinv.2.1 _).1 hvd with hres | hstk
          · exact h3 _ hres
          · exact absurd ⟨p, Relation.TransGen.head' hpd (hstack _ hstk)⟩ hac
        · exact h5 hac d hd

theorem topologicalSortRecursive_spec (g : ComponentGraph) :
    ∀ fuel : Nat, TopSpec g (topologicalSortRecursive g fuel)
  | 0 => by
    intro c stk vd res vd1 res1 h
    simp [topologicalSortRecursive] at h
  | fuel + 1 => by
    intro c stk vd res vd1 res1 h hcvd hinv hstack
    have ih := topologicalSortRecursive_spec g fuel
    obtain ⟨hnd, hmem, hdisj, hclosed, hord⟩ := hinv
    have hcres : c ∉ res := fun hc => hcvd ((hmem c).2 (Or.inl hc))
    have hcstk : c ∉ stk := fun hc => hcvd ((hmem c).2 (Or.inr hc))
    unfold topologicalSortRecursive at h
    rw [List.insert_of_not_mem hcvd] at h
    have hinv2 : TopInv g (c :: stk) (c :: vd) res := by
      refine ⟨hnd, fun x => ?_, fun x hx => ?_, fun x hx m hm => ?_, hord⟩
      · simp only [List.mem_cons, hmem]; tauto
      · rcases List.mem_cons.1 hx with rfl | hx
        · exact hcres
        · exact hdisj x hx
      · exact List.mem_cons_of_mem _ (hclosed x hx m hm)
    have hstack2 : ∀ x ∈ c :: stk, Relation.ReflTransGen g.Edge x c := by
      intro x hx
      rcases List.mem_cons.1 hx with rfl | hx
      · exact Relation.ReflTransGen.refl
      · exact hstack x hx
    split at h
    · simp at h
    · next vd2 res2 heq =>
      simp only [Option.some.injEq, Prod.mk.injEq] at h
      obtain ⟨rfl, rfl⟩ := h
      obtain ⟨⟨hnd2, hmem2, hdisj2, hclosed2, hord2⟩, hsub1, hsub2, hdeps, hdepsres, hreach⟩ :=
        topologicalLoop_spec ih c (c :: stk) (List.mem_cons_self _ _) _ _ _ _ _ heq
          (fun d hd => hd) hinv2 hstack2
      have hcres2 : c ∉ res2 := hdisj2 c (List.mem_cons_self _ _)
      refine ⟨⟨?_, fun x => ?_, fun x hx => ?_, fun x hx m hm => ?_, fun hac => ?_⟩, by simp,
        fun x hx => hsub1 x (List.mem_cons_of_mem _ hx),
        fun x hx => List.mem_append_left _ (hsub2 x hx), fun x hx => ?_⟩
      · rw [List.nodup_append]
        refine ⟨hnd2, List.nodup_singleton c, ?_⟩
        intro x hx hx2
        rw [List.mem_singleton] at hx2
        exact hcres2 (hx2 ▸ hx)
      · simp only [hmem2, List.mem_append, List.mem_singleton, List.mem_cons]; tauto
      · simp only [List.mem_append, List.mem_singleton, not_or]
        exact ⟨hdisj2 x (List.mem_cons_of_mem _ hx), fun hxc => hcstk (hxc ▸ hx)⟩
      · rcases List.mem_append.1 hx with hx | hx
        · exact hclosed2 x hx m hm
        · rw [List.mem_singleton] at hx
          subst hx
          exact hdeps m hm
      · rw [List.reverse_append, List.reverse_singleton, List.singleton_append]
        exact ⟨fun m hm => List.mem_reverse.2 (hdepsres hac m hm), hord2 hac⟩
      · rcases List.mem_append.1 hx with hx | hx
        · exact hreach x hx
        · rw [List.mem_singleton] at hx
          exact Or.inr (hx ▸ Relation.ReflTransGen.refl)

theorem topologicalLoop_total {U : List String}
    {recurse : String → List String → List String → Option (List String × List String)}
    {f : Nat} (hrec : TopTotal U recurse f) :
    ∀ (deps vd res : List String), (∀ d ∈ deps, d ∈ U) → unseenCount U vd ≤ f →
      ∃ vd1 res1, topologicalLoop recurse deps vd res = some (vd1, res1) ∧ ∀ x ∈ vd, x ∈ vd1
  | [], vd, res, _, _ => ⟨vd, res, rfl, fun _ h => h⟩
  | dep :: rest, vd, res, hU, hf => by
    have hrestU : ∀ d ∈ rest, d ∈ U := fun d hd => hU d (List.mem_cons_of_mem _ hd)
    unfold topologicalLoop
    split
    · next hnvd =>
      obtain ⟨vd2, res2, heq, hsub⟩ := hrec dep vd res (hU dep (List.mem_cons_self _ _)) hnvd hf
      rw [heq]
      obtain ⟨vd3, res3, heq3, hsub3⟩ :=
        topologicalLoop_total hrec rest vd2 res2 hrestU ((unseenCount_mono U hsub).trans hf)
      exact ⟨vd3, res3, heq3, fun x hx => hsub3 x (hsub x hx)⟩
    · exact topologicalLoop_total hrec rest vd res hrestU hf

theorem topologicalSortRecursive_total (g : ComponentGraph) (U : List String)
    (hU : ∀ x d, d ∈ g.adj x → d ∈ U) :
    ∀ fuel : Nat, TopTotal U (topologicalSortRecursive g fuel) fuel
  | 0 => by
    intro c vd res hc hcvd hf
    have := unseenCount_lt U vd (c :: vd) c hc hcvd (by simp)
      (fun x hx => List.mem_cons_of_mem _ hx)
    omega
  | fuel + 1 => by
    intro c vd res hc hcvd hf
    have ih := topologicalSortRecursive_total g U hU fuel
    unfold topologicalSortRecursive
    rw [List.insert_of_not_mem hcvd]
    have hlt : unseenCount U (c :: vd) ≤ fuel := by
      have := unseenCount_lt U vd (c :: vd) c hc hcvd (by simp)
        (fun x hx => List.mem_cons_of_mem _ hx)
      omega
    obtain ⟨vd2, res2, heq, hsub⟩ :=
      topologicalLoop_total ih (g.adj c) (c :: vd) res (fun d hd => hU c d hd) hlt
    rw [heq]
    exact ⟨vd2, res2 ++ [c], rfl, fun x hx => hsub x (List.mem_cons_of_mem _ hx)⟩

theorem topologicalOuterLoop_run {g : ComponentGraph} {U : List String} {fuel : Nat}
    (hspec : TopSpec g (topologicalSortRecursive g fuel))
    (hrec : TopTotal U (topologicalSortRecursive g fuel) fuel)
    (hfuel : U.length ≤ fuel) :
    ∀ (comps vd res : List String), (∀ c ∈ comps, c ∈ U) → TopInv g [] vd res →
      ∃ vd1 res1, topologicalOuterLoop g fuel comps vd res = some (vd1, res1) ∧
        TopInv g [] vd1 res1 ∧ (∀ c ∈ comps, c ∈ res1) ∧ (∀ x ∈ res, x ∈ res1) ∧
        ∀ x ∈ res1, x ∈ res ∨ ∃ c ∈ comps, Relation.ReflTransGen g.Edge c x
  | [], vd, res, _, hinv => ⟨vd, res, rfl, hinv, by simp, fun _ h => h, fun _ h => Or.inl h⟩
  | c :: rest, vd, res, hU, hinv => by
    have hrestU : ∀ d ∈ rest, d ∈ U := fun d hd => hU d (List.mem_cons_of_mem _ hd)
    unfold topologicalOuterLoop
    split
    · next hnvd =>
      obtain ⟨vd2, res2, heq, _⟩ :=
        hrec c vd res (hU c (List.mem_cons_self _ _)) hnvd ((unseenCount_le_length U _).trans hfuel)
      obtain ⟨hinv2, hc2, _, hsub2, hreach⟩ := hspec c [] vd res vd2 res2 heq hnvd hinv (by simp)
      rw [heq]
      obtain ⟨vd3, res3, heq3, hinv3, h1, h2, h3⟩ :=
        topologicalOuterLoop_run hspec hrec hfuel rest vd2 res2 hrestU hinv2
      refine ⟨vd3, res3, heq3, hinv3, fun d hd => ?_, fun x hx => h2 x (hsub2 x hx),
        fun x hx => ?_⟩
      · rcases List.mem_cons.1 hd with rfl | hd
        · exact h2 _ hc2
        · exact h1 d hd
      · rcases h3 x hx with hx2 | ⟨d, hd, hdx⟩
        · rcases hreach x hx2 with hx3 | hx3
          · exact Or.inl hx3
          · exact Or.inr ⟨c, List.mem_cons_self _ _, hx3⟩
        · exact Or.inr ⟨d, List.mem_cons_of_mem _ hd, hdx⟩
    · next hvd =>
      have hvd : c ∈ vd := by simpa using hvd
      obtain ⟨vd3, res3, heq3, hinv3, h1, h2, h3⟩ :=
        topologicalOuterLoop_run hspec hrec hfuel rest vd res hrestU hinv
      refine ⟨vd3, res3, heq3, hinv3, fun d hd => ?_, h2, fun x hx => ?_⟩
      · rcases List.mem_cons.1 hd with rfl | hd
        · rcases (hinv.2.1 _).1 hvd with hres | hstk
          · exact h2 _ hres
          · simp at hstk
        · exact h1 d hd
      · rcases h3 x hx with hx2 | ⟨d, hd, hdx⟩
        · exact Or.inl hx2
        · exact Or.inr ⟨d, List.mem_cons_of_mem _ hd, hdx⟩

theorem topInv_nil (g : ComponentGraph) : TopInv g [] [] [] :=
  ⟨List.nodup_nil, by simp, by simp, by simp, fun _ => trivial⟩

/-- The facts about the order that `getTopologicalOrder` returns, for any analyzer state. -/
theorem getTopologicalOrder_run (s : ComponentDependencyAnalyzer) :
    ∃ order, getTopologicalOrder s = some order ∧ order.Nodup ∧
      (∀ c ∈ StdMap.keys s.m_components, c ∈ order) ∧
      (∀ x ∈ order, ∀ m ∈ (buildDependencyGraph s).adj x, m ∈ order) ∧
      (∀ x ∈ order, ∃ c ∈ StdMap.keys s.m_components,
        Relation.ReflTransGen (buildDependencyGraph s).Edge c x) ∧
      (¬ (buildDependencyGraph s).HasCycle → OrderedClosed (buildDependencyGraph s) order) := by
  obtain ⟨vd, res, heq, ⟨hnd, hmem, _, hclosed, hord⟩, h1, _, h3⟩ :=
    topologicalOuterLoop_run (topologicalSortRecursive_spec (buildDependencyGraph s) _)
      (topologicalSortRecursive_total (buildDependencyGraph s) (allNames s)
        (adj_mem_allNames s) (traversalFuel s))
      (allNames_length_le s) (StdMap.keys s.m_components) [] [] (keys_mem_allNames s)
      (topInv_nil _)
  refine ⟨res.reverse, by simp [getTopologicalOrder, heq], List.nodup_reverse.2 hnd,
    fun c hc => List.mem_reverse.2 (h1 c hc), fun x hx m hm => ?_, fun x hx => ?_, hord⟩
  · rw [List.mem_reverse] at hx ⊢
    rcases (hmem m).1 (hclosed x hx m hm) with h | h
    · exact h
    · simp at h
  · rcases h3 x (List.mem_reverse.1 hx) with h | h
    · simp at h
    · exact h

theorem orderedClosed_indexOf_lt {g : ComponentGraph} : ∀ {l : List String},
    OrderedClosed g l → l.Nodup → ∀ a ∈ l, ∀ b, g.Edge a b →
      b ∈ l ∧ l.indexOf a < l.indexOf b
  | [], _, _, a, ha, _, _ => by simp at ha
  | n :: l, h, hnd, a, ha, b, hab => by
    have hn : n ∉ l := (List.nodup_cons.1 hnd).1
    rcases List.mem_cons.1 ha with rfl | ha
    · have hb : b ∈ l := h.1 b hab
      have hne : b ≠ a := fun hba => hn (hba ▸ hb)
      refine ⟨List.mem_cons_of_mem _ hb, ?_⟩
      rw [List.indexOf_cons_self, List.indexOf_cons_ne _ hne.symm]
      omega
    · obtain ⟨hb, hlt⟩ := orderedClosed_indexOf_lt h.2 (List.nodup_cons.1 hnd).2 a ha b hab
      have hne1 : a ≠ n := fun h1 => hn (h1 ▸ ha)
      have hne2 : b ≠ n := fun h1 => hn (h1 ▸ hb)
      refine ⟨List.mem_cons_of_mem _ hb, ?_⟩
      rw [List.indexOf_cons_ne _ hne1.symm, List.indexOf_cons_ne _ hne2.symm]
      omega

theorem hasCyclicDependencies_run (s : ComponentDependencyAnalyzer) (h : Reachable s) :
    (∃ b, hasCyclicDependencies s = some b) ∧
    (hasCyclicDependencies s = some true ↔ (buildDependencyGraph s).HasCycle) ∧
    (∀ a b : String, (buildDependencyGraph s).Edge a b → (buildDependencyGraph s).Edge b a →
      hasCyclicDependencies s = some true) ∧
    (∀ a : String, (buildDependencyGraph s).Edge a a → hasCyclicDependencies s = some true) := by
  obtain ⟨b, hb, h1, h2⟩ :=
    cyclicOuterLoop_run (hasCyclicDependenciesRecursive_spec (buildDependencyGraph s) _)
      (hasCyclicDependenciesRecursive_total (buildDependencyGraph s) (allNames s)
        (adj_mem_allNames s) (traversalFuel s))
      (allNames_length_le s) (StdMap.keys s.m_components) [] (keys_mem_allNames s)
      (cycInv_nil _)
  have hiff : hasCyclicDependencies s = some true ↔ (buildDependencyGraph s).HasCycle := by
    unfold hasCyclicDependencies
    rw [hb]
    constructor
    · intro hbt
      exact h1 (by simpa using hbt)
    · rintro ⟨n, hn⟩
      cases b with
      | true => rfl
      | false =>
        obtain ⟨vd, hnd, hoc, hall, _⟩ := h2 rfl
        obtain ⟨m, hnm, _⟩ := Relation.TransGen.head'_iff.1 hn
        exact absurd hn (orderedClosed_no_cycle hoc hnd n (hall n (edge_source_registered h hnm)))
  refine ⟨⟨b, hb⟩, hiff, fun a b hab hba => hiff.2 ⟨a, ?_⟩, fun a haa => hiff.2 ⟨a, ?_⟩⟩
  · exact Relation.TransGen.head hab (Relation.TransGen.single hba)
  · exact Relation.TransGen.single haa

theorem not_hasCycle_of_false {s : ComponentDependencyAnalyzer} (h : Reachable s)
    (hf : hasCyclicDependencies s = some false) : ¬ (buildDependencyGraph s).HasCycle := by
  intro hc
  rw [(hasCyclicDependencies_run s h).2.1.2 hc] at hf
  simp at hf

theorem strLt_of_not (a b : String) (h1 : ¬ strLt a b) (h2 : a ≠ b) : strLt b a := by
  rw [strLt_iff] at h1 ⊢
  exact lt_of_le_of_ne (not_lt.1 h1) (Ne.symm h2)

theorem StdMap.sorted_keys_assign {β : Type} (key : String) (val : β) :
    ∀ {m : List (String × β)}, List.Sorted strLt (StdMap.keys m) →
      List.Sorted strLt (StdMap.keys (StdMap.assign m key val))
  | [], _ => by simp [StdMap.assign, StdMap.keys]
  | (k0, v0) :: m, h => by
    have htail : List.Sorted strLt (StdMap.keys m) := by
      simp only [StdMap.keys, List.map_cons] at h
      exact List.Sorted.of_cons h
    have hhead : ∀ x ∈ StdMap.keys m, strLt k0 x := by
      simp only [StdMap.keys, List.map_cons] at h
      exact (List.sorted_cons.1 h).1
    unfold StdMap.assign
    split
    · next hlt =>
      simp only [StdMap.keys, List.map_cons] at h ⊢
      refine List.sorted_cons.2 ⟨fun x hx => ?_, h⟩
      rcases List.mem_cons.1 hx with rfl | hx
      · exact hlt
      · exact strLt_isTrans.trans _ _ _ hlt (hhead x hx)
    · split
      · next heq => subst heq; exact h
      · next hnlt hne =>
        have ih := StdMap.sorted_keys_assign key val htail
        simp only [StdMap.keys, List.map_cons] at ih ⊢
        refine List.sorted_cons.2 ⟨fun x hx => ?_, ih⟩
        rcases (@StdMap.mem_keys_assign _ key val x m).1 hx with rfl | hx
        · exact strLt_of_not _ _ hnlt hne
        · exact hhead x hx

theorem keysSorted_foldl_add : ∀ (mbs : List MonoBehaviourInfo) (s : ComponentDependencyAnalyzer),
    KeysSorted s → KeysSorted (mbs.foldl addMonoBehaviour s)
  | [], _, h => h
  | mb :: mbs, s, h =>
    keysSorted_foldl_add mbs (addMonoBehaviour s mb) (StdMap.sorted_keys_assign _ _ h)

theorem reachable_keysSorted {s : ComponentDependencyAnalyzer} (h : Reachable s) :
    KeysSorted s := by
  induction h with
  | init => simp [KeysSorted, ComponentDependencyAnalyzer.init, StdMap.keys]
  | add s mb _ ih => exact StdMap.sorted_keys_assign _ _ ih
  | analyze mbs =>
    exact keysSorted_foldl_add mbs ComponentDependencyAnalyzer.init
      (by simp [KeysSorted, ComponentDependencyAnalyzer.init, StdMap.keys])

theorem nodup_of_sorted_strLt {l : List String} (h : List.Sorted strLt l) : l.Nodup :=
  @List.Sorted.nodup _ strLt strLt_isIrrefl _ h

theorem mem_order_registered_or_target {s : ComponentDependencyAnalyzer} {x : String}
    (h : ∃ c ∈ StdMap.keys s.m_components,
      Relation.ReflTransGen (buildDependencyGraph s).Edge c x) :
    x ∈ StdMap.keys s.m_components ∨ ∃ dep ∈ s.m_dependencies, dep.target_component = x := by
  obtain ⟨c, hc, hcx⟩ := h
  rcases Relation.ReflTransGen.cases_tail hcx with rfl | ⟨y, _, hyx⟩
  · exact Or.inl hc
  · obtain ⟨dep, hdep, _, ht⟩ := mem_adj.1 hyx
    exact Or.inr ⟨dep, hdep, ht⟩

theorem dependencies_foldl_add : ∀ (mbs : List MonoBehaviourInfo)
    (s : ComponentDependencyAnalyzer),
    (mbs.foldl addMonoBehaviour s).m_dependencies =
      s.m_dependencies ++ mbs.flatMap extractDependenciesFromComponent
  | [], s => by simp
  | mb :: mbs, s => by
    rw [List.foldl_cons, dependencies_foldl_add mbs (addMonoBehaviour s mb)]
    simp [addMonoBehaviour, List.flatMap_cons]

theorem find_components_foldl_add (n : String) : ∀ (mbs : List MonoBehaviourInfo)
    (s : ComponentDependencyAnalyzer),
    StdMap.find (mbs.foldl addMonoBehaviour s).m_components n =
      ((lastNamed mbs n).orElse fun _ => StdMap.find s.m_components n)
  | [], s => by simp [lastNamed]
  | mb :: mbs, s => by
    rw [List.foldl_cons, find_components_foldl_add n mbs (addMonoBehaviour s mb)]
    simp only [addMonoBehaviour, StdMap.find_assign, lastNamed, List.filter_cons]
    by_cases h : mb.class_name = n
    · subst h
      simp only [decide_True, if_true]
      cases hl : List.filter (fun mb1 => decide (mb1.class_name = mb.class_name)) mbs with
      | nil => simp
      | cons a l => simp [List.getLast?_eq_getLast _ (List.cons_ne_nil a l)]
    · have h2 : ¬ n = mb.class_name := fun h3 => h h3.symm
      simp [h, h2]

theorem analyzeProject_components (mbs : List MonoBehaviourInfo) :
    (analyzeProject mbs).m_components =
      (mbs.foldl addMonoBehaviour ComponentDependencyAnalyzer.init).m_components := rfl

theorem analyzeProject_dependencies (mbs : List MonoBehaviourInfo) :
    (analyzeProject mbs).m_dependencies =
      mbs.flatMap extractDependenciesFromComponent ++
        crossReferenceEdges (analyzeProject mbs).m_components := by
  simp [analyzeProject, analyzeCrossComponentReferences, dependencies_foldl_add,
    crossReferenceEdges, ComponentDependencyAnalyzer.init]

theorem find_analyzeProject (mbs : List MonoBehaviourInfo) (n : String) :
    StdMap.find (analyzeProject mbs).m_components n = lastNamed mbs n := by
  rw [analyzeProject_components, find_components_foldl_add]
  cases lastNamed mbs n <;> simp [ComponentDependencyAnalyzer.init, StdMap.find]

theorem crossReferenceEdge_kind {m : List (String × MonoBehaviourInfo)} {mb : MonoBehaviourInfo}
    {field : String} {dep : ComponentDependency} (h : crossReferenceEdge m mb field = some dep) :
    dep.dependency_type = "Reference" := by
  unfold crossReferenceEdge at h
  split at h
  · simp at h
  · simp only at h
    split at h
    · simp only [Option.some.injEq] at h
      rw [← h]
    · simp at h

theorem mem_crossReferenceEdges_kind {m : List (String × MonoBehaviourInfo)}
    {dep : ComponentDependency} (h : dep ∈ crossReferenceEdges m) :
    dep.dependency_type = "Reference" := by
  simp only [crossReferenceEdges, List.mem_flatMap, List.mem_filterMap] at h
  obtain ⟨_, _, _, _, hf⟩ := h
  exact crossReferenceEdge_kind hf

theorem extract_eq (mb : MonoBehaviourInfo) :
    extractDependenciesFromComponent mb =
      mb.component_dependencies.map (getComponentEdge mb.class_name) ++
      mb.attributes.filterMap (fun attr =>
        (requireComponentTarget attr).map (fun target =>
          { source_component := mb.class_name
            target_component := target
            dependency_type := "RequireComponent"
            method_context := "Declaration"
            line_number := mb.start_line })) := rfl

theorem filter_getComponent_extract (mb : MonoBehaviourInfo) (n : String) :
    ((extractDependenciesFromComponent mb).filter
        (fun dep => dep.source_component = n ∧ dep.dependency_type = "GetComponent")).map
      (fun dep => dep.target_component) =
      if mb.class_name = n then mb.component_dependencies else [] := by
  rw [extract_eq, List.filter_append, List.map_append]
  have h2 : (mb.attributes.filterMap (fun attr =>
        (requireComponentTarget attr).map (fun target =>
          ({ source_component := mb.class_name
             target_component := target
             dependency_type := "RequireComponent"
             method_context := "Declaration"
             line_number := mb.start_line } : ComponentDependency)))).filter
        (fun dep => dep.source_component = n ∧ dep.dependency_type = "GetComponent") = [] := by
    rw [List.filter_eq_nil_iff]
    intro dep hdep
    simp only [List.mem_filterMap, Option.map_eq_some'] at hdep
    obtain ⟨_, _, _, _, rfl⟩ := hdep
    simp
  rw [h2]
  by_cases h : mb.class_name = n
  · simp [h, List.filter_map, getComponentEdge, Function.comp_def]
  · simp [h, List.filter_map, getComponentEdge, Function.comp_def]

theorem filter_getComponent_flatMap (n : String) : ∀ mbs : List MonoBehaviourInfo,
    ((mbs.flatMap extractDependenciesFromComponent).filter
        (fun dep => dep.source_component = n ∧ dep.dependency_type = "GetComponent")).map
      (fun dep => dep.target_component) =
      (mbs.filter (fun mb => mb.class_name = n)).flatMap (fun mb => mb.component_dependencies)
  | [] => by simp
  | mb :: mbs => by
    rw [List.flatMap_cons, List.filter_append, List.map_append, filter_getComponent_extract,
      filter_getComponent_flatMap n mbs, List.filter_cons]
    by_cases h : mb.class_name = n <;> simp [h, List.flatMap_cons]

theorem crossReferenceEdge_eq_some {m : List (String × MonoBehaviourInfo)}
    {mb : MonoBehaviourInfo} {field : String} {dep : ComponentDependency} :
    crossReferenceEdge m mb field = some dep ↔
      ∃ t, fieldTypeOf field = some t ∧ t ∈ StdMap.keys m ∧
        dep = referenceEdge mb.class_name t := by
  unfold crossReferenceEdge fieldTypeOf
  cases strFind field " : " with
  | none => simp
  | some pos =>
    simp only [Option.map_some', Option.some.injEq, StdMap.contains, StdMap.mem_keys_iff_find,
      referenceEdge]
    constructor
    · intro h
      split at h
      · next hc => exact ⟨_, rfl, hc, (Option.some.inj h).symm⟩
      · simp at h
    · rintro ⟨t, rfl, hc, rfl⟩
      simp [hc]

theorem mem_crossReferenceEdges {m : List (String × MonoBehaviourInfo)}
    {dep : ComponentDependency} :
    dep ∈ crossReferenceEdges m ↔
      ∃ pair ∈ m, ∃ field ∈ pair.2.serialized_fields, ∃ t, fieldTypeOf field = some t ∧
        t ∈ StdMap.keys m ∧ dep = referenceEdge pair.2.class_name t := by
  simp only [crossReferenceEdges, List.mem_flatMap, List.mem_filterMap,
    crossReferenceEdge_eq_some]

theorem StdMap.mem_of_find {β : Type} {k : String} {v : β} : ∀ {m : List (String × β)},
    StdMap.find m k = some v → (k, v) ∈ m
  | [], h => by simp [StdMap.find] at h
  | (k0, v0) :: m, h => by
    simp only [StdMap.find] at h
    split at h
    · next hk =>
      subst hk
      simp only [Option.some.injEq] at h
      subst h
      exact List.mem_cons_self _ _
    · exact List.mem_cons_of_mem _ (StdMap.mem_of_find h)

theorem StdMap.find_of_mem {β : Type} {k : String} {v : β} : ∀ {m : List (String × β)},
    (StdMap.keys m).Nodup → (k, v) ∈ m → StdMap.find m k = some v
  | [], _, h => by simp at h
  | (k0, v0) :: m, hnd, h => by
    simp only [StdMap.keys, List.map_cons, List.nodup_cons] at hnd
    simp only [StdMap.find]
    rcases List.mem_cons.1 h with h1 | h1
    · simp only [Prod.mk.injEq] at h1
      simp [h1.1, h1.2]
    · have hne : k ≠ k0 := by
        intro hk
        apply hnd.1
        rw [← hk]
        exact List.mem_map_of_mem Prod.fst h1
      simp only [hne, if_false]
      exact StdMap.find_of_mem hnd.2 h1

theorem lastNamed_some {mbs : List MonoBehaviourInfo} {n : String} {mb : MonoBehaviourInfo}
    (h : lastNamed mbs n = some mb) : mb ∈ mbs ∧ mb.class_name = n := by
  have := List.mem_of_getLast?_eq_some h
  simpa using this

theorem lastNamed_isSome {mbs : List MonoBehaviourInfo} {n : String} :
    (lastNamed mbs n).isSome ↔ ∃ mb ∈ mbs, mb.class_name = n := by
  constructor
  · intro h
    obtain ⟨mb, hmb⟩ := Option.isSome_iff_exists.1 h
    exact ⟨mb, lastNamed_some hmb⟩
  · rintro ⟨mb, hmb, hn⟩
    unfold lastNamed
    cases hl : mbs.filter (fun mb => mb.class_name = n) with
    | nil =>
      have : mb ∈ mbs.filter (fun mb => mb.class_name = n) := by simp [hmb, hn]
      rw [hl] at this
      simp at this
    | cons a l => simp [List.getLast?_eq_getLast _ (List.cons_ne_nil a l)]

theorem mem_keys_analyzeProject {mbs : List MonoBehaviourInfo} {n : String} :
    n ∈ StdMap.keys (analyzeProject mbs).m_components ↔ ∃ mb ∈ mbs, mb.class_name = n := by
  rw [StdMap.mem_keys_iff_find, find_analyzeProject, lastNamed_isSome]

theorem mem_extract_target {mb : MonoBehaviourInfo} {b : String} :
    (∃ dep ∈ extractDependenciesFromComponent mb, dep.target_component = b) ↔
      b ∈ mb.component_dependencies ∨ b ∈ extractRequireComponentAttributes mb.attributes := by
  simp only [extractDependenciesFromComponent, List.mem_append, List.mem_map,
    List.mem_filterMap, Option.map_eq_some', extractRequireComponentAttributes]
  constructor
  · rintro ⟨dep, ⟨d, hd, rfl⟩ | ⟨attr, hattr, t, ht, rfl⟩, rfl⟩
    · exact Or.inl hd
    · exact Or.inr ⟨attr, hattr, ht⟩
  · rintro (hd | ⟨attr, hattr, ht⟩)
    · exact ⟨_, Or.inl ⟨b, hd, rfl⟩, rfl⟩
    · exact ⟨_, Or.inr ⟨attr, hattr, b, ht, rfl⟩, rfl⟩

theorem mem_reference_edges {mbs : List MonoBehaviourInfo} {n b : String} :
    referenceEdge n b ∈ crossReferenceEdges (analyzeProject mbs).m_components ↔
      ∃ mb, lastNamed mbs n = some mb ∧ ∃ field ∈ mb.serialized_fields,
        fieldTypeOf field = some b ∧ ∃ mb2 ∈ mbs, mb2.class_name = b := by
  have hinv := reachable_invariants (Reachable.analyze mbs)
  have hnd := nodup_of_sorted_strLt (reachable_keysSorted (Reachable.analyze mbs))
  rw [mem_crossReferenceEdges]
  constructor
  · rintro ⟨pair, hp, field, hf, t, ht, htk, heq⟩
    simp only [referenceEdge, ComponentDependency.mk.injEq, and_true] at heq
    obtain ⟨hn, rfl⟩ := heq
    have hfind : StdMap.find (analyzeProject mbs).m_components n = some pair.2 := by
      apply StdMap.find_of_mem hnd
      rw [hn, ← hinv.2 pair hp]
      exact hp
    rw [find_analyzeProject] at hfind
    exact ⟨pair.2, hfind, field, hf, ht, mem_keys_analyzeProject.1 htk⟩
  · rintro ⟨mb, hmb, field, hf, ht, hreg⟩
    have hfind : StdMap.find (analyzeProject mbs).m_components n = some mb := by
      rw [find_analyzeProject, hmb]
    refine ⟨(n, mb), StdMap.mem_of_find hfind, field, hf, b, ht,
      mem_keys_analyzeProject.2 hreg, ?_⟩
    rw [(lastNamed_some hmb).2]

theorem stripLit_append (lit rest : List Char) : stripLit lit (lit ++ rest) = some rest := by
  induction lit with
  | nil => rfl
  | cons c lit ih => simp [stripLit, ih]

theorem findChars_blank_colon (name rest : List Char) (h : ' ' ∉ name) :
    findChars " : ".data (name ++ " : ".data ++ rest) = some name.length := by
  induction name with
  | nil =>
    show findChars [' ', ':', ' '] ([' ', ':', ' '] ++ rest) = some 0
    simp [findChars, stripLit]
  | cons c name ih =>
    have hc : ' ' ≠ c := fun hc => h (hc ▸ List.mem_cons_self _ _)
    have ih2 := ih (fun hn => h (List.mem_cons_of_mem _ hn))
    show findChars [' ', ':', ' '] (c :: (name ++ [' ', ':', ' '] ++ rest)) = _
    have ih3 : findChars [' ', ':', ' '] (name ++ [' ', ':', ' '] ++ rest) = some name.length :=
      ih2
    simp only [List.append_assoc, List.cons_append, List.nil_append] at ih3
    simp [findChars, stripLit, hc, ih3]

theorem fieldTypeOf_serialized (name type : String) (h : ' ' ∉ name.data) :
    fieldTypeOf (name ++ " : " ++ type) = some type := by
  unfold fieldTypeOf strFind substr
  have hdata : (name ++ " : " ++ type).data = name.data ++ " : ".data ++ type.data := by
    simp [String.data_append]
  rw [hdata, findChars_blank_colon name.data type.data h]
  simp only [Option.map_some', Option.some.injEq]
  have : List.drop (name.data.length + 3) (name.data ++ " : ".data ++ type.data) = type.data := by
    have h3 : (name.data ++ " : ".data).length = name.data.length + 3 := by
      simp [List.length_append]
    rw [← h3, List.drop_left]
  rw [this]

theorem mem_extractSerializedFields {fields : List FieldInfo} {field : String} :
    field ∈ extractSerializedFields fields ↔
      ∃ fld ∈ fields,
        (fld.access_modifier = "public" ∨
          hasUnityAttribute fld.attributes "SerializeField" = true) ∧
        field = fld.name ++ " : " ++ fld.type := by
  simp only [extractSerializedFields, List.mem_map, List.mem_filter, Bool.or_eq_true,
    decide_eq_true_eq]
  constructor
  · rintro ⟨fld, ⟨h1, h2⟩, rfl⟩
    exact ⟨fld, h1, h2, rfl⟩
  · rintro ⟨fld, h1, h2, rfl⟩
    exact ⟨fld, ⟨h1, h2⟩, rfl⟩

theorem classifyMethods_class_name : ∀ (methods : List MethodInfo) (mb : MonoBehaviourInfo),
    (classifyMethods mb methods).class_name = mb.class_name
  | [], _ => rfl
  | m :: methods, mb => by
    unfold classifyMethods
    split <;> rw [classifyMethods_class_name methods]

theorem record_class_name (input : ComponentInput) :
    input.record.class_name = input.class_info.name := by
  simp [ComponentInput.record, analyzeMonoBehaviour, classifyMethods_class_name]

theorem record_serialized_fields (input : ComponentInput) :
    input.record.serialized_fields = extractSerializedFields input.fields := rfl

theorem lastNamed_map_record (inputs : List ComponentInput) (n : String) :
    lastNamed (inputs.map ComponentInput.record) n =
      (lastInputNamed inputs n).map ComponentInput.record := by
  unfold lastNamed lastInputNamed
  rw [List.filter_map, List.getLast?_map]
  congr 2
  apply List.filter_congr
  intro x _
  simp [record_class_name]

theorem mem_extract_kind {mb : MonoBehaviourInfo} {dep : ComponentDependency}
    (h : dep ∈ extractDependenciesFromComponent mb) :
    dep.dependency_type = "GetComponent" ∨ dep.dependency_type = "RequireComponent" := by
  simp only [extractDependenciesFromComponent, List.mem_append, List.mem_map,
    List.mem_filterMap, Option.map_eq_some'] at h
  rcases h with ⟨_, _, rfl⟩ | ⟨_, _, _, _, rfl⟩
  · exact Or.inl rfl
  · exact Or.inr rfl

theorem reference_edge_mem_iff {mbs : List MonoBehaviourInfo} {a t : String} :
    (∃ dep ∈ (analyzeProject mbs).m_dependencies, dep.source_component = a ∧
      dep.target_component = t ∧ dep.dependency_type = "Reference") ↔
      referenceEdge a t ∈ crossReferenceEdges (analyzeProject mbs).m_components := by
  rw [analyzeProject_dependencies]
  constructor
  · rintro ⟨dep, hdep, hs, ht, hk⟩
    rcases List.mem_append.1 hdep with hdep | hdep
    · obtain ⟨mb, _, hdep⟩ := List.mem_flatMap.1 hdep
      rcases mem_extract_kind hdep with h | h <;> rw [h] at hk <;> exact absurd hk (by decide)
    · obtain ⟨pair, hp, field, hf, t1, _, _, heq⟩ := mem_crossReferenceEdges.1 hdep
      have : dep = referenceEdge a t := by
        rw [heq] at hs ht ⊢
        simp only [referenceEdge] at hs ht ⊢
        rw [hs, ht]
      exact this ▸ hdep
  · intro h
    exact ⟨_, List.mem_append_right _ h, rfl, rfl, rfl⟩

theorem record_component_dependencies (input : ComponentInput) :
    input.record.component_dependencies =
      extractGetComponentCalls input.source_code ++
        extractRequireComponentAttributes input.class_info.attributes := by
  simp [ComponentInput.record, analyzeMonoBehaviour, extractComponentDependencies]

theorem classifyMethods_attributes : ∀ (methods : List MethodInfo) (mb : MonoBehaviourInfo),
    (classifyMethods mb methods).attributes = mb.attributes
  | [], _ => rfl
  | m :: methods, mb => by
    unfold classifyMethods
    split <;> rw [classifyMethods_attributes methods]

theorem record_attributes (input : ComponentInput) :
    input.record.attributes = input.class_info.attributes := by
  simp [ComponentInput.record, analyzeMonoBehaviour, classifyMethods_attributes]

theorem sorted_extractGetComponentCalls (source_code : String) :
    List.Sorted strLt (extractGetComponentCalls source_code) :=
  sorted_stdUnique (sorted_stdSort _)

theorem StdMap.find_eq_none_of_not_mem {β : Type} {k : String} : ∀ {m : List (String × β)},
    k ∉ StdMap.keys m → StdMap.find m k = none := by
  intro m h
  cases hf : StdMap.find m k with
  | none => rfl
  | some v => exact absurd (StdMap.mem_keys_iff_find.2 (by simp [hf])) h

theorem StdMap.ext {β : Type} : ∀ {m1 m2 : List (String × β)},
    List.Sorted strLt (StdMap.keys m1) → List.Sorted strLt (StdMap.keys m2) →
    (∀ k, StdMap.find m1 k = StdMap.find m2 k) → m1 = m2
  | [], [], _, _, _ => rfl
  | [], (k2, v2) :: m2, _, _, h => by
    have := h k2
    simp [StdMap.find] at this
  | (k1, v1) :: m1, [], _, _, h => by
    have := h k1
    simp [StdMap.find] at this
  | (k1, v1) :: m1, (k2, v2) :: m2, hs1, hs2, h => by
    simp only [StdMap.keys, List.map_cons] at hs1 hs2
    have hs1c := List.sorted_cons.1 hs1
    have hs2c := List.sorted_cons.1 hs2
    have hk1 : k1 ∉ StdMap.keys m1 := fun hm => strLt_isIrrefl.irrefl _ (hs1c.1 k1 hm)
    have hk2 : k2 ∉ StdMap.keys m2 := fun hm => strLt_isIrrefl.irrefl _ (hs2c.1 k2 hm)
    have hkeq : k1 = k2 := by
      by_contra hne
      have h1 := h k1
      have h2 := h k2
      simp only [StdMap.find, if_true, hne, if_false] at h1
      simp only [StdMap.find, if_true, Ne.symm hne, if_false] at h2
      have hm2 : k1 ∈ StdMap.keys m2 := StdMap.mem_keys_iff_find.2 (by simp [← h1])
      have hm1 : k2 ∈ StdMap.keys m1 := StdMap.mem_keys_iff_find.2 (by simp [h2])
      exact strLt_isIrrefl.irrefl _ (strLt_isTrans.trans _ _ _ (hs1c.1 k2 hm1) (hs2c.1 k1 hm2))
    subst hkeq
    have hv : v1 = v2 := by
      have := h k1
      simpa [StdMap.find] using this
    subst hv
    have htail : m1 = m2 := by
      apply StdMap.ext hs1c.2 hs2c.2
      intro k
      by_cases hk : k = k1
      · subst hk
        rw [StdMap.find_eq_none_of_not_mem hk1, StdMap.find_eq_none_of_not_mem hk2]
      · have := h k
        simpa [StdMap.find, hk] using this
    rw [htail]

theorem length_le_one_of_nodup_const {l : List String} {n : String} (hnd : l.Nodup)
    (h : ∀ x ∈ l, x = n) : l.length ≤ 1 := by
  match l, hnd, h with
  | [], _, _ => simp
  | [_], _, _ => simp
  | a :: b :: t, hnd, h =>
    have ha := h a (by simp)
    have hb := h b (by simp)
    rw [List.nodup_cons] at hnd
    exact absurd (by rw [ha, hb]; simp) hnd.1

theorem perm_eq_of_length_le_one {α : Type} : ∀ {l1 l2 : List α}, l1.Perm l2 →
    l1.length ≤ 1 → l1 = l2
  | [], _, hp, _ => hp.nil_eq
  | [_], _, hp, _ => (List.perm_singleton.1 hp.symm).symm
  | _ :: _ :: _, _, _, h => by simp at h

theorem lastNamed_perm {mbs mbs2 : List MonoBehaviourInfo} (hperm : mbs.Perm mbs2)
    (hdistinct : (mbs.map (fun mb => mb.class_name)).Nodup) (n : String) :
    lastNamed mbs n = lastNamed mbs2 n := by
  unfold lastNamed
  have hp : (mbs.filter (fun mb => mb.class_name = n)).Perm
      (mbs2.filter (fun mb => mb.class_name = n)) := hperm.filter _
  have hlen : (mbs.filter (fun mb => mb.class_name = n)).length ≤ 1 := by
    have hsub : ((mbs.filter (fun mb => mb.class_name = n)).map (fun mb => mb.class_name)).Nodup :=
      hdistinct.sublist ((List.filter_sublist mbs).map _)
    have := @length_le_one_of_nodup_const _ n hsub (by
      intro x hx
      obtain ⟨mb, hmb, rfl⟩ := List.mem_map.1 hx
      simpa using (List.mem_filter.1 hmb).2)
    simpa using this
  rw [perm_eq_of_length_le_one hp hlen]

theorem components_perm {mbs mbs2 : List MonoBehaviourInfo} (hperm : mbs.Perm mbs2)
    (hdistinct : (mbs.map (fun mb => mb.class_name)).Nodup) :
    (analyzeProject mbs).m_components = (analyzeProject mbs2).m_components := by
  apply StdMap.ext (reachable_keysSorted (Reachable.analyze mbs))
    (reachable_keysSorted (Reachable.analyze mbs2))
  intro k
  rw [find_analyzeProject, find_analyzeProject, lastNamed_perm hperm hdistinct]

theorem dependencies_perm {mbs mbs2 : List MonoBehaviourInfo} (hperm : mbs.Perm mbs2)
    (hdistinct : (mbs.map (fun mb => mb.class_name)).Nodup) :
    (analyzeProject mbs).m_dependencies.Perm (analyzeProject mbs2).m_dependencies := by
  rw [analyzeProject_dependencies, analyzeProject_dependencies,
    components_perm hperm hdistinct]
  exact List.Perm.append_right _ (hperm.flatMap_right _)

theorem keys_sortUniqueValues (m : List (String × List String)) :
    StdMap.keys (sortUniqueValues m) = StdMap.keys m := by
  simp [StdMap.keys, sortUniqueValues, Function.comp_def]

theorem sorted_keys_foldl_addEdge : ∀ (edges : List ComponentDependency) (g : ComponentGraph),
    List.Sorted strLt (StdMap.keys g.dependencies) →
    List.Sorted strLt (StdMap.keys g.dependents) →
    List.Sorted strLt (StdMap.keys (edges.foldl addEdge g).dependencies) ∧
      List.Sorted strLt (StdMap.keys (edges.foldl addEdge g).dependents)
  | [], _, h1, h2 => ⟨h1, h2⟩
  | e :: edges, g, h1, h2 =>
    sorted_keys_foldl_addEdge edges (addEdge g e) (StdMap.sorted_keys_assign _ _ h1)
      (StdMap.sorted_keys_assign _ _ h2)

theorem sorted_keys_graph (s : ComponentDependencyAnalyzer) :
    List.Sorted strLt (StdMap.keys (buildDependencyGraph s).dependencies) ∧
      List.Sorted strLt (StdMap.keys (buildDependencyGraph s).dependents) := by
  have h := sorted_keys_foldl_addEdge s.m_dependencies
    { dependencies := [], dependents := [], edges := [] }
    (by simp [StdMap.keys]) (by simp [StdMap.keys])
  simp only [buildDependencyGraph, keys_sortUniqueValues]
  exact h

theorem targetsOf_perm {e1 e2 : List ComponentDependency} (h : e1.Perm e2) (k : String) :
    (targetsOf e1 k).Perm (targetsOf e2 k) := (h.filter _).map _

theorem sourcesOf_perm {e1 e2 : List ComponentDependency} (h : e1.Perm e2) (k : String) :
    (sourcesOf e1 k).Perm (sourcesOf e2 k) := (h.filter _).map _

theorem graph_maps_perm {s1 s2 : ComponentDependencyAnalyzer}
    (h : s1.m_dependencies.Perm s2.m_dependencies) :
    (buildDependencyGraph s1).dependencies = (buildDependencyGraph s2).dependencies ∧
      (buildDependencyGraph s1).dependents = (buildDependencyGraph s2).dependents := by
  constructor
  · apply StdMap.ext (sorted_keys_graph s1).1 (sorted_keys_graph s2).1
    intro k
    rw [find_dependencies, find_dependencies, stdSort_congr (targetsOf_perm h k)]
    by_cases hn : targetsOf s1.m_dependencies k = []
    · have hn2 : targetsOf s2.m_dependencies k = [] := by
        have := targetsOf_perm h k
        rw [hn] at this
        exact this.nil_eq.symm
      simp [hn, hn2]
    · have hn2 : targetsOf s2.m_dependencies k ≠ [] := by
        intro h2
        have := targetsOf_perm h k
        rw [h2] at this
        exact hn this.eq_nil
      simp [hn, hn2]
  · apply StdMap.ext (sorted_keys_graph s1).2 (sorted_keys_graph s2).2
    intro k
    rw [find_dependents, find_dependents, stdSort_congr (sourcesOf_perm h k)]
    by_cases hn : sourcesOf s1.m_dependencies k = []
    · have hn2 : sourcesOf s2.m_dependencies k = [] := by
        have := sourcesOf_perm h k
        rw [hn] at this
        exact this.nil_eq.symm
      simp [hn, hn2]
    · have hn2 : sourcesOf s2.m_dependencies k ≠ [] := by
        intro h2
        have := sourcesOf_perm h k
        rw [h2] at this
        exact hn this.eq_nil
      simp [hn, hn2]

theorem hasCyclicDependenciesRecursive_congr {g1 g2 : ComponentGraph}
    (h : g1.dependencies = g2.dependencies) :
    ∀ fuel : Nat, hasCyclicDependenciesRecursive g1 fuel = hasCyclicDependenciesRecursive g2 fuel
  | 0 => by
    funext c vg vd
    simp [hasCyclicDependenciesRecursive]
  | fuel + 1 => by
    funext c vg vd
    simp only [hasCyclicDependenciesRecursive, ComponentGraph.adj, h,
      hasCyclicDependenciesRecursive_congr h fuel]

theorem cyclicOuterLoop_congr {g1 g2 : ComponentGraph} (h : g1.dependencies = g2.dependencies)
    (fuel : Nat) : ∀ (comps vg vd : List String),
    cyclicOuterLoop g1 fuel comps vg vd = cyclicOuterLoop g2 fuel comps vg vd
  | [], _, _ => rfl
  | c :: rest, vg, vd => by
    simp only [cyclicOuterLoop, hasCyclicDependenciesRecursive_congr h fuel,
      cyclicOuterLoop_congr h fuel rest]

theorem topologicalSortRecursive_congr {g1 g2 : ComponentGraph}
    (h : g1.dependencies = g2.dependencies) :
    ∀ fuel : Nat, topologicalSortRecursive g1 fuel = topologicalSortRecursive g2 fuel
  | 0 => by
    funext c vd res
    simp [topologicalSortRecursive]
  | fuel + 1 => by
    funext c vd res
    simp only [topologicalSortRecursive, ComponentGraph.adj, h,
      topologicalSortRecursive_congr h fuel]

theorem topologicalOuterLoop_congr {g1 g2 : ComponentGraph}
    (h : g1.dependencies = g2.dependencies) (fuel : Nat) : ∀ (comps vd res : List String),
    topologicalOuterLoop g1 fuel comps vd res = topologicalOuterLoop g2 fuel comps vd res
  | [], _, _ => rfl
  | c :: rest, vd, res => by
    simp only [topologicalOuterLoop, topologicalSortRecursive_congr h fuel,
      topologicalOuterLoop_congr h fuel rest]

theorem scenario_dependencies (a b : String) :
    (analyzeProject [simpleComponent a [b], simpleComponent b []]).m_dependencies =
      [getComponentEdge a b] := by
  rw [analyzeProject_dependencies]
  have hcross : crossReferenceEdges
      (analyzeProject [simpleComponent a [b], simpleComponent b []]).m_components = [] := by
    unfold crossReferenceEdges
    rw [List.flatMap_eq_nil_iff]
    intro pair hp
    have hsf : pair.2.serialized_fields = [] := by
      simp only [analyzeProject, analyzeCrossComponentReferences, List.foldl_cons,
        List.foldl_nil, addMonoBehaviour, ComponentDependencyAnalyzer.init] at hp
      rcases StdMap.mem_assign hp with rfl | hp
      · rfl
      · rcases StdMap.mem_assign hp with rfl | hp
        · rfl
        · simp at hp
    rw [hsf]
    rfl
  rw [hcross]
  simp [extract_eq, simpleComponent, getComponentEdge]

theorem scenario_edge (a b x y : String) :
    (buildDependencyGraph (analyzeProject [simpleComponent a [b], simpleComponent b []])).Edge
      x y ↔ x = a ∧ y = b := by
  unfold ComponentGraph.Edge
  rw [mem_adj, scenario_dependencies]
  simp only [List.mem_singleton, exists_eq_left, getComponentEdge]
  constructor
  · rintro ⟨h1, h2⟩; exact ⟨h1.symm, h2.symm⟩
  · rintro ⟨h1, h2⟩; exact ⟨h1.symm, h2.symm⟩

theorem scenario_reach (a b : String) {x y : String}
    (h : Relation.ReflTransGen
      (buildDependencyGraph (analyzeProject [simpleComponent a [b], simpleComponent b []])).Edge
      x y) : y = x ∨ y = b := by
  rcases Relation.ReflTransGen.cases_tail h with h1 | ⟨z, _, hz⟩
  · exact Or.inl h1
  · exact Or.inr ((scenario_edge a b z y).1 hz).2

theorem scenario_acyclic (a b : String) (hab : a ≠ b) :
    ¬ (buildDependencyGraph
        (analyzeProject [simpleComponent a [b], simpleComponent b []])).HasCycle := by
  rintro ⟨n, hn⟩
  obtain ⟨m, hnm, hmn⟩ := Relation.TransGen.head'_iff.1 hn
  obtain ⟨h1, h2⟩ := (scenario_edge a b n m).1 hnm
  rcases Relation.ReflTransGen.cases_head hmn with h | ⟨c, hc, _⟩
  · exact hab (h1.symm.trans (h.symm.trans h2))
  · exact hab (((scenario_edge a b m c).1 hc).1.symm.trans h2)

theorem scenario_order (a b : String) (hab : a ≠ b) :
    getTopologicalOrder (analyzeProject [simpleComponent a [b], simpleComponent b []]) =
      some [a, b] := by
  obtain ⟨order, heq, hnd, hkeys, _, hreach, hord⟩ :=
    getTopologicalOrder_run (analyzeProject [simpleComponent a [b], simpleComponent b []])
  have hk : ∀ c, c ∈ StdMap.keys
      (analyzeProject [simpleComponent a [b], simpleComponent b []]).m_components ↔
      c = a ∨ c = b := by
    intro c
    rw [mem_keys_analyzeProject]
    simp [simpleComponent, eq_comm]
  have ha : a ∈ order := hkeys a ((hk a).2 (Or.inl rfl))
  have hmem : ∀ x ∈ order, x = a ∨ x = b := by
    intro x hx
    obtain ⟨c, hc, hcx⟩ := hreach x hx
    rcases scenario_reach a b hcx with h | h
    · exact h ▸ (hk c).1 hc
    · exact Or.inr h
  obtain ⟨hb, hlt⟩ := orderedClosed_indexOf_lt (hord (scenario_acyclic a b hab)) hnd a ha b
    ((scenario_edge a b a b).2 ⟨rfl, rfl⟩)
  have hperm : order.Perm [a, b] := by
    rw [List.perm_ext_iff_of_nodup hnd (by simp [hab])]
    intro x
    constructor
    · intro hx; simpa using hmem x hx
    · intro hx
      rcases (by simpa using hx : x = a ∨ x = b) with rfl | rfl
      · exact ha
      · exact hb
  rw [heq]
  have hlen := hperm.length_eq
  match order, hlen, hperm, hlt with
  | [x, y], _, hperm, hlt =>
    have hx := hmem x (by simp)
    have hy := hmem y (by simp)
    rcases hx with rfl | rfl
    · rcases hy with rfl | rfl
      · exact absurd (hperm.nodup_iff.2 (by simp [hab])) (by simp)
      · rfl
    · rcases hy with rfl | rfl
      · simp [List.indexOf_cons_ne _ hab.symm] at hlt
      · exact absurd (hperm.nodup_iff.2 (by simp [hab])) (by simp)

theorem methods_foldl_step (mb : MonoBehaviourInfo) : ∀ (l : List String) (flow : LifecycleFlow),
    (l.foldl (lifecycleFlowStep mb) flow).methods =
      flow.methods ++ l.map (lifecycleMethodInfo mb)
  | [], flow => by simp
  | n :: l, flow => by
    rw [List.foldl_cons, methods_foldl_step mb l]
    simp [lifecycleFlowStep]

theorem componentLifecycleFlow_methods (mb : MonoBehaviourInfo) :
    (componentLifecycleFlow mb).methods =
      stdSortBy (fun a b => decide (a.execution_order < b.execution_order))
        (mb.unity_methods.map (lifecycleMethodInfo mb)) := by
  simp [componentLifecycleFlow, methods_foldl_step]

theorem insertionSort_congr_rel {α : Type} (r s : α → α → Prop) [DecidableRel r]
    [DecidableRel s] (h : ∀ a b, r a b ↔ s a b) (l : List α) :
    l.insertionSort r = l.insertionSort s := by
  have hrs : r = s := by funext a b; exact propext (h a b)
  subst hrs
  congr

theorem stdSortBy_order_eq (l : List LifecycleMethodInfo) :
    stdSortBy (fun a b => decide (a.execution_order < b.execution_order)) l =
      l.insertionSort (fun a b => a.execution_order ≤ b.execution_order) := by
  unfold stdSortBy
  apply insertionSort_congr_rel
  intro a b
  simp

theorem orderLe_isTotal :
    IsTotal LifecycleMethodInfo (fun a b => a.execution_order ≤ b.execution_order) :=
  ⟨fun a b => le_total a.execution_order b.execution_order⟩

theorem orderLe_isTrans :
    IsTrans LifecycleMethodInfo (fun a b => a.execution_order ≤ b.execution_order) :=
  ⟨fun _ _ _ h1 h2 => le_trans h1 h2⟩

theorem getComponentLifecycle_analyzeComponent (s : LifecycleAnalyzer)
    (mb : MonoBehaviourInfo) :
    (s.analyzeComponent mb).getComponentLifecycle mb.class_name = componentLifecycleFlow mb := by
  simp [LifecycleAnalyzer.getComponentLifecycle, LifecycleAnalyzer.analyzeComponent,
    StdMap.find_assign]

theorem methods_perm (mb : MonoBehaviourInfo) :
    (componentLifecycleFlow mb).methods.Perm (mb.unity_methods.map (lifecycleMethodInfo mb)) := by
  rw [componentLifecycleFlow_methods, stdSortBy_order_eq]
  exact List.perm_insertionSort _ _

theorem methods_sorted (mb : MonoBehaviourInfo) :
    List.Sorted (fun a b : LifecycleMethodInfo => a.execution_order ≤ b.execution_order)
      (componentLifecycleFlow mb).methods := by
  rw [componentLifecycleFlow_methods, stdSortBy_order_eq]
  exact @List.sorted_insertionSort _ _ _ orderLe_isTotal orderLe_isTrans _

theorem methods_names (mb : MonoBehaviourInfo) :
    (componentLifecycleFlow mb).methods.map (fun m => m.method_name) =
      mb.unity_methods.insertionSort
        (fun a b => getMethodExecutionOrder a ≤ getMethodExecutionOrder b) := by
  rw [componentLifecycleFlow_methods, stdSortBy_order_eq,
    List.map_insertionSort (fun a b : LifecycleMethodInfo => a.execution_order ≤ b.execution_order)
      (fun a b : String => getMethodExecutionOrder a ≤ getMethodExecutionOrder b)]
  · simp [List.map_map, Function.comp_def, lifecycleMethodInfo]
  · intro a ha b hb
    obtain ⟨x, _, rfl⟩ := List.mem_map.1 ha
    obtain ⟨y, _, rfl⟩ := List.mem_map.1 hb
    simp [lifecycleMethodInfo]

theorem methods_record (mb : MonoBehaviourInfo) {m : LifecycleMethodInfo}
    (h : m ∈ (componentLifecycleFlow mb).methods) :
    m = lifecycleMethodInfo mb m.method_name := by
  obtain ⟨x, _, rfl⟩ := List.mem_map.1 ((methods_perm mb).subset h)
  rfl

theorem methods_phases (mb : MonoBehaviourInfo) :
    (componentLifecycleFlow mb).methods.map (fun m => m.phase) =
      ((componentLifecycleFlow mb).methods.map (fun m => m.method_name)).map getMethodPhase := by
  rw [List.map_map]
  apply List.map_congr_left
  intro m hm
  have := methods_record mb hm
  simp only [Function.comp]
  rw [this]
  rfl

theorem scenario_three_methods (l : List String)
    (h : l.Perm ["Awake", "Update", "FixedUpdate"]) :
    l.insertionSort (fun a b => getMethodExecutionOrder a ≤ getMethodExecutionOrder b) =
      ["Awake", "Update", "FixedUpdate"] := by
  have hlen := h.length_eq
  have hnd : l.Nodup := h.nodup_iff.2 (by decide)
  match l, hlen, h, hnd with
  | [x, y, z], _, h, hnd =>
    have hx : x ∈ ["Awake", "Update", "FixedUpdate"] := h.subset (by simp)
    have hy : y ∈ ["Awake", "Update", "FixedUpdate"] := h.subset (by simp)
    have hz : z ∈ ["Awake", "Update", "FixedUpdate"] := h.subset (by simp)
    simp only [List.mem_cons, List.mem_singleton, List.not_mem_nil, or_false] at hx hy hz
    rcases hx with rfl | rfl | rfl <;> rcases hy with rfl | rfl | rfl <;>
      rcases hz with rfl | rfl | rfl <;>
      first
        | (exfalso; revert hnd; decide)
        | decide

theorem isUnityMethod_iff (n : String) : isUnityMethod n = true ↔ n ∈ unityMethodNames := by
  simp only [isUnityMethod, unityMethodNames, Bool.or_eq_true, decide_eq_true_eq,
    List.mem_append]

theorem getMethodPhase_of_not_mem {n : String} (h : n ∉ StdMap.keys METHOD_PHASES) :
    getMethodPhase n = LifecyclePhase.Custom := by
  simp [getMethodPhase, StdMap.find_eq_none_of_not_mem h]

theorem getMethodExecutionOrder_of_not_mem {n : String}
    (h : n ∉ StdMap.keys METHOD_EXECUTION_ORDER) : getMethodExecutionOrder n = 1000 := by
  simp [getMethodExecutionOrder, StdMap.find_eq_none_of_not_mem h]

theorem stored_orders_lt : ∀ pair ∈ METHOD_EXECUTION_ORDER, pair.2 < 1000 := by
  decide

theorem known_order_lt : ∀ m ∈ StdMap.keys METHOD_EXECUTION_ORDER,
    getMethodExecutionOrder m < 1000 := by
  decide

theorem isRenderingName_ne {m : String} (h : isRenderingName m = true) :
    m ≠ "Update" ∧ m ≠ "FixedUpdate" := by
  constructor <;> (rintro rfl; revert h; decide)

theorem dataFlow_foldl : ∀ (l : List String) (st : DataFlowState),
    (l.foldl dataFlowStep st).has_input = (st.has_input || decide ("Update" ∈ l)) ∧
    (l.foldl dataFlowStep st).has_physics = (st.has_physics || decide ("FixedUpdate" ∈ l)) ∧
    (l.foldl dataFlowStep st).has_rendering = (st.has_rendering || l.any isRenderingName) ∧
    (l.foldl dataFlowStep st).data_flow = st.data_flow ++ l.filterMap dataFlowLabel
  | [], st => by simp
  | m :: l, st => by
    obtain ⟨h1, h2, h3, h4⟩ := dataFlow_foldl l (dataFlowStep st m)
    rw [List.foldl_cons, h1, h2, h3, h4]
    by_cases hu : m = "Update"
    · subst hu
      refine ⟨?_, ?_, ?_, ?_⟩
      · simp [dataFlowStep]
      · simp [dataFlowStep]
      · have : isRenderingName "Update" = false := by decide
        simp [dataFlowStep, this]
      · simp [dataFlowStep, dataFlowLabel]
    · by_cases hf : m = "FixedUpdate"
      · subst hf
        refine ⟨?_, ?_, ?_, ?_⟩
        · simp [dataFlowStep]
        · simp [dataFlowStep]
        · have : isRenderingName "FixedUpdate" = false := by decide
          simp [dataFlowStep, this]
        · simp [dataFlowStep, dataFlowLabel]
      · have hu2 : ¬ "Update" = m := fun h => hu h.symm
        have hf2 : ¬ "FixedUpdate" = m := fun h => hf h.symm
        by_cases hr : isRenderingName m = true
        · have hr2 : ((strFind m "OnRender").isSome || (strFind m "OnDraw").isSome) = true := hr
          simp [dataFlowStep, dataFlowLabel, hu, hf, hr, hr2, hu2, hf2]
        · have hr2 : ((strFind m "OnRender").isSome || (strFind m "OnDraw").isSome) = false := by
            simpa [isRenderingName] using hr
          have hr3 : isRenderingName m = false := by simpa using hr
          simp [dataFlowStep, dataFlowLabel, hu, hf, hr2, hr3, hu2, hf2]

theorem mem_filterMap_dataFlowLabel {l : List String} {label : String} :
    label ∈ l.filterMap dataFlowLabel ↔
      (label = "Input Processing" ∧ "Update" ∈ l) ∨
      (label = "Physics Update" ∧ "FixedUpdate" ∈ l) ∨
      (label = "Rendering" ∧ ∃ m ∈ l, isRenderingName m = true) := by
  simp only [List.mem_filterMap]
  constructor
  · rintro ⟨m, hm, hl⟩
    unfold dataFlowLabel at hl
    split at hl
    · next h => subst h; exact Or.inl ⟨(Option.some.inj hl).symm, hm⟩
    · split at hl
      · next h => subst h; exact Or.inr (Or.inl ⟨(Option.some.inj hl).symm, hm⟩)
      · split at hl
        · next h => exact Or.inr (Or.inr ⟨(Option.some.inj hl).symm, m, hm, h⟩)
        · simp at hl
  · rintro (⟨rfl, h⟩ | ⟨rfl, h⟩ | ⟨rfl, m, hm, h⟩)
    · exact ⟨_, h, by decide⟩
    · exact ⟨_, h, by decide⟩
    · refine ⟨m, hm, ?_⟩
      have := isRenderingName_ne h
      simp [dataFlowLabel, this.1, this.2, h]

theorem extractDataFlow_eq (mb : MonoBehaviourInfo) :
    extractDataFlow mb =
      mb.unity_methods.filterMap dataFlowLabel ++
        (if "Update" ∈ mb.unity_methods ∧ "FixedUpdate" ∈ mb.unity_methods then
          ["Input → Physics"] else []) ++
        (if "FixedUpdate" ∈ mb.unity_methods ∧
            (∃ m ∈ mb.unity_methods, isRenderingName m = true) then
          ["Physics → Rendering"] else []) := by
  obtain ⟨h1, h2, h3, h4⟩ := dataFlow_foldl mb.unity_methods
    { has_input := false, has_physics := false, has_rendering := false, data_flow := [] }
  simp only [extractDataFlow, h1, h2, h3, h4, Bool.false_or, List.nil_append,
    Bool.and_eq_true, decide_eq_true_eq, List.any_eq_true]
  by_cases hu : "Update" ∈ mb.unity_methods <;>
    by_cases hf : "FixedUpdate" ∈ mb.unity_methods <;>
    by_cases hr : ∃ m ∈ mb.unity_methods, isRenderingName m = true <;>
    simp [hu, hf, hr]

theorem detectSingletonPattern_type {mbs : List MonoBehaviourInfo} {p : PatternInstance}
    (h : p ∈ detectSingletonPattern mbs) :
    p.pattern_type = UnityPattern.SingletonMonoBehaviour := by
  simp only [detectSingletonPattern, List.mem_map] at h
  obtain ⟨_, _, rfl⟩ := h
  rfl

theorem detectObjectPoolingPattern_type {mbs : List MonoBehaviourInfo} {p : PatternInstance}
    (h : p ∈ detectObjectPoolingPattern mbs) : p.pattern_type = UnityPattern.ObjectPooling := by
  simp only [detectObjectPoolingPattern, List.mem_map] at h
  obtain ⟨_, _, rfl⟩ := h
  rfl

theorem detectStatePattern_type {mbs : List MonoBehaviourInfo} {p : PatternInstance}
    (h : p ∈ detectStatePattern mbs) : p.pattern_type = UnityPattern.StatePattern := by
  unfold detectStatePattern at h
  split at h
  · simp only at h
    split at h
    · rw [List.mem_singleton] at h; rw [h]; rfl
    · simp at h
  · simp at h

theorem detectObserverPattern_type {mbs : List MonoBehaviourInfo} {p : PatternInstance}
    (h : p ∈ detectObserverPattern mbs) : p.pattern_type = UnityPattern.ObserverPattern := by
  unfold detectObserverPattern at h
  split at h
  · simp only at h
    split at h
    · rw [List.mem_singleton] at h; rw [h]; rfl
    · simp at h
  · simp at h

theorem detectComponentCompositionPattern_type {mbs : List MonoBehaviourInfo}
    {p : PatternInstance} (h : p ∈ detectComponentCompositionPattern mbs) :
    p.pattern_type = UnityPattern.ComponentComposition := by
  simp only [detectComponentCompositionPattern, List.mem_map] at h
  obtain ⟨_, _, rfl⟩ := h
  rfl

theorem detectServiceLocatorPattern_type {mbs : List MonoBehaviourInfo} {p : PatternInstance}
    (h : p ∈ detectServiceLocatorPattern mbs) : p.pattern_type = UnityPattern.ServiceLocator := by
  unfold detectServiceLocatorPattern at h
  simp only at h
  split at h
  · rw [List.mem_singleton] at h; rw [h]; rfl
  · simp at h

theorem detectFactoryPattern_type {mbs : List MonoBehaviourInfo} {p : PatternInstance}
    (h : p ∈ detectFactoryPattern mbs) : p.pattern_type = UnityPattern.FactoryPattern := by
  unfold detectFactoryPattern at h
  simp only at h
  split at h
  · rw [List.mem_singleton] at h; rw [h]; rfl
  · simp at h

theorem detectCommandPattern_type {mbs : List MonoBehaviourInfo} {p : PatternInstance}
    (h : p ∈ detectCommandPattern mbs) : p.pattern_type = UnityPattern.CommandPattern := by
  unfold detectCommandPattern at h
  simp only at h
  split at h
  · rw [List.mem_singleton] at h; rw [h]; rfl
  · simp at h

theorem detectMVCPattern_type {mbs : List MonoBehaviourInfo} {p : PatternInstance}
    (h : p ∈ detectMVCPattern mbs) : p.pattern_type = UnityPattern.MVC_Pattern := by
  unfold detectMVCPattern at h
  simp only at h
  split at h
  · rw [List.mem_singleton] at h; rw [h]; rfl
  · simp at h

theorem detectECSPattern_type {mbs : List MonoBehaviourInfo} {p : PatternInstance}
    (h : p ∈ detectECSPattern mbs) : p.pattern_type = UnityPattern.ECS_Pattern := by
  unfold detectECSPattern at h
  simp only at h
  split at h
  · rw [List.mem_singleton] at h; rw [h]; rfl
  · simp at h

theorem filter_type_eq_nil {l : List PatternInstance} {t u : UnityPattern}
    (h : ∀ p ∈ l, p.pattern_type = u) (hne : u ≠ t) :
    l.filter (fun pattern => pattern.pattern_type = t) = [] := by
  rw [List.filter_eq_nil_iff]
  intro p hp
  simp [h p hp, hne]

theorem filter_type_eq_self {l : List PatternInstance} {t : UnityPattern}
    (h : ∀ p ∈ l, p.pattern_type = t) :
    l.filter (fun pattern => pattern.pattern_type = t) = l := by
  rw [List.filter_eq_self]
  intro p hp
  simp [h p hp]

theorem getPatternsByType_composition (mbs : List MonoBehaviourInfo) (g : ComponentGraph) :
    (UnityPatternDetector.analyzeProject mbs g).getPatternsByType
        UnityPattern.ComponentComposition =
      detectComponentCompositionPattern mbs := by
  simp only [UnityPatternDetector.getPatternsByType, UnityPatternDetector.analyzeProject,
    List.filter_append]
  rw [filter_type_eq_nil (fun p => detectSingletonPattern_type) (by decide),
    filter_type_eq_nil (fun p => detectObjectPoolingPattern_type) (by decide),
    filter_type_eq_nil (fun p => detectStatePattern_type) (by decide),
    filter_type_eq_nil (fun p => detectObserverPattern_type) (by decide),
    filter_type_eq_self (fun p => detectComponentCompositionPattern_type),
    filter_type_eq_nil (fun p => detectServiceLocatorPattern_type) (by decide),
    filter_type_eq_nil (fun p => detectFactoryPattern_type) (by decide),
    filter_type_eq_nil (fun p => detectCommandPattern_type) (by decide),
    filter_type_eq_nil (fun p => detectMVCPattern_type) (by decide),
    filter_type_eq_nil (fun p => detectECSPattern_type) (by decide)]
  simp

theorem confidence_three (a b c : String) :
    calculateConfidenceScore [a, b, c] = Float32.c095 := by
  show Float32.min Float32.c095
    (Float32.add Float32.half (Float32.mul (Float32.ofNat 3) Float32.c015)) = Float32.c095
  decide

theorem mem_detected_cases {mbs : List MonoBehaviourInfo} {g : ComponentGraph}
    {p : PatternInstance}
    (h : p ∈ (UnityPatternDetector.analyzeProject mbs g).getDetectedPatterns) :
    p ∈ detectSingletonPattern mbs ∨ p ∈ detectObjectPoolingPattern mbs ∨
    p ∈ detectStatePattern mbs ∨ p ∈ detectObserverPattern mbs ∨
    p ∈ detectComponentCompositionPattern mbs ∨ p ∈ detectServiceLocatorPattern mbs ∨
    p ∈ detectFactoryPattern mbs ∨ p ∈ detectCommandPattern mbs ∨
    p ∈ detectMVCPattern mbs ∨ p ∈ detectECSPattern mbs := by
  simpa [UnityPatternDetector.getDetectedPatterns, UnityPatternDetector.analyzeProject,
    or_assoc] using h

theorem detected_name {mbs : List MonoBehaviourInfo} {g : ComponentGraph}
    {p : PatternInstance}
    (h : p ∈ (UnityPatternDetector.analyzeProject mbs g).getDetectedPatterns) :
    p.pattern_name = getPatternName p.pattern_type := by
  rcases mem_detected_cases h with h | h | h | h | h | h | h | h | h | h
  · simp only [detectSingletonPattern, List.mem_map] at h
    obtain ⟨_, _, rfl⟩ := h
    rfl
  · simp only [detectObjectPoolingPattern, List.mem_map] at h
    obtain ⟨_, _, rfl⟩ := h
    rfl
  · unfold detectStatePattern at h
    split at h
    · simp only at h
      split at h
      · rw [List.mem_singleton] at h; rw [h]; rfl
      · simp at h
    · simp at h
  · unfold detectObserverPattern at h
    split at h
    · simp only at h
      split at h
      · rw [List.mem_singleton] at h; rw [h]; rfl
      · simp at h
    · simp at h
  · simp only [detectComponentCompositionPattern, List.mem_map] at h
    obtain ⟨_, _, rfl⟩ := h
    rfl
  · unfold detectServiceLocatorPattern at h
    simp only at h
    split at h
    · rw [List.mem_singleton] at h; rw [h]; rfl
    · simp at h
  · unfold detectFactoryPattern at h
    simp only at h
    split at h
    · rw [List.mem_singleton] at h; rw [h]; rfl
    · simp at h
  · unfold detectCommandPattern at h
    simp only at h
    split at h
    · rw [List.mem_singleton] at h; rw [h]; rfl
    · simp at h
  · unfold detectMVCPattern at h
    simp only at h
    split at h
    · rw [List.mem_singleton] at h; rw [h]; rfl
    · simp at h
  · unfold detectECSPattern at h
    simp only at h
    split at h
    · rw [List.mem_singleton] at h; rw [h]; rfl
    · simp at h

theorem getPatternName_injective (t u : UnityPattern)
    (h : getPatternName t = getPatternName u) : t = u := by
  cases t <;> cases u <;> first | rfl | exact absurd h (by decide)

theorem detected_name_iff_type {mbs : List MonoBehaviourInfo} {g : ComponentGraph}
    {p : PatternInstance}
    (h : p ∈ (UnityPatternDetector.analyzeProject mbs g).getDetectedPatterns)
    (t : UnityPattern) :
    p.pattern_name = getPatternName t ↔ p.pattern_type = t := by
  constructor
  · intro hn
    rw [detected_name h] at hn
    exact getPatternName_injective _ _ hn
  · intro hty
    rw [detected_name h, hty]

theorem mem_getPatternsByType {s : UnityPatternDetector} {t : UnityPattern}
    {p : PatternInstance} :
    p ∈ s.getPatternsByType t ↔ p ∈ s.getDetectedPatterns ∧ p.pattern_type = t := by
  simp [UnityPatternDetector.getPatternsByType, UnityPatternDetector.getDetectedPatterns]

theorem compositionPattern_confidence (n : String) :
    (compositionPattern n).confidence_score = Float32.c095 :=
  confidence_three "Multiple component dependencies" "GetComponent calls"
    "RequireComponent attributes"

theorem c095_nearest : |Float32.c095.toRat - 95 / 100| ≤ (2 : ℚ) ^ (-25 : ℤ) := by
  simp only [Float32.toRat, Float32.c095]
  norm_num [abs_le]

theorem filter_type_ite {l : List PatternInstance} {t u : UnityPattern}
    (h : ∀ p ∈ l, p.pattern_type = u) :
    l.filter (fun pattern => pattern.pattern_type = t) = if u = t then l else [] := by
  by_cases hut : u = t
  · subst hut
    rw [if_pos rfl]
    exact filter_type_eq_self h
  · rw [if_neg hut]
    exact filter_type_eq_nil h hut

theorem getPatternsByType_eq (mbs : List MonoBehaviourInfo) (g : ComponentGraph)
    (t : UnityPattern) :
    (UnityPatternDetector.analyzeProject mbs g).getPatternsByType t =
      (if UnityPattern.SingletonMonoBehaviour = t then detectSingletonPattern mbs else []) ++
      (if UnityPattern.ObjectPooling = t then detectObjectPoolingPattern mbs else []) ++
      (if UnityPattern.StatePattern = t then detectStatePattern mbs else []) ++
      (if UnityPattern.ObserverPattern = t then detectObserverPattern mbs else []) ++
      (if UnityPattern.ComponentComposition = t then detectComponentCompositionPattern mbs
        else []) ++
      (if UnityPattern.ServiceLocator = t then detectServiceLocatorPattern mbs else []) ++
      (if UnityPattern.FactoryPattern = t then detectFactoryPattern mbs else []) ++
      (if UnityPattern.CommandPattern = t then detectCommandPattern mbs else []) ++
      (if UnityPattern.MVC_Pattern = t then detectMVCPattern mbs else []) ++
      (if UnityPattern.ECS_Pattern = t then detectECSPattern mbs else []) := by
  simp only [UnityPatternDetector.getPatternsByType, UnityPatternDetector.analyzeProject,
    List.filter_append]
  rw [filter_type_ite (fun p => detectSingletonPattern_type),
    filter_type_ite (fun p => detectObjectPoolingPattern_type),
    filter_type_ite (fun p => detectStatePattern_type),
    filter_type_ite (fun p => detectObserverPattern_type),
    filter_type_ite (fun p => detectComponentCompositionPattern_type),
    filter_type_ite (fun p => detectServiceLocatorPattern_type),
    filter_type_ite (fun p => detectFactoryPattern_type),
    filter_type_ite (fun p => detectCommandPattern_type),
    filter_type_ite (fun p => detectMVCPattern_type),
    filter_type_ite (fun p => detectECSPattern_type)]

theorem emitted_iff (mbs : List MonoBehaviourInfo) (g : ComponentGraph) (t : UnityPattern) :
    (∃ p ∈ (UnityPatternDetector.analyzeProject mbs g).getDetectedPatterns,
      p.pattern_type = t) ↔
      (UnityPatternDetector.analyzeProject mbs g).getPatternsByType t ≠ [] := by
  constructor
  · rintro ⟨p, hp, ht⟩ hnil
    have := mem_getPatternsByType.2 ⟨hp, ht⟩
    rw [hnil] at this
    simp at this
  · intro h
    obtain ⟨p, hp⟩ := List.exists_mem_of_ne_nil _ h
    exact ⟨p, mem_getPatternsByType.1 hp⟩

theorem vocabulary_not_observer : ∀ n ∈ unityMethodNames,
    containsStr n "Event" = false ∧ containsStr n "Notify" = false ∧
      containsStr n "Subscribe" = false ∧ containsStr n "Listen" = false := by
  decide

theorem isObserverComponent_false {mb : MonoBehaviourInfo}
    (h : ∀ m ∈ mb.unity_methods, isUnityMethod m = true) : isObserverComponent mb = false := by
  have hall : ∀ m ∈ mb.unity_methods, containsStr m "Event" = false ∧
      containsStr m "Notify" = false ∧ containsStr m "Subscribe" = false ∧
      containsStr m "Listen" = false :=
    fun m hm => vocabulary_not_observer m ((isUnityMethod_iff m).1 (h m hm))
  simp only [isObserverComponent, Bool.or_eq_false_iff, List.any_eq_false, Bool.or_eq_true,
    not_or, Bool.not_eq_true]
  exact ⟨fun m hm => ⟨(hall m hm).1, (hall m hm).2.1⟩,
    fun m hm => ⟨(hall m hm).2.2.1, (hall m hm).2.2.2⟩⟩

theorem detectObserverPattern_nil {mbs : List MonoBehaviourInfo}
    (h : ∀ mb ∈ mbs, ∀ m ∈ mb.unity_methods, isUnityMethod m = true) :
    detectObserverPattern mbs = [] := by
  have hf : mbs.filter isObserverComponent = [] := by
    rw [List.filter_eq_nil_iff]
    intro mb hmb
    simp [isObserverComponent_false (h mb hmb)]
  unfold detectObserverPattern
  split
  · simp [hf]
  · rfl

theorem detect_length_iff (pattern : PatternInstance) (components : List String) (n : Nat) :
    (if n ≤ components.length then [pattern] else []) ≠ [] ↔ n ≤ components.length := by
  split <;> simp_all

theorem detectMVCPattern_ne_nil (mbs : List MonoBehaviourInfo) :
    detectMVCPattern mbs ≠ [] ↔
      3 ≤ (matchingComponents mbs ["Controller"]).length +
        (matchingComponents mbs ["View"]).length + (matchingComponents mbs ["Model"]).length := by
  unfold detectMVCPattern
  simp only [findComponentsByPattern, matchingComponents, List.length_append, List.length_map]
  split <;> simp_all

theorem detectECSPattern_ne_nil (mbs : List MonoBehaviourInfo) :
    detectECSPattern mbs ≠ [] ↔
      3 ≤ (matchingComponents mbs ["Entity", "Component", "System"]).length := by
  unfold detectECSPattern
  simp only [findComponentsByPattern, matchingComponents, List.length_map]
  split <;> simp_all

theorem detectFactoryPattern_ne_nil (mbs : List MonoBehaviourInfo) :
    detectFactoryPattern mbs ≠ [] ↔
      1 ≤ (matchingComponents mbs ["Factory", "Creator", "Builder"]).length := by
  unfold detectFactoryPattern
  simp only [findComponentsByPattern, matchingComponents]
  cases h : List.filter (fun mb_info => regexMatchAny ["Factory", "Creator", "Builder"]
    mb_info.class_name) mbs <;> simp

theorem detectCommandPattern_ne_nil (mbs : List MonoBehaviourInfo) :
    detectCommandPattern mbs ≠ [] ↔
      1 ≤ (matchingComponents mbs ["Command", "Action"]).length := by
  unfold detectCommandPattern
  simp only [findComponentsByPattern, matchingComponents]
  cases h : List.filter (fun mb_info => regexMatchAny ["Command", "Action"]
    mb_info.class_name) mbs <;> simp

theorem regexMatchAny_family (s : String) :
    regexMatchAny ["Controller", "View", "Model"] s =
      (regexMatchAny ["Controller"] s || regexMatchAny ["View"] s ||
        regexMatchAny ["Model"] s) := by
  simp [regexMatchAny, Bool.or_assoc]

theorem family_length_le (mbs : List MonoBehaviourInfo) :
    (matchingComponents mbs ["Controller", "View", "Model"]).length ≤
      (matchingComponents mbs ["Controller"]).length +
        (matchingComponents mbs ["View"]).length +
        (matchingComponents mbs ["Model"]).length := by
  induction mbs with
  | nil => simp [matchingComponents]
  | cons mb mbs ih =>
    simp only [matchingComponents, List.filter_cons, regexMatchAny_family] at ih ⊢
    cases h1 : regexMatchAny ["Controller"] mb.class_name <;>
      cases h2 : regexMatchAny ["View"] mb.class_name <;>
      cases h3 : regexMatchAny ["Model"] mb.class_name <;>
      simp <;> omega

theorem family_length_eq {mbs : List MonoBehaviourInfo}
    (h : ∀ mb ∈ mbs, matchesOneFamily mb.class_name = true) :
    (matchingComponents mbs ["Controller", "View", "Model"]).length =
      (matchingComponents mbs ["Controller"]).length +
        (matchingComponents mbs ["View"]).length +
        (matchingComponents mbs ["Model"]).length := by
  induction mbs with
  | nil => simp [matchingComponents]
  | cons mb mbs ih =>
    have hmb := h mb (List.mem_cons_self _ _)
    have ih := ih (fun x hx => h x (List.mem_cons_of_mem _ hx))
    simp only [matchingComponents, List.filter_cons, regexMatchAny_family] at ih ⊢
    unfold matchesOneFamily at hmb
    cases h1 : regexMatchAny ["Controller"] mb.class_name <;>
      cases h2 : regexMatchAny ["View"] mb.class_name <;>
      cases h3 : regexMatchAny ["Model"] mb.class_name <;>
      simp [h1, h2, h3] at hmb ⊢ <;> omega

theorem classifyMethods_unity_methods :
    ∀ (methods : List MethodInfo) (mb : MonoBehaviourInfo),
      (classifyMethods mb methods).unity_methods =
        mb.unity_methods ++ (methods.map (fun m => m.name)).filter isUnityMethod
  | [], _ => by simp [classifyMethods]
  | m :: methods, mb => by
    unfold classifyMethods
    split
    · rename_i h
      rw [classifyMethods_unity_methods methods]
      simp [h]
    · rename_i h
      rw [classifyMethods_unity_methods methods]
      simp [h]

theorem classifyMethods_custom_methods :
    ∀ (methods : List MethodInfo) (mb : MonoBehaviourInfo),
      (classifyMethods mb methods).custom_methods =
        mb.custom_methods ++
          (methods.map (fun m => m.name)).filter (fun n => !isUnityMethod n)
  | [], _ => by simp [classifyMethods]
  | m :: methods, mb => by
    unfold classifyMethods
    split
    · rename_i h
      rw [classifyMethods_custom_methods methods]
      simp [h]
    · rename_i h
      rw [classifyMethods_custom_methods methods]
      simp [h]

theorem analyzeMonoBehaviour_unity_methods (class_info : ClassInfo) (methods : List MethodInfo)
    (fields : List FieldInfo) (file_path source_code : String) :
    (analyzeMonoBehaviour class_info methods fields file_path source_code).unity_methods =
      (methods.map (fun m => m.name)).filter isUnityMethod := by
  simp [analyzeMonoBehaviour, classifyMethods_unity_methods]

theorem analyzeMonoBehaviour_custom_methods (class_info : ClassInfo)
    (methods : List MethodInfo) (fields : List FieldInfo) (file_path source_code : String) :
    (analyzeMonoBehaviour class_info methods fields file_path source_code).custom_methods =
      (methods.map (fun m => m.name)).filter (fun n => !isUnityMethod n) := by
  simp [analyzeMonoBehaviour, classifyMethods_custom_methods]

theorem analyzeMonoBehaviour_class_name (class_info : ClassInfo) (methods : List MethodInfo)
    (fields : List FieldInfo) (file_path source_code : String) :
    (analyzeMonoBehaviour class_info methods fields file_path source_code).class_name =
      class_info.name := by
  simp [analyzeMonoBehaviour, classifyMethods_class_name]

theorem bitLengthAux_lt : ∀ (fuel n : Nat), n < 2 ^ fuel → n < 2 ^ bitLengthAux fuel n
  | 0, n, h => by
    simp only [bitLengthAux]
    exact h
  | fuel + 1, n, h => by
    simp only [bitLengthAux]
    split
    · rename_i h0
      rw [h0]
      exact Nat.one_pos
    · have ih := bitLengthAux_lt fuel (n / 2) (by rw [pow_succ] at h; omega)
      rw [pow_succ]
      omega

theorem bitLength_lt (n : Nat) : n < 2 ^ bitLength n :=
  bitLengthAux_lt n n (Nat.lt_two_pow n)

/-- The significand that `Float32.round` returns has 24 bits at most (`2 ^ 24` itself when
the rounding carries), and the returned number is a nearest one: it differs from the exact
number by half a unit of the last place at most. -/
theorem round_nearest (mant : Nat) (exp : Int) :
    (Float32.round mant exp).mant ≤ 2 ^ 24 ∧
    exp ≤ (Float32.round mant exp).exp ∧
    2 * ((Float32.round mant exp).mant * 2 ^ ((Float32.round mant exp).exp - exp).toNat) ≤
      2 * mant + 2 ^ ((Float32.round mant exp).exp - exp).toNat ∧
    2 * mant ≤
      2 * ((Float32.round mant exp).mant * 2 ^ ((Float32.round mant exp).exp - exp).toNat) +
        2 ^ ((Float32.round mant exp).exp - exp).toNat := by
  unfold Float32.round
  split
  · rename_i h
    simp only [sub_self, Int.toNat_zero, pow_zero, mul_one, le_refl, true_and]
    omega
  · rename_i h
    have h24 : 2 ^ 24 ≤ mant := by omega
    have hlt := bitLength_lt mant
    have hb : 25 ≤ bitLength mant := by
      by_contra hcon
      have : 2 ^ bitLength mant ≤ 2 ^ 24 := Nat.pow_le_pow_right (by norm_num) (by omega)
      omega
    generalize hk : bitLength mant - 24 = k at *
    have hk1 : 1 ≤ k := by omega
    have hbl : bitLength mant = k + 24 := by omega
    rw [hbl, pow_add] at hlt
    have hpk : 0 < 2 ^ k := Nat.pos_pow_of_pos k (by norm_num)
    have hq : mant / 2 ^ k < 2 ^ 24 := by
      rw [Nat.div_lt_iff_lt_mul hpk]
      linarith
    have hdm := Nat.div_add_mod mant (2 ^ k)
    have hr := Nat.mod_lt mant hpk
    have hhalf : 2 ^ k = 2 * 2 ^ (k - 1) := by
      rw [← pow_succ']
      congr 1
      omega
    have hexp : (exp + (k : ℤ) - exp).toNat = k := by
      rw [add_sub_cancel_left]
      exact Int.toNat_natCast k
    simp only [hexp]
    generalize mant / 2 ^ k = q at *
    generalize mant % 2 ^ k = r at *
    generalize 2 ^ (k - 1) = half at *
    rw [hhalf] at hdm hr ⊢
    refine ⟨?_, by omega, ?_, ?_⟩
    · split <;> omega
    · split
      · rename_i hc
        rcases hc with hc | hc <;> nlinarith
      · rename_i hc
        nlinarith
    · split
      · rename_i hc
        nlinarith
      · rename_i hc
        have : r ≤ half := by
          by_contra hcon
          exact hc (Or.inl (by omega))
        nlinarith

theorem bitLengthAux_zero (fuel : Nat) : bitLengthAux fuel 0 = 0 := by
  cases fuel <;> simp [bitLengthAux]

theorem bitLengthAux_le : ∀ (fuel n : Nat), n ≠ 0 → 2 ^ (bitLengthAux fuel n - 1) ≤ n
  | 0, n, h => by
    simp only [bitLengthAux]
    omega
  | fuel + 1, n, h => by
    simp only [bitLengthAux, if_neg h, Nat.add_sub_cancel]
    by_cases h2 : n / 2 = 0
    · rw [h2, bitLengthAux_zero]
      simp only [pow_zero]
      omega
    · have ih := bitLengthAux_le fuel (n / 2) h2
      by_cases h0 : bitLengthAux fuel (n / 2) = 0
      · rw [h0]
        simp only [pow_zero]
        omega
      · have hpow : 2 ^ bitLengthAux fuel (n / 2) = 2 * 2 ^ (bitLengthAux fuel (n / 2) - 1) := by
          rw [← pow_succ']
          congr 1
          omega
        rw [hpow]
        omega

theorem bitLength_le {n : Nat} (h : n ≠ 0) : 2 ^ (bitLength n - 1) ≤ n :=
  bitLengthAux_le n n h

theorem round_shift_le {mant : Nat} (h : 2 ^ 24 ≤ mant) :
    2 ^ (bitLength mant - 24 + 23) ≤ mant := by
  by_cases hb : 24 ≤ bitLength mant
  · have : bitLength mant - 24 + 23 = bitLength mant - 1 := by omega
    rw [this]
    exact bitLength_le (by omega)
  · have : bitLength mant - 24 + 23 = 23 := by omega
    rw [this]
    omega

/-- Rounding loses at most the fraction `2 ^ (-23)` of the exact number. -/
theorem round_ge (mant : Nat) (exp : Int) :
    (mant : ℚ) * (2 : ℚ) ^ exp * (1 - (2 : ℚ) ^ (-23 : ℤ)) ≤ (Float32.round mant exp).toRat := by
  have hpos : (0 : ℚ) < (2 : ℚ) ^ exp := zpow_pos (by norm_num) _
  unfold Float32.round
  split
  · simp only [Float32.toRat]
    have : (0 : ℚ) ≤ (mant : ℚ) * (2 : ℚ) ^ exp := by positivity
    have h23 : (0 : ℚ) ≤ (2 : ℚ) ^ (-23 : ℤ) := by positivity
    nlinarith
  · rename_i h
    have h24 : 2 ^ 24 ≤ mant := by omega
    simp only [Float32.toRat]
    generalize hk : bitLength mant - 24 = k
    have hshift : 2 ^ (k + 23) ≤ mant := by
      rw [← hk]
      exact round_shift_le h24
    have hq : mant / 2 ^ k ≤
        (if 2 ^ (k - 1) < mant % 2 ^ k ∨ (mant % 2 ^ k = 2 ^ (k - 1) ∧ mant / 2 ^ k % 2 = 1)
          then mant / 2 ^ k + 1 else mant / 2 ^ k) := by
      split <;> omega
    have hdiv : mant < (mant / 2 ^ k + 1) * 2 ^ k := by
      have := Nat.div_add_mod mant (2 ^ k)
      have := Nat.mod_lt mant (Nat.pos_pow_of_pos k (by norm_num) : 0 < 2 ^ k)
      nlinarith
    have hpk : (0 : ℚ) < (2 : ℚ) ^ (k : ℤ) := zpow_pos (by norm_num) _
    rw [zpow_add₀ (by norm_num : (2 : ℚ) ≠ 0)]
    have hqQ : ((mant / 2 ^ k : ℕ) : ℚ) ≤
        (((if 2 ^ (k - 1) < mant % 2 ^ k ∨
            (mant % 2 ^ k = 2 ^ (k - 1) ∧ mant / 2 ^ k % 2 = 1)
          then mant / 2 ^ k + 1 else mant / 2 ^ k : ℕ)) : ℚ) := by
      exact_mod_cast hq
    have hdivQ : (mant : ℚ) < (((mant / 2 ^ k : ℕ) : ℚ) + 1) * (2 : ℚ) ^ (k : ℤ) := by
      rw [zpow_natCast]
      exact_mod_cast hdiv
    have hshiftQ : (2 : ℚ) ^ (k : ℤ) * 2 ^ 23 ≤ (mant : ℚ) := by
      rw [zpow_natCast, ← pow_add]
      exact_mod_cast hshift
    have h23 : (2 : ℚ) ^ (-23 : ℤ) = 1 / 2 ^ 23 := by
      rw [zpow_neg]
      norm_num
    rw [h23]
    have key : (mant : ℚ) * (1 - 1 / 2 ^ 23) ≤
        (((if 2 ^ (k - 1) < mant % 2 ^ k ∨
            (mant % 2 ^ k = 2 ^ (k - 1) ∧ mant / 2 ^ k % 2 = 1)
          then mant / 2 ^ k + 1 else mant / 2 ^ k : ℕ)) : ℚ) * (2 : ℚ) ^ (k : ℤ) := by
      have h1 : (mant : ℚ) - (2 : ℚ) ^ (k : ℤ) ≤ ((mant / 2 ^ k : ℕ) : ℚ) * (2 : ℚ) ^ (k : ℤ) := by
        linarith
      have h2 : (mant : ℚ) * (1 - 1 / 2 ^ 23) ≤ (mant : ℚ) - (2 : ℚ) ^ (k : ℤ) := by
        have : (2 : ℚ) ^ (k : ℤ) ≤ (mant : ℚ) * (1 / 2 ^ 23) := by
          rw [mul_one_div, le_div_iff₀ (by positivity)]
          exact hshiftQ
        linarith
      have h3 := mul_le_mul_of_nonneg_right hqQ hpk.le
      linarith
    calc (mant : ℚ) * (2 : ℚ) ^ exp * (1 - 1 / 2 ^ 23)
        = (mant : ℚ) * (1 - 1 / 2 ^ 23) * (2 : ℚ) ^ exp := by ring
      _ ≤ _ := by
          have := mul_le_mul_of_nonneg_right key hpos.le
          calc _ ≤ _ := this
            _ = _ := by ring

theorem toRat_scaled (x : Float32) {e : Int} (h : e ≤ x.exp) :
    x.toRat = ((x.mant * 2 ^ (x.exp - e).toNat : ℕ) : ℚ) * (2 : ℚ) ^ e := by
  have h2 : ((2 : ℚ) ^ (x.exp - e).toNat) = (2 : ℚ) ^ (x.exp - e) := by
    rw [← zpow_natCast, Int.toNat_of_nonneg (by omega)]
  rw [Float32.toRat, Nat.cast_mul, Nat.cast_pow, Nat.cast_ofNat, h2, mul_assoc,
    ← zpow_add₀ (by norm_num : (2 : ℚ) ≠ 0)]
  congr 2
  omega

theorem float_toRat_nonneg (x : Float32) : 0 ≤ x.toRat := by
  unfold Float32.toRat
  positivity

theorem float_lt_sound {x y : Float32} (h : Float32.lt x y = true) : x.toRat < y.toRat := by
  simp only [Float32.lt, decide_eq_true_eq] at h
  rw [toRat_scaled x (min_le_left x.exp y.exp), toRat_scaled y (min_le_right x.exp y.exp)]
  have hpos : (0 : ℚ) < (2 : ℚ) ^ (min x.exp y.exp) := zpow_pos (by norm_num) _
  exact mul_lt_mul_of_pos_right (by exact_mod_cast h) hpos

theorem float_mul_ge (x y : Float32) :
    x.toRat * y.toRat * (1 - (2 : ℚ) ^ (-23 : ℤ)) ≤ (Float32.mul x y).toRat := by
  have := round_ge (x.mant * y.mant) (x.exp + y.exp)
  rw [zpow_add₀ (by norm_num : (2 : ℚ) ≠ 0), Nat.cast_mul] at this
  unfold Float32.mul
  simp only [Float32.toRat] at this ⊢
  calc _ = (x.mant : ℚ) * (y.mant : ℚ) * ((2 : ℚ) ^ x.exp * (2 : ℚ) ^ y.exp) *
        (1 - (2 : ℚ) ^ (-23 : ℤ)) := by ring
    _ ≤ _ := this

theorem float_add_ge (x y : Float32) :
    (x.toRat + y.toRat) * (1 - (2 : ℚ) ^ (-23 : ℤ)) ≤ (Float32.add x y).toRat := by
  have := round_ge (x.mant * 2 ^ (x.exp - min x.exp y.exp).toNat +
    y.mant * 2 ^ (y.exp - min x.exp y.exp).toNat) (min x.exp y.exp)
  rw [Nat.cast_add, add_mul, ← toRat_scaled x (min_le_left x.exp y.exp),
    ← toRat_scaled y (min_le_right x.exp y.exp)] at this
  exact this

theorem float_ofNat_ge (n : Nat) :
    (n : ℚ) * (1 - (2 : ℚ) ^ (-23 : ℤ)) ≤ (Float32.ofNat n).toRat := by
  have := round_ge n 0
  simpa [Float32.ofNat] using this

theorem makePattern_confidence (pattern_type : UnityPattern) (pattern_name : String)
    (involved_components : List String) (description purpose : String)
    (evidence : List String) :
    (makePattern pattern_type pattern_name involved_components description purpose
        evidence).confidence_score =
      calculateConfidenceScore (makePattern pattern_type pattern_name involved_components
        description purpose evidence).evidence ∧
    (makePattern pattern_type pattern_name involved_components description purpose
        evidence).evidence.length = evidence.length :=
  ⟨rfl, rfl⟩

theorem detected_evidence {mbs : List MonoBehaviourInfo} {g : ComponentGraph}
    {p : PatternInstance}
    (h : p ∈ (UnityPatternDetector.analyzeProject mbs g).getDetectedPatterns) :
    p.confidence_score = calculateConfidenceScore p.evidence ∧ p.evidence.length = 3 := by
  rcases mem_detected_cases h with h | h | h | h | h | h | h | h | h | h
  · simp only [detectSingletonPattern, List.mem_map] at h
    obtain ⟨_, _, rfl⟩ := h
    exact makePattern_confidence _ _ _ _ _ _
  · simp only [detectObjectPoolingPattern, List.mem_map] at h
    obtain ⟨_, _, rfl⟩ := h
    exact makePattern_confidence _ _ _ _ _ _
  · unfold detectStatePattern at h
    split at h
    · simp only at h
      split at h
      · rw [List.mem_singleton] at h; rw [h]; exact makePattern_confidence _ _ _ _ _ _
      · simp at h
    · simp at h
  · unfold detectObserverPattern at h
    split at h
    · simp only at h
      split at h
      · rw [List.mem_singleton] at h; rw [h]; exact makePattern_confidence _ _ _ _ _ _
      · simp at h
    · simp at h
  · simp only [detectComponentCompositionPattern, List.mem_map] at h
    obtain ⟨_, _, rfl⟩ := h
    exact makePattern_confidence _ _ _ _ _ _
  · unfold detectServiceLocatorPattern at h
    simp only at h
    split at h
    · rw [List.mem_singleton] at h; rw [h]; exact makePattern_confidence _ _ _ _ _ _
    · simp at h
  · unfold detectFactoryPattern at h
    simp only at h
    split at h
    · rw [List.mem_singleton] at h; rw [h]; exact makePattern_confidence _ _ _ _ _ _
    · simp at h
  · unfold detectCommandPattern at h
    simp only at h
    split at h
    · rw [List.mem_singleton] at h; rw [h]; exact makePattern_confidence _ _ _ _ _ _
    · simp at h
  · unfold detectMVCPattern at h
    simp only at h
    split at h
    · rw [List.mem_singleton] at h; rw [h]; exact makePattern_confidence _ _ _ _ _ _
    · simp at h
  · unfold detectECSPattern at h
    simp only at h
    split at h
    · rw [List.mem_singleton] at h; rw [h]; exact makePattern_confidence _ _ _ _ _ _
    · simp at h

theorem confidence_sum_ge {n : Nat} (h : 4 ≤ n) :
    Float32.c095.toRat ≤
      (Float32.add Float32.half (Float32.mul (Float32.ofNat n) Float32.c015)).toRat := by
  have h1 := float_ofNat_ge n
  have h2 := float_mul_ge (Float32.ofNat n) Float32.c015
  have h3 := float_add_ge Float32.half (Float32.mul (Float32.ofNat n) Float32.c015)
  have hn : (4 : ℚ) ≤ (n : ℚ) := by exact_mod_cast h
  have he : (2 : ℚ) ^ (-23 : ℤ) = 1 / 8388608 := by
    rw [zpow_neg]
    norm_num
  have hc : Float32.c015.toRat = 10066330 / 67108864 := by
    simp only [Float32.toRat, Float32.c015]
    rw [zpow_neg]
    norm_num
  have hh : Float32.half.toRat = 1 / 2 := by
    simp only [Float32.toRat, Float32.half]
    rw [zpow_neg]
    norm_num
  have h9 : Float32.c095.toRat = 15938355 / 16777216 := by
    simp only [Float32.toRat, Float32.c095]
    rw [zpow_neg]
    norm_num
  rw [he] at h1 h2 h3
  rw [hc] at h2
  rw [hh] at h3
  rw [h9]
  have ha : (4 : ℚ) * (1 - 1 / 8388608) ≤ (Float32.ofNat n).toRat := by
    have := mul_le_mul_of_nonneg_right hn (by norm_num : (0 : ℚ) ≤ 1 - 1 / 8388608)
    linarith
  have hm : (4 : ℚ) * (1 - 1 / 8388608) * (10066330 / 67108864) * (1 - 1 / 8388608) ≤
      (Float32.mul (Float32.ofNat n) Float32.c015).toRat := by
    have := mul_le_mul_of_nonneg_right ha
      (by norm_num : (0 : ℚ) ≤ (10066330 / 67108864) * (1 - 1 / 8388608))
    linarith
  have hs : (1 / 2 + (4 : ℚ) * (1 - 1 / 8388608) * (10066330 / 67108864) *
      (1 - 1 / 8388608)) * (1 - 1 / 8388608) ≤
      (Float32.add Float32.half (Float32.mul (Float32.ofNat n) Float32.c015)).toRat := by
    have := mul_le_mul_of_nonneg_right hm (by norm_num : (0 : ℚ) ≤ 1 - 1 / 8388608)
    linarith
  refine le_trans ?_ hs
  norm_num

theorem calculateConfidenceScore_eq (evidence : List String) :
    calculateConfidenceScore evidence =
      Float32.min Float32.c095
        (Float32.add Float32.half (Float32.mul (Float32.ofNat evidence.length) Float32.c015)) :=
  rfl

theorem confidence_of_three_le {evidence : List String} (h : 3 ≤ evidence.length) :
    calculateConfidenceScore evidence = Float32.c095 := by
  rw [calculateConfidenceScore_eq]
  rcases Nat.eq_or_lt_of_le h with h3 | h4
  · rw [← h3]
    decide
  · unfold Float32.min
    rw [if_neg]
    intro hlt
    have := float_lt_sound hlt
    have := confidence_sum_ge h4
    linarith

theorem confidence_small (evidence : List String) :
    (evidence.length = 0 → calculateConfidenceScore evidence = { mant := 8388608, exp := -24 }) ∧
    (evidence.length = 1 →
      calculateConfidenceScore evidence = { mant := 10905190, exp := -24 }) ∧
    (evidence.length = 2 →
      calculateConfidenceScore evidence = { mant := 13421773, exp := -24 }) := by
  rw [calculateConfidenceScore_eq]
  refine ⟨fun h => ?_, fun h => ?_, fun h => ?_⟩ <;> rw [h] <;> decide

theorem confidence_bounds (evidence : List String) :
    |(calculateConfidenceScore evidence).toRat -
        min (95 / 100) (1 / 2 + 15 / 100 * (evidence.length : ℚ))| ≤ (2 : ℚ) ^ (-24 : ℤ) ∧
      0 ≤ (calculateConfidenceScore evidence).toRat ∧
      (calculateConfidenceScore evidence).toRat ≤ 95 / 100 := by
  have he : (2 : ℚ) ^ (-24 : ℤ) = 1 / 16777216 := by
    rw [zpow_neg]
    norm_num
  have hz : (2 : ℚ) ^ (24 : ℤ) = 16777216 := by norm_num
  rw [he]
  obtain ⟨h0, h1, h2⟩ := confidence_small evidence
  rcases Nat.lt_or_ge evidence.length 3 with hlt | hge
  · have hcases : evidence.length = 0 ∨ evidence.length = 1 ∨ evidence.length = 2 := by omega
    rcases hcases with h | h | h
    · rw [h0 h, h]
      simp only [Float32.toRat]
      rw [zpow_neg, hz]
      norm_num [abs_le]
    · rw [h1 h, h]
      simp only [Float32.toRat]
      rw [zpow_neg, hz]
      norm_num [abs_le]
    · rw [h2 h, h]
      simp only [Float32.toRat]
      rw [zpow_neg, hz]
      norm_num [abs_le]
  · rw [confidence_of_three_le hge]
    have hn : (3 : ℚ) ≤ (evidence.length : ℚ) := by exact_mod_cast hge
    have hmin : min (95 / 100 : ℚ) (1 / 2 + 15 / 100 * (evidence.length : ℚ)) = 95 / 100 := by
      apply min_eq_left
      linarith
    rw [hmin]
    simp only [Float32.toRat, Float32.c095]
    rw [zpow_neg, hz]
    norm_num [abs_le]

theorem highCoupling_foldl (P : String × List String → Prop) [DecidablePred P] :
    ∀ (m : List (String × List String)) (acc : List String),
      acc.Nodup → (StdMap.keys m).Nodup →
      (m.foldl (fun high_coupling dep_pair =>
          if P dep_pair then
            if dep_pair.1 ∉ high_coupling then high_coupling ++ [dep_pair.1] else high_coupling
          else high_coupling) acc).Nodup ∧
      ∀ n, n ∈ m.foldl (fun high_coupling dep_pair =>
          if P dep_pair then
            if dep_pair.1 ∉ high_coupling then high_coupling ++ [dep_pair.1] else high_coupling
          else high_coupling) acc ↔ n ∈ acc ∨ ∃ l, (n, l) ∈ m ∧ P (n, l)
  | [], acc, hacc, _ => by simp [hacc]
  | (k, v) :: m, acc, hacc, hm => by
    simp only [StdMap.keys, List.map_cons, List.nodup_cons] at hm
    simp only [List.foldl_cons]
    by_cases hP : P (k, v)
    · by_cases hk : k ∈ acc
      · simp only [hP, if_true, hk, not_true_eq_false, if_false]
        obtain ⟨h1, h2⟩ := highCoupling_foldl P m acc hacc hm.2
        refine ⟨h1, fun n => ?_⟩
        rw [h2]
        constructor
        · rintro (h | ⟨l, hl, hPl⟩)
          · exact Or.inl h
          · exact Or.inr ⟨l, List.mem_cons_of_mem _ hl, hPl⟩
        · rintro (h | ⟨l, hl, hPl⟩)
          · exact Or.inl h
          · rcases List.mem_cons.1 hl with heq | hl
            · simp only [Prod.mk.injEq] at heq
              exact Or.inl (heq.1 ▸ hk)
            · exact Or.inr ⟨l, hl, hPl⟩
      · simp only [hP, if_true, hk, not_false_eq_true]
        have hacc2 : (acc ++ [k]).Nodup := by
          rw [List.nodup_append]
          exact ⟨hacc, List.nodup_singleton k, by
            intro a ha hb
            rw [List.mem_singleton] at hb
            exact hk (hb ▸ ha)⟩
        obtain ⟨h1, h2⟩ := highCoupling_foldl P m (acc ++ [k]) hacc2 hm.2
        refine ⟨h1, fun n => ?_⟩
        rw [h2]
        constructor
        · rintro (h | ⟨l, hl, hPl⟩)
          · rcases List.mem_append.1 h with h | h
            · exact Or.inl h
            · rw [List.mem_singleton] at h
              subst h
              exact Or.inr ⟨v, List.mem_cons_self _ _, hP⟩
          · exact Or.inr ⟨l, List.mem_cons_of_mem _ hl, hPl⟩
        · rintro (h | ⟨l, hl, hPl⟩)
          · exact Or.inl (List.mem_append_left _ h)
          · rcases List.mem_cons.1 hl with heq | hl
            · simp only [Prod.mk.injEq] at heq
              exact Or.inl (List.mem_append_right _ (by simp [heq.1]))
            · exact Or.inr ⟨l, hl, hPl⟩
    · simp only [hP, if_false]
      obtain ⟨h1, h2⟩ := highCoupling_foldl P m acc hacc hm.2
      refine ⟨h1, fun n => ?_⟩
      rw [h2]
      constructor
      · rintro (h | ⟨l, hl, hPl⟩)
        · exact Or.inl h
        · exact Or.inr ⟨l, List.mem_cons_of_mem _ hl, hPl⟩
      · rintro (h | ⟨l, hl, hPl⟩)
        · exact Or.inl h
        · rcases List.mem_cons.1 hl with heq | hl
          · simp only [Prod.mk.injEq] at heq
            rw [heq.1, heq.2] at hPl
            exact absurd hPl hP
          · exact Or.inr ⟨l, hl, hPl⟩

theorem StdMap.exists_mem_iff_getD {m : List (String × List String)}
    (hm : (StdMap.keys m).Nodup) (n : String) (k : Nat) (hk : 0 < k) :
    (∃ l, (n, l) ∈ m ∧ k ≤ l.length) ↔ k ≤ ((StdMap.find m n).getD []).length := by
  constructor
  · rintro ⟨l, hl, hlen⟩
    rw [StdMap.find_of_mem hm hl]
    exact hlen
  · intro h
    cases hf : StdMap.find m n with
    | none =>
      rw [hf] at h
      simp at h
      omega
    | some l =>
      rw [hf] at h
      exact ⟨l, StdMap.mem_of_find hf, h⟩

theorem nodup_filter_keys {m : List (String × List String)} (hm : (StdMap.keys m).Nodup)
    (p : String × List String → Bool) : ((m.filter p).map Prod.fst).Nodup :=
  List.Nodup.sublist (List.Sublist.map Prod.fst (List.filter_sublist m)) hm

theorem keys_nodup_buildDependencyGraph (s : ComponentDependencyAnalyzer) :
    (StdMap.keys (buildDependencyGraph s).dependencies).Nodup ∧
      (StdMap.keys (buildDependencyGraph s).dependents).Nodup := by
  have h := sorted_keys_graph s
  exact ⟨nodup_of_sorted_strLt h.1, nodup_of_sorted_strLt h.2⟩

theorem adj_mem_graphNames (g : ComponentGraph) (x d : String) (h : d ∈ g.adj x) :
    d ∈ graphNames g := by
  unfold ComponentGraph.adj at h
  cases hf : StdMap.find g.dependencies x with
  | none => simp [hf] at h
  | some l =>
    rw [hf] at h
    simp only [graphNames, List.mem_flatMap]
    exact ⟨(x, l), StdMap.mem_of_find hf, List.mem_cons_of_mem _ h⟩

theorem cyclicLoop_mono
    {r1 r2 : String → List String → List String → Option (Bool × List String × List String)}
    (h : ∀ c vg vd x, r1 c vg vd = some x → r2 c vg vd = some x) :
    ∀ (deps vg vd : List String) (x : Bool × List String × List String),
      cyclicLoop r1 deps vg vd = some x → cyclicLoop r2 deps vg vd = some x
  | [], vg, vd, x, hx => by simpa [cyclicLoop] using hx
  | dep :: rest, vg, vd, x, hx => by
    unfold cyclicLoop at hx ⊢
    split
    · next hvg => simpa [hvg] using hx
    · next hvg =>
      rw [if_neg hvg] at hx
      split
      · next hvd =>
        rw [if_pos hvd] at hx
        cases h1 : r1 dep vg vd with
        | none => simp [h1] at hx
        | some y =>
          rw [h1] at hx
          rw [h dep vg vd y h1]
          obtain ⟨b, vg1, vd1⟩ := y
          cases b
          · exact cyclicLoop_mono h rest vg1 vd1 x hx
          · exact hx
      · next hvd =>
        rw [if_neg hvd] at hx
        exact cyclicLoop_mono h rest vg vd x hx

theorem hasCyclicDependenciesRecursive_succ (g : ComponentGraph) :
    ∀ (fuel : Nat) (c : String) (vg vd : List String) (x : Bool × List String × List String),
      hasCyclicDependenciesRecursive g fuel c vg vd = some x →
        hasCyclicDependenciesRecursive g (fuel + 1) c vg vd = some x
  | 0, c, vg, vd, x, hx => by simp [hasCyclicDependenciesRecursive] at hx
  | fuel + 1, c, vg, vd, x, hx => by
    unfold hasCyclicDependenciesRecursive at hx ⊢
    cases h1 : cyclicLoop (hasCyclicDependenciesRecursive g fuel) (g.adj c)
        (vg.insert c) vd with
    | none => simp [h1] at hx
    | some y =>
      rw [h1] at hx
      rw [cyclicLoop_mono (hasCyclicDependenciesRecursive_succ g fuel) _ _ _ y h1]
      exact hx

theorem hasCyclicDependenciesRecursive_le (g : ComponentGraph) {f1 f2 : Nat} (hle : f1 ≤ f2)
    (c : String) (vg vd : List String) (x : Bool × List String × List String)
    (hx : hasCyclicDependenciesRecursive g f1 c vg vd = some x) :
    hasCyclicDependenciesRecursive g f2 c vg vd = some x := by
  induction hle with
  | refl => exact hx
  | step _ ih => exact hasCyclicDependenciesRecursive_succ g _ c vg vd x ih

theorem topologicalLoop_mono
    {r1 r2 : String → List String → List String → Option (List String × List String)}
    (h : ∀ c vd res x, r1 c vd res = some x → r2 c vd res = some x) :
    ∀ (deps vd res : List String) (x : List String × List String),
      topologicalLoop r1 deps vd res = some x → topologicalLoop r2 deps vd res = some x
  | [], vd, res, x, hx => by simpa [topologicalLoop] using hx
  | dep :: rest, vd, res, x, hx => by
    unfold topologicalLoop at hx ⊢
    split
    · next hvd =>
      rw [if_pos hvd] at hx
      cases h1 : r1 dep vd res with
      | none => simp [h1] at hx
      | some y =>
        rw [h1] at hx
        rw [h dep vd res y h1]
        exact topologicalLoop_mono h rest y.1 y.2 x hx
    · next hvd =>
      rw [if_neg hvd] at hx
      exact topologicalLoop_mono h rest vd res x hx

theorem topologicalSortRecursive_succ (g : ComponentGraph) :
    ∀ (fuel : Nat) (c : String) (vd res : List String) (x : List String × List String),
      topologicalSortRecursive g fuel c vd res = some x →
        topologicalSortRecursive g (fuel + 1) c vd res = some x
  | 0, c, vd, res, x, hx => by simp [topologicalSortRecursive] at hx
  | fuel + 1, c, vd, res, x, hx => by
    unfold topologicalSortRecursive at hx ⊢
    cases h1 : topologicalLoop (topologicalSortRecursive g fuel) (g.adj c)
        (vd.insert c) res with
    | none => simp [h1] at hx
    | some y =>
      rw [h1] at hx
      rw [topologicalLoop_mono (topologicalSortRecursive_succ g fuel) _ _ _ y h1]
      exact hx

theorem topologicalSortRecursive_le (g : ComponentGraph) {f1 f2 : Nat} (hle : f1 ≤ f2)
    (c : String) (vd res : List String) (x : List String × List String)
    (hx : topologicalSortRecursive g f1 c vd res = some x) :
    topologicalSortRecursive g f2 c vd res = some x := by
  induction hle with
  | refl => exact hx
  | step _ ih => exact topologicalSortRecursive_succ g _ c vd res x ih

theorem cyclicLoop_guarded
    {r1 r2 : String → List String → List String → Option (Bool × List String × List String)}
    (h : ∀ c vg vd, c ∉ vg → c ∉ vd → r1 c vg vd = r2 c vg vd) :
    ∀ (deps vg vd : List String), cyclicLoop r1 deps vg vd = cyclicLoop r2 deps vg vd
  | [], vg, vd => by simp [cyclicLoop]
  | dep :: rest, vg, vd => by
    unfold cyclicLoop
    split
    · rfl
    · next hvg =>
      split
      · next hvd =>
        rw [h dep vg vd hvg hvd]
        cases r2 dep vg vd with
        | none => rfl
        | some y =>
          obtain ⟨b, vg1, vd1⟩ := y
          cases b
          · exact cyclicLoop_guarded h rest vg1 vd1
          · rfl
      · exact cyclicLoop_guarded h rest vg vd

theorem topologicalLoop_guarded
    {r1 r2 : String → List String → List String → Option (List String × List String)}
    (h : ∀ c vd res, c ∉ vd → r1 c vd res = r2 c vd res) :
    ∀ (deps vd res : List String), topologicalLoop r1 deps vd res = topologicalLoop r2 deps vd res
  | [], vd, res => by simp [topologicalLoop]
  | dep :: rest, vd, res => by
    unfold topologicalLoop
    split
    · next hvd =>
      rw [h dep vd res hvd]
      cases r2 dep vd res with
      | none => rfl
      | some y => exact topologicalLoop_guarded h rest y.1 y.2
    · exact topologicalLoop_guarded h rest vd res

theorem hasCyclicDependencies_total (s : ComponentDependencyAnalyzer) :
    ∃ b, hasCyclicDependencies s = some b := by
  obtain ⟨b, hb, _, _⟩ :=
    cyclicOuterLoop_run (hasCyclicDependenciesRecursive_spec (buildDependencyGraph s) _)
      (hasCyclicDependenciesRecursive_total (buildDependencyGraph s) (allNames s)
        (adj_mem_allNames s) (traversalFuel s))
      (allNames_length_le s) (StdMap.keys s.m_components) [] (keys_mem_allNames s)
      (cycInv_nil _)
  exact ⟨b, hb⟩

theorem reach_mem_of_closed {g : ComponentGraph} {order : List String}
    (hclosed : ∀ x ∈ order, ∀ m ∈ g.adj x, m ∈ order) {c x : String}
    (h : Relation.ReflTransGen g.Edge c x) (hc : c ∈ order) : x ∈ order := by
  induction h with
  | refl => exact hc
  | tail _ hyz ih => exact hclosed _ ih _ hyz

theorem dependency_analyzeProjectFrom_eq (s : ComponentDependencyAnalyzer)
    (X : List MonoBehaviourInfo) :
    s.analyzeProjectFrom X = analyzeProject X := rfl

theorem lifecycle_analyzeProjectFrom_eq (s : LifecycleAnalyzer) (X : List MonoBehaviourInfo) :
    s.analyzeProjectFrom X = LifecycleAnalyzer.analyzeProject X := rfl

theorem pattern_analyzeProjectFrom_eq (s : UnityPatternDetector) (X : List MonoBehaviourInfo)
    (g : ComponentGraph) :
    s.analyzeProjectFrom X g = UnityPatternDetector.analyzeProject X g := by
  simp [UnityPatternDetector.analyzeProjectFrom, UnityPatternDetector.analyzeProject,
    UnityPatternDetector.detect]

mutual
theorem analyzeNode_eq_foldl : ∀ (node : ASTNode) (s : CSharpParser),
    s.analyzeNode node = node.preorder.foldl CSharpParser.visit s
  | ASTNode.mk t x f a b children, s => by
    rw [CSharpParser.analyzeNode, ASTNode.preorder, List.foldl_cons]
    exact analyzeChildren_eq_foldl children _
theorem analyzeChildren_eq_foldl : ∀ (children : List ASTNode) (s : CSharpParser),
    s.analyzeChildren children = (ASTNode.preorderIn children).foldl CSharpParser.visit s
  | [], s => by simp [CSharpParser.analyzeChildren, ASTNode.preorderIn]
  | child :: rest, s => by
    rw [CSharpParser.analyzeChildren, ASTNode.preorderIn, List.foldl_append,
      analyzeNode_eq_foldl child s]
    exact analyzeChildren_eq_foldl rest _
end

theorem visit_classes (s : CSharpParser) (node : ASTNode) :
    (s.visit node).m_classes =
      s.m_classes ++
        (if node.getType = "class_declaration" then [extractClassInfo node] else []) := by
  unfold CSharpParser.visit
  by_cases h1 : node.getType = "using_directive"
  · simp [h1]
  · by_cases h2 : node.getType = "namespace_declaration"
    · rw [if_neg h1, if_pos h2]
      cases node.getChildByFieldName "name" <;> simp [h2]
    · by_cases h3 : node.getType = "class_declaration"
      · simp [h3]
      · by_cases h4 : node.getType = "method_declaration"
        · simp [h4]
        · by_cases h5 : node.getType = "field_declaration" <;> simp [h1, h2, h3, h4, h5]

theorem visit_methods (s : CSharpParser) (node : ASTNode) :
    (s.visit node).m_methods =
      s.m_methods ++
        (if node.getType = "method_declaration" then [extractMethodInfo node] else []) := by
  unfold CSharpParser.visit
  by_cases h1 : node.getType = "using_directive"
  · simp [h1]
  · by_cases h2 : node.getType = "namespace_declaration"
    · rw [if_neg h1, if_pos h2]
      cases node.getChildByFieldName "name" <;> simp [h2]
    · by_cases h3 : node.getType = "class_declaration"
      · simp [h3]
      · by_cases h4 : node.getType = "method_declaration"
        · simp [h4]
        · by_cases h5 : node.getType = "field_declaration" <;> simp [h1, h2, h3, h4, h5]

theorem visit_fields (s : CSharpParser) (node : ASTNode) :
    (s.visit node).m_fields =
      s.m_fields ++
        (if node.getType = "field_declaration" then [extractFieldInfo node] else []) := by
  unfold CSharpParser.visit
  by_cases h1 : node.getType = "using_directive"
  · simp [h1]
  · by_cases h2 : node.getType = "namespace_declaration"
    · rw [if_neg h1, if_pos h2]
      cases node.getChildByFieldName "name" <;> simp [h2]
    · by_cases h3 : node.getType = "class_declaration"
      · simp [h3]
      · by_cases h4 : node.getType = "method_declaration"
        · simp [h4]
        · by_cases h5 : node.getType = "field_declaration" <;> simp [h1, h2, h3, h4, h5]

theorem foldl_visit_classes : ∀ (nodes : List ASTNode) (s : CSharpParser),
    (nodes.foldl CSharpParser.visit s).m_classes =
      s.m_classes ++
        (nodes.filter (fun node => node.getType = "class_declaration")).map extractClassInfo
  | [], s => by simp
  | node :: rest, s => by
    rw [List.foldl_cons, foldl_visit_classes rest, visit_classes]
    by_cases h : node.getType = "class_declaration" <;> simp [h]

theorem foldl_visit_methods : ∀ (nodes : List ASTNode) (s : CSharpParser),
    (nodes.foldl CSharpParser.visit s).m_methods =
      s.m_methods ++
        (nodes.filter (fun node => node.getType = "method_declaration")).map extractMethodInfo
  | [], s => by simp
  | node :: rest, s => by
    rw [List.foldl_cons, foldl_visit_methods rest, visit_methods]
    by_cases h : node.getType = "method_declaration" <;> simp [h]

theorem foldl_visit_fields : ∀ (nodes : List ASTNode) (s : CSharpParser),
    (nodes.foldl CSharpParser.visit s).m_fields =
      s.m_fields ++
        (nodes.filter (fun node => node.getType = "field_declaration")).map extractFieldInfo
  | [], s => by simp
  | node :: rest, s => by
    rw [List.foldl_cons, foldl_visit_fields rest, visit_fields]
    by_cases h : node.getType = "field_declaration" <;> simp [h]

theorem parseCode_sampleTree (s : CSharpParser) :
    (s.parseCode (some sampleTree)).2 =
      { m_classes :=
          [{ name := "TestClass", base_class := "MonoBehaviour", attributes := [],
             start_line := 4, end_line := 13 },
           { name := "Inner", base_class := "", attributes := [], start_line := 11,
             end_line := 12 }]
        m_methods := [{ name := "Start", start_line := 7 }, { name := "Run", start_line := 12 }]
        m_fields :=
          [{ name := "speed", type := "float", attributes := [], access_modifier := "public" }]
        m_using_directives := ["using UnityEngine;"]
        m_namespace := "" } := by
  show (CSharpParser.parseCode
    { m_classes := [], m_methods := [], m_fields := [], m_using_directives := [],
      m_namespace := "" } (some sampleTree)).2 = _
  decide

theorem collectMonoBehaviours_eq (env : Environment) (acc : List MonoBehaviourInfo)
    (file_path : String) :
    collectMonoBehaviours env acc file_path =
      acc ++ (if analyzedSuccessfully env file_path then
        (MonoBehaviourAnalyzer.analyzeFile env file_path).2 else []) := by
  unfold collectMonoBehaviours analyzedSuccessfully
  cases hv : isValidCSharpFile env file_path
  · simp
  · rcases hf : MonoBehaviourAnalyzer.analyzeFile env file_path with ⟨flag, mbs⟩
    cases flag <;> simp

theorem foldl_collectMonoBehaviours (env : Environment) :
    ∀ (files : List String) (acc : List MonoBehaviourInfo),
      files.foldl (collectMonoBehaviours env) acc =
        acc ++ (files.filter (analyzedSuccessfully env)).flatMap
          (fun file_path => (MonoBehaviourAnalyzer.analyzeFile env file_path).2)
  | [], acc => by simp
  | file_path :: rest, acc => by
    rw [List.foldl_cons, foldl_collectMonoBehaviours env rest, collectMonoBehaviours_eq]
    cases h : analyzedSuccessfully env file_path <;> simp [h]

theorem analyzeProject_monobehaviours (env : Environment) (files : List String)
    (options : AnalysisOptions) :
    (CoreEngine.analyzeProject env files options).monobehaviours =
      (files.filter (analyzedSuccessfully env)).flatMap
        (fun file_path => (MonoBehaviourAnalyzer.analyzeFile env file_path).2) := by
  have h := foldl_collectMonoBehaviours env files []
  simp only [List.nil_append] at h
  unfold CoreEngine.analyzeProject
  simp only [h]
  cases options.analyze_dependencies <;> cases options.analyze_lifecycle <;>
    cases options.detect_patterns <;> (simp only [if_true, if_false, Bool.false_eq_true]; split <;> rfl)

theorem analyzeProject_success (env : Environment) (files : List String)
    (options : AnalysisOptions) :
    (CoreEngine.analyzeProject env files options).success =
      decide ((if options.analyze_scriptable_objects then
          ScriptableObjectAnalyzer.analyzeProject env files else none) = none ∧
        env.otherStages = none) := by
  unfold CoreEngine.analyzeProject
  simp only
  cases options.analyze_dependencies <;> cases options.analyze_lifecycle <;>
    cases options.detect_patterns <;>
    (simp only [if_true, if_false, Bool.false_eq_true]
     cases (if options.analyze_scriptable_objects = true then
        ScriptableObjectAnalyzer.analyzeProject env files else none) with
     | some what => simp
     | none =>
       cases env.otherStages with
       | some what => simp
       | none => simp)

theorem analyzeProject_error_message (env : Environment) (files : List String)
    (options : AnalysisOptions) :
    (CoreEngine.analyzeProject env files options).error_message =
      match (if options.analyze_scriptable_objects then
          ScriptableObjectAnalyzer.analyzeProject env files else none) with
      | some what => "Analysis failed: " ++ what
      | none =>
        match env.otherStages with
        | some what => "Analysis failed: " ++ what
        | none => "" := by
  unfold CoreEngine.analyzeProject
  simp only
  cases options.analyze_dependencies <;> cases options.analyze_lifecycle <;>
    cases options.detect_patterns <;>
    (simp only [if_true, if_false, Bool.false_eq_true]
     cases (if options.analyze_scriptable_objects = true then
        ScriptableObjectAnalyzer.analyzeProject env files else none) with
     | some what => simp
     | none =>
       cases env.otherStages with
       | some what => simp
       | none => simp)

theorem scriptableObject_missing_file (env : Environment) (file_path : String)
    (h : env.readFile file_path = none) :
    ScriptableObjectAnalyzer.analyzeProject env [file_path] = none := by
  simp [ScriptableObjectAnalyzer.analyzeProject, ScriptableObjectAnalyzer.analyzeFile, h]

theorem analyzeProject_no_components (env : Environment) (files : List String)
    (options : AnalysisOptions)
    (hnone : (files.filter (analyzedSuccessfully env)) = []) :
    (CoreEngine.analyzeProject env files options).monobehaviours = [] ∧
    (CoreEngine.analyzeProject env files options).dependency_graph = emptyGraph ∧
    (CoreEngine.analyzeProject env files options).lifecycle_flows = [] ∧
    (CoreEngine.analyzeProject env files options).patterns = [] := by
  have h := foldl_collectMonoBehaviours env files []
  rw [hnone] at h
  simp only [List.nil_append, List.flatMap_nil] at h
  unfold CoreEngine.analyzeProject
  simp only [h]
  cases options.analyze_dependencies <;> cases options.analyze_lifecycle <;>
    cases options.detect_patterns <;>
    (simp only [if_true, if_false, Bool.false_eq_true]
     split <;> exact ⟨rfl, rfl, rfl, rfl⟩)

theorem edge_eq_references (s : ComponentDependencyAnalyzer) :
    (buildDependencyGraph s).Edge = s.References := by
  funext a b
  exact propext mem_adj

theorem references_of_component_dependency {mbs : List MonoBehaviourInfo}
    {mb : MonoBehaviourInfo} (hmb : mb ∈ mbs) {b : String}
    (hb : b ∈ mb.component_dependencies) :
    (analyzeProject mbs).References mb.class_name b := by
  refine ⟨getComponentEdge mb.class_name b, ?_, rfl, rfl⟩
  rw [analyzeProject_dependencies]
  refine List.mem_append_left _ (List.mem_flatMap.2 ⟨mb, hmb, ?_⟩)
  rw [extract_eq]
  exact List.mem_append_left _ (List.mem_map_of_mem _ hb)

theorem adj_of_mem_dependencies (s : ComponentDependencyAnalyzer) {pair : String × List String}
    (h : pair ∈ (buildDependencyGraph s).dependencies) :
    (buildDependencyGraph s).adj pair.1 = pair.2 := by
  have hnd := nodup_of_sorted_strLt (sorted_keys_graph s).1
  rw [ComponentGraph.adj, StdMap.find_of_mem hnd h]
  rfl

theorem rev_of_mem_dependents (s : ComponentDependencyAnalyzer) {pair : String × List String}
    (h : pair ∈ (buildDependencyGraph s).dependents) :
    (buildDependencyGraph s).rev pair.1 = pair.2 := by
  have hnd := nodup_of_sorted_strLt (sorted_keys_graph s).2
  rw [ComponentGraph.rev, StdMap.find_of_mem hnd h]
  rfl

theorem stripLit_sound : ∀ {lit s r : List Char}, stripLit lit s = some r → s = lit ++ r
  | [], s, r, h => by
    simp only [stripLit, Option.some.injEq] at h
    simp [h]
  | _ :: _, [], r, h => by simp [stripLit] at h
  | l :: lit, c :: s, r, h => by
    simp only [stripLit] at h
    split at h
    · next hlc =>
      subst hlc
      rw [stripLit_sound h]
      rfl
    · simp at h

theorem matchAt_sound {pre post s w : List Char} {len : Nat}
    (h : matchAt pre post s = some (w, len)) :
    ∃ rest, s = pre ++ w ++ post ++ rest ∧ w ≠ [] ∧ (∀ c ∈ w, isWordChar c = true) ∧
      len = pre.length + w.length + post.length := by
  unfold matchAt at h
  split at h
  · simp at h
  · next r hr =>
    simp only at h
    split at h
    · simp at h
    · next hw =>
      split at h
      · simp at h
      · next rest hrest =>
        simp only [Option.some.injEq, Prod.mk.injEq] at h
        obtain ⟨rfl, rfl⟩ := h
        refine ⟨rest, ?_, hw, fun c hc => (List.mem_takeWhile_imp hc), rfl⟩
        rw [stripLit_sound hr, List.append_assoc, List.append_assoc, ← stripLit_sound hrest,
          List.takeWhile_append_dropWhile]

theorem takeWhile_word_append {w : List Char} (hw : ∀ c ∈ w, isWordChar c = true) (p : Char)
    (hp : isWordChar p = false) (rest : List Char) :
    (w ++ p :: rest).takeWhile isWordChar = w ∧
      (w ++ p :: rest).dropWhile isWordChar = p :: rest := by
  induction w with
  | nil => simp [List.takeWhile, List.dropWhile, hp]
  | cons c w ih =>
    have hc := hw c (List.mem_cons_self _ _)
    have := ih (fun d hd => hw d (List.mem_cons_of_mem _ hd))
    simp [List.takeWhile, List.dropWhile, hc, this]

theorem matchAt_complete (pre post1 : List Char) (p : Char) (hp : isWordChar p = false)
    {w : List Char} (hne : w ≠ []) (hw : ∀ c ∈ w, isWordChar c = true) (rest : List Char) :
    matchAt pre (p :: post1) (pre ++ w ++ (p :: post1) ++ rest) =
      some (w, pre.length + w.length + (p :: post1).length) := by
  unfold matchAt
  have h1 : pre ++ w ++ (p :: post1) ++ rest = pre ++ (w ++ p :: (post1 ++ rest)) := by simp
  rw [h1, stripLit_append]
  simp only
  obtain ⟨ht, hd⟩ := takeWhile_word_append hw p hp (post1 ++ rest)
  rw [ht, hd, if_neg hne]
  have h2 : p :: (post1 ++ rest) = (p :: post1) ++ rest := rfl
  rw [h2, stripLit_append]

theorem append_split {before x a y : List Char} (h : before ++ x = a ++ y) :
    (∃ a2, a2 ≠ [] ∧ a = before ++ a2 ∧ x = a2 ++ y) ∨ ∃ c, before = a ++ c ∧ y = c ++ x := by
  rcases List.append_eq_append_iff.1 h with ⟨a2, h1, h2⟩ | ⟨c, h1, h2⟩
  · by_cases ha : a2 = []
    · subst ha
      exact Or.inr ⟨[], by simpa using h1.symm, by simpa using h2.symm⟩
    · exact Or.inl ⟨a2, ha, h1, h2⟩
  · exact Or.inr ⟨c, h1, h2⟩

theorem accessorPattern_g_ne_l {g : Char} {body : List Char} {l p : Char} {post1 : List Char}
    (hpat : AccessorPattern g body l p post1) : g ≠ l := by
  intro h
  have := hpat.word_body g (List.mem_cons_self _ _)
  rw [h, hpat.not_word_l] at this
  exact absurd this (by decide)

theorem match_passes_no_site {g : Char} {body : List Char} {l p : Char} {post1 : List Char}
    (hpat : AccessorPattern g body l p post1)
    {before w after w1 rest : List Char} (hb : before ≠ [])
    (hw1 : ∀ c ∈ w1, isWordChar c = true)
    (h : before ++ ((g :: body ++ [l]) ++ w ++ (p :: post1) ++ after) =
      (g :: body ++ [l]) ++ w1 ++ (p :: post1) ++ rest) :
    (g :: body ++ [l]).length + w1.length + (p :: post1).length ≤ before.length := by
  have hgl := accessorPattern_g_ne_l hpat
  have hx : (g :: body ++ [l]) ++ w ++ (p :: post1) ++ after =
      g :: (body ++ l :: (w ++ (p :: post1) ++ after)) := by simp
  rw [hx] at h
  have h1 : (g :: body ++ [l]) ++ w1 ++ (p :: post1) ++ rest =
      (g :: body ++ [l]) ++ (w1 ++ ((p :: post1) ++ rest)) := by simp
  rw [h1] at h
  rcases append_split h with ⟨a2, ha2, hpre, hxa⟩ | ⟨c, hbc, hy⟩
  · exfalso
    cases before with
    | nil => exact hb rfl
    | cons b0 bt =>
      cases a2 with
      | nil => exact ha2 rfl
      | cons a0 a3 =>
        simp only [List.cons_append, List.cons.injEq] at hpre hxa
        obtain ⟨_, hbody⟩ := hpre
        obtain ⟨hg, _⟩ := hxa
        have hmem : g ∈ body ++ [l] := by
          rw [hbody, hg]
          simp
        rcases List.mem_append.1 hmem with hm | hm
        · exact hpat.g_not_body hm
        · exact hgl (by simpa using hm)
  · rcases append_split hy.symm with ⟨a2, ha2, hw1eq, hxa⟩ | ⟨c2, hc2, hy2⟩
    · exfalso
      have ha2w : ∀ d ∈ a2, isWordChar d = true := fun d hd =>
        hw1 d (by rw [hw1eq]; exact List.mem_append_right _ hd)
      have e1 := takeWhile_word_append hpat.word_body l hpat.not_word_l
        (w ++ (p :: post1) ++ after)
      have e2 := takeWhile_word_append ha2w p hpat.not_word_p (post1 ++ rest)
      have hform : g :: (body ++ l :: (w ++ (p :: post1) ++ after)) =
          (g :: body) ++ l :: (w ++ (p :: post1) ++ after) := rfl
      have hform2 : a2 ++ ((p :: post1) ++ rest) = a2 ++ p :: (post1 ++ rest) := rfl
      rw [hform, hform2] at hxa
      have hd : l :: (w ++ (p :: post1) ++ after) = p :: (post1 ++ rest) := by
        rw [← e1.2, ← e2.2, hxa]
      simp only [List.cons.injEq] at hd
      exact hpat.l_ne_p hd.1
    · rcases append_split hy2.symm with ⟨a2, ha2, hposteq, hxa⟩ | ⟨c3, hc3, _⟩
      · exfalso
        cases a2 with
        | nil => exact ha2 rfl
        | cons a0 a3 =>
          simp only [List.cons_append, List.cons.injEq] at hxa
          have hmem : g ∈ p :: post1 := by
            rw [hposteq, hxa.1]
            simp
          exact hpat.g_not_post hmem
      · rw [hbc, hc2, hc3]
        simp only [List.length_append]
        omega

theorem regexFindAll_match {pre post : List Char} {c : Char} {s w : List Char} {len : Nat}
    (h : matchAt pre post (c :: s) = some (w, len)) :
    regexFindAll pre post 0 (c :: s) = ⟨w⟩ :: regexFindAll pre post (len - 1) s := by
  simp [regexFindAll, h]

theorem regexFindAll_no_match {pre post : List Char} {c : Char} {s : List Char}
    (h : matchAt pre post (c :: s) = none) :
    regexFindAll pre post 0 (c :: s) = regexFindAll pre post 0 s := by
  simp [regexFindAll, h]

theorem mem_regexFindAll_of_site {g : Char} {body : List Char} {l p : Char}
    {post1 : List Char} (hpat : AccessorPattern g body l p post1)
    {w : List Char} (hne : w ≠ []) (hw : ∀ c ∈ w, isWordChar c = true) (after : List Char) :
    ∀ (before : List Char) (skip : Nat), skip ≤ before.length →
      (⟨w⟩ : String) ∈ regexFindAll (g :: body ++ [l]) (p :: post1) skip
        (before ++ ((g :: body ++ [l]) ++ w ++ (p :: post1) ++ after))
  | [], skip, hskip => by
    have h0 : skip = 0 := by simpa using hskip
    subst h0
    have hm := matchAt_complete (g :: body ++ [l]) post1 p hpat.not_word_p hne hw after
    rw [List.nil_append]
    have hx : (g :: body ++ [l]) ++ w ++ (p :: post1) ++ after =
        g :: (body ++ [l] ++ w ++ (p :: post1) ++ after) := by simp
    rw [hx] at hm ⊢
    rw [regexFindAll_match hm]
    exact List.mem_cons_self _ _
  | c :: before, 0, _ => by
    show (⟨w⟩ : String) ∈ regexFindAll (g :: body ++ [l]) (p :: post1) 0
      (c :: (before ++ ((g :: body ++ [l]) ++ w ++ (p :: post1) ++ after)))
    cases hm : matchAt (g :: body ++ [l]) (p :: post1)
        (c :: (before ++ ((g :: body ++ [l]) ++ w ++ (p :: post1) ++ after))) with
    | none =>
      rw [regexFindAll_no_match hm]
      exact mem_regexFindAll_of_site hpat hne hw after before 0 (Nat.zero_le _)
    | some found =>
      obtain ⟨w1, len⟩ := found
      rw [regexFindAll_match hm]
      obtain ⟨rest, heq, hw1ne, hw1, hlen⟩ := matchAt_sound hm
      have hle := match_passes_no_site hpat (List.cons_ne_nil c before) hw1 heq
      refine List.mem_cons_of_mem _
        (mem_regexFindAll_of_site hpat hne hw after before (len - 1) ?_)
      rw [hlen]
      simp only [List.length_cons] at hle ⊢
      omega
  | c :: before, skip + 1, hskip => by
    show (⟨w⟩ : String) ∈ regexFindAll (g :: body ++ [l]) (p :: post1) skip _
    exact mem_regexFindAll_of_site hpat hne hw after before skip
      (by simpa using hskip)

theorem regexFindAll_sound {pre post : List Char} {x : String} :
    ∀ (s : List Char) (skip : Nat), x ∈ regexFindAll pre post skip s →
      ∃ before w after, s = before ++ (pre ++ w ++ post ++ after) ∧ x = ⟨w⟩ ∧ w ≠ [] ∧
        ∀ c ∈ w, isWordChar c = true
  | [], _, h => by simp [regexFindAll] at h
  | c :: s, skip + 1, h => by
    have h1 : x ∈ regexFindAll pre post skip s := h
    obtain ⟨before, w, after, hs, hx, hne, hw⟩ := regexFindAll_sound s skip h1
    exact ⟨c :: before, w, after, by rw [hs]; rfl, hx, hne, hw⟩
  | c :: s, 0, h => by
    cases hm : matchAt pre post (c :: s) with
    | none =>
      rw [regexFindAll_no_match hm] at h
      obtain ⟨before, w, after, hs, hx, hne, hw⟩ := regexFindAll_sound s 0 h
      exact ⟨c :: before, w, after, by rw [hs]; rfl, hx, hne, hw⟩
    | some found =>
      obtain ⟨w1, len⟩ := found
      rw [regexFindAll_match hm] at h
      rcases List.mem_cons.1 h with h | h
      · obtain ⟨rest, heq, hw1ne, hw1, _⟩ := matchAt_sound hm
        exact ⟨[], w1, rest, by rw [heq]; rfl, h, hw1ne, hw1⟩
      · obtain ⟨before, w, after, hs, hx, hne, hw⟩ := regexFindAll_sound s (len - 1) h
        exact ⟨c :: before, w, after, by rw [hs]; rfl, hx, hne, hw⟩

theorem mem_regexFindAll_iff {g : Char} {body : List Char} {l p : Char}
    {post1 : List Char} (hpat : AccessorPattern g body l p post1) (s : List Char)
    (x : String) :
    x ∈ regexFindAll (g :: body ++ [l]) (p :: post1) 0 s ↔
      x.data ≠ [] ∧ (∀ c ∈ x.data, isWordChar c = true) ∧
        ∃ before after, s = before ++ ((g :: body ++ [l]) ++ x.data ++ (p :: post1)) ++ after := by
  constructor
  · intro h
    obtain ⟨before, w, after, hs, hx, hne, hw⟩ := regexFindAll_sound s 0 h
    subst hx
    exact ⟨hne, hw, before, after, by rw [hs]; simp⟩
  · rintro ⟨hne, hw, before, after, hs⟩
    have := mem_regexFindAll_of_site hpat hne hw after before 0 (Nat.zero_le _)
    rw [hs]
    have hx : before ++ ((g :: body ++ [l]) ++ x.data ++ (p :: post1)) ++ after =
        before ++ ((g :: body ++ [l]) ++ x.data ++ (p :: post1) ++ after) := by simp
    rw [hx]
    exact this

theorem accessorPattern_getComponent :
    AccessorPattern 'G' "etComponent".data '<' '>' "()".data :=
  ⟨by decide, by decide, by decide, by decide, by decide, by decide⟩

theorem accessorPattern_inChildren :
    AccessorPattern 'G' "etComponentInChildren".data '<' '>' "()".data :=
  ⟨by decide, by decide, by decide, by decide, by decide, by decide⟩

theorem accessorPattern_inParent :
    AccessorPattern 'G' "etComponentInParent".data '<' '>' "()".data :=
  ⟨by decide, by decide, by decide, by decide, by decide, by decide⟩

theorem mem_extractGetComponentCalls_iff (source_code T : String) :
    T ∈ extractGetComponentCalls source_code ↔ HasCallSite source_code T := by
  have h1 : T ∈ regexFindAll "GetComponent<".data ">()".data 0 source_code.data ↔ _ :=
    mem_regexFindAll_iff accessorPattern_getComponent source_code.data T
  have h2 : T ∈ regexFindAll "GetComponentInChildren<".data ">()".data 0 source_code.data ↔ _ :=
    mem_regexFindAll_iff accessorPattern_inChildren source_code.data T
  have h3 : T ∈ regexFindAll "GetComponentInParent<".data ">()".data 0 source_code.data ↔ _ :=
    mem_regexFindAll_iff accessorPattern_inParent source_code.data T
  unfold extractGetComponentCalls HasCallSite
  rw [mem_stdUnique, mem_stdSort, List.mem_append, List.mem_append, h1, h2, h3]
  constructor
  · rintro ((⟨hne, hw, before, after, hs⟩ | ⟨hne, hw, before, after, hs⟩) |
      ⟨hne, hw, before, after, hs⟩)
    · exact ⟨hne, hw, "GetComponent", by simp, before, after, hs⟩
    · exact ⟨hne, hw, "GetComponentInChildren", by simp, before, after, hs⟩
    · exact ⟨hne, hw, "GetComponentInParent", by simp, before, after, hs⟩
  · rintro ⟨hne, hw, accessor, hacc, before, after, hs⟩
    simp only [List.mem_cons, List.mem_singleton, List.not_mem_nil, or_false] at hacc
    rcases hacc with rfl | rfl | rfl
    · exact Or.inl (Or.inl ⟨hne, hw, before, after, hs⟩)
    · exact Or.inl (Or.inr ⟨hne, hw, before, after, hs⟩)
    · exact Or.inr ⟨hne, hw, before, after, hs⟩

theorem laterStages_empty (env : Environment) (world : LaterStages)
    (generate_metadata generate_context : Bool) :
    ∃ outcome, CoreEngine.laterStages env world [] [] emptyGraph [] [] generate_metadata
      generate_context = Except.ok outcome := by
  cases hai : world.ai_enabled <;> cases generate_metadata <;> cases generate_context <;>
    (simp only [CoreEngine.laterStages, UnityAPIDetector.analyzeProject,
      CoreEngine.runAIAnalysis, hai, ProjectMetadataGenerator.analyzeProject,
      ComponentMetadataGenerator.analyzeProject, if_true, if_false, Bool.false_eq_true]
     exact ⟨_, rfl⟩)

theorem forRun_otherStages_empty (env : Environment) (world : LaterStages)
    (options : AnalysisOptions) (generate_metadata generate_context : Bool) :
    (env.forRun world [] options generate_metadata generate_context).otherStages = none := by
  obtain ⟨h1, h2, h3, h4⟩ := analyzeProject_no_components env [] options rfl
  obtain ⟨outcome, hout⟩ := laterStages_empty env world generate_metadata generate_context
  simp only [Environment.forRun, h1, h2, h3, h4, hout]

theorem analyzeFile_records (env : Environment) (file_path source_code : String)
    (root : ASTNode) (hread : env.readFile file_path = some source_code)
    (htree : env.treeSitter source_code = some root) :
    (MonoBehaviourAnalyzer.analyzeFile env file_path).2 =
      (((root.preorder.filter (fun node => node.getType = "class_declaration")).map
          extractClassInfo).filter isMonoBehaviour).map (fun class_info =>
        ComponentInput.record
          { class_info := class_info
            methods :=
              (root.preorder.filter (fun node => node.getType = "method_declaration")).map
                extractMethodInfo
            fields :=
              (root.preorder.filter (fun node => node.getType = "field_declaration")).map
                extractFieldInfo
            file_path := file_path
            source_code := source_code }) := by
  simp only [MonoBehaviourAnalyzer.analyzeFile, Environment.parseFile, hread, htree,
    CSharpParser.parseCode, analyzeCode, analyzeNode_eq_foldl, foldl_visit_classes,
    foldl_visit_methods, foldl_visit_fields, List.nil_append]
  rfl

/-! ## The claims -/

/-- C1: in the graph built from any analyzer state (so in particular after any
`analyzeProject` or sequence of `addMonoBehaviour`), `B` is in `dependencies[A]` exactly
when `A` is in `dependents[B]`. -/
theorem adjacency_reverse_inverse (s : ComponentDependencyAnalyzer) (a b : String) :
    b ∈ (buildDependencyGraph s).adj a ↔ a ∈ (buildDependencyGraph s).rev b := by
  rw [mem_adj, mem_rev]

/-- C5: in the graph built from any analyzer state every list of `dependencies` and of
`dependents` is strictly ascending (so it holds no name twice), and `B` is in
`dependencies[A]` exactly when the raw edge list `m_dependencies` of the analyzer holds an
edge with source `A` and target `B`: for the lookup `dependencies[A]` (empty when `A` is no
key) and for every entry of the map; likewise `A` is in `dependents[B]` exactly then, and
the `edges` of the graph are that raw edge list. -/
theorem lists_strictly_sorted_and_from_edges (s : ComponentDependencyAnalyzer) :
    (∀ pair ∈ (buildDependencyGraph s).dependencies, List.Sorted strLt pair.2) ∧
    (∀ pair ∈ (buildDependencyGraph s).dependents, List.Sorted strLt pair.2) ∧
    (∀ a b : String, b ∈ (buildDependencyGraph s).adj a ↔
      ∃ dep ∈ s.m_dependencies, dep.source_component = a ∧ dep.target_component = b) ∧
    (∀ a b : String, a ∈ (buildDependencyGraph s).rev b ↔
      ∃ dep ∈ s.m_dependencies, dep.source_component = a ∧ dep.target_component = b) ∧
    (∀ pair ∈ (buildDependencyGraph s).dependencies, ∀ b : String, b ∈ pair.2 ↔
      ∃ dep ∈ s.m_dependencies, dep.source_component = pair.1 ∧ dep.target_component = b) ∧
    (∀ pair ∈ (buildDependencyGraph s).dependents, ∀ a : String, a ∈ pair.2 ↔
      ∃ dep ∈ s.m_dependencies, dep.source_component = a ∧ dep.target_component = pair.1) ∧
    (buildDependencyGraph s).edges = s.m_dependencies := by
  refine ⟨fun pair h => sorted_values_sortUniqueValues h,
    fun pair h => sorted_values_sortUniqueValues h, fun a b => mem_adj, fun a b => mem_rev,
    fun pair h b => ?_, fun pair h a => ?_, buildDependencyGraph_edges s⟩
  · rw [← adj_of_mem_dependencies s h]
    exact mem_adj
  · rw [← rev_of_mem_dependents s h]
    exact mem_rev

/-- C2: for every reachable analyzer state `hasCyclicDependencies` returns, and it returns
true exactly when the references between components (the raw edges `m_dependencies` of the
state) form a nonempty directed path from some name back to itself; in particular it returns
true when `A` references `B` and `B` references `A`, and when `A` references itself. The
graph that `buildDependencyGraph` makes of the state has a cycle exactly then. For the
records handed to `analyzeProject`: when the record of `A` declares `B` among its component
dependencies and the record of `B` declares `A`, the answer after `analyzeProject` is true. -/
theorem hasCyclicDependencies_iff_cycle (s : ComponentDependencyAnalyzer) (h : Reachable s) :
    (∃ b, hasCyclicDependencies s = some b) ∧
    (hasCyclicDependencies s = some true ↔ ∃ n : String, Relation.TransGen s.References n n) ∧
    (∀ a b : String, s.References a b → s.References b a →
      hasCyclicDependencies s = some true) ∧
    (∀ a : String, s.References a a → hasCyclicDependencies s = some true) ∧
    (hasCyclicDependencies s = some true ↔ (buildDependencyGraph s).HasCycle) ∧
    ∀ (monobehaviours : List MonoBehaviourInfo) (a b : MonoBehaviourInfo),
      a ∈ monobehaviours → b ∈ monobehaviours →
      b.class_name ∈ a.component_dependencies → a.class_name ∈ b.component_dependencies →
      hasCyclicDependencies (analyzeProject monobehaviours) = some true := by
  have hrun := fun t ht => hasCyclicDependencies_run t ht
  have hs := hrun s h
  rw [ComponentGraph.HasCycle, edge_eq_references] at hs
  refine ⟨hs.1, hs.2.1, hs.2.2.1, hs.2.2.2, (hrun s h).2.1, fun mbs a b ha hb hab hba => ?_⟩
  have ht := hrun (analyzeProject mbs) (Reachable.analyze mbs)
  rw [edge_eq_references] at ht
  exact ht.2.2.1 _ _ (references_of_component_dependency ha hab)
    (references_of_component_dependency hb hba)

/-- C2, at the two components `A` and `B` that reference each other: the state after
`analyzeProject` is reachable, its raw edges lead from `A` back to `A`, and
`hasCyclicDependencies` returns true. -/
theorem hasCyclicDependencies_iff_cycle_witness :
    Reachable (analyzeProject [simpleComponent "A" ["B"], simpleComponent "B" ["A"]]) ∧
    (analyzeProject [simpleComponent "A" ["B"], simpleComponent "B" ["A"]]).m_dependencies =
      [getComponentEdge "A" "B", getComponentEdge "B" "A"] ∧
    hasCyclicDependencies
      (analyzeProject [simpleComponent "A" ["B"], simpleComponent "B" ["A"]]) = some true ∧
    ∃ n : String, Relation.TransGen
      (analyzeProject [simpleComponent "A" ["B"], simpleComponent "B" ["A"]]).References n n :=
  ⟨Reachable.analyze _, by decide,
    (hasCyclicDependencies_iff_cycle
        (analyzeProject [simpleComponent "A" ["B"], simpleComponent "B" ["A"]])
        (Reachable.analyze _)).2.2.2.2.2
      [simpleComponent "A" ["B"], simpleComponent "B" ["A"]]
      (simpleComponent "A" ["B"]) (simpleComponent "B" ["A"])
      (by simp) (by simp) (by decide) (by decide),
    (hasCyclicDependencies_iff_cycle _ (Reachable.analyze _)).2.1.1 (by decide)⟩

/-- C3: for every reachable analyzer state whose dependency graph has no cycle,
`getTopologicalOrder` returns an order in which, for every edge `A -> B` (`A` depends on
`B`), both names occur and `A` comes strictly before `B`; and for a component `A` that
references another component `B`, `B` without dependencies, the order is exactly `[A, B]`. -/
theorem topologicalOrder_dependents_first (s : ComponentDependencyAnalyzer) (h : Reachable s)
    (hac : ¬ (buildDependencyGraph s).HasCycle) :
    (∃ order, getTopologicalOrder s = some order ∧
      ∀ a b : String, (buildDependencyGraph s).Edge a b →
        a ∈ order ∧ b ∈ order ∧ order.indexOf a < order.indexOf b) ∧
    ∀ a b : String, a ≠ b →
      getTopologicalOrder (analyzeProject [simpleComponent a [b], simpleComponent b []]) =
        some [a, b] := by
  obtain ⟨order, heq, hnd, hkeys, _, _, hord⟩ := getTopologicalOrder_run s
  refine ⟨⟨order, heq, fun a b hab => ?_⟩, scenario_order⟩
  have ha : a ∈ order := hkeys a (edge_source_registered h hab)
  obtain ⟨hb, hlt⟩ := orderedClosed_indexOf_lt (hord hac) hnd a ha b hab
  exact ⟨ha, hb, hlt⟩

/-- C3, at the component `A` that references `B`, `B` without dependencies. -/
theorem topologicalOrder_dependents_first_witness :
    Reachable (analyzeProject [simpleComponent "A" ["B"], simpleComponent "B" []]) ∧
    ¬ (buildDependencyGraph
        (analyzeProject [simpleComponent "A" ["B"], simpleComponent "B" []])).HasCycle ∧
    ((∃ order,
      getTopologicalOrder (analyzeProject [simpleComponent "A" ["B"], simpleComponent "B" []]) =
        some order ∧
      ∀ a b : String,
        (buildDependencyGraph
          (analyzeProject [simpleComponent "A" ["B"], simpleComponent "B" []])).Edge a b →
        a ∈ order ∧ b ∈ order ∧ order.indexOf a < order.indexOf b) ∧
    ∀ a b : String, a ≠ b →
      getTopologicalOrder (analyzeProject [simpleComponent a [b], simpleComponent b []]) =
        some [a, b]) :=
  ⟨Reachable.analyze _, not_hasCycle_of_false (Reachable.analyze _) (by decide),
    topologicalOrder_dependents_first _ (Reachable.analyze _)
      (not_hasCycle_of_false (Reachable.analyze _) (by decide))⟩

/-- C4, refuted as stated: for the single component `A` that calls `GetComponent<Rigidbody>()`
the returned order is `["A", "Rigidbody"]`, which is no permutation of the registered
components `["A"]`. -/
theorem topologicalOrder_not_permutation :
    getTopologicalOrder (analyzeProject [simpleComponent "A" ["Rigidbody"]]) =
      some ["A", "Rigidbody"] ∧
    StdMap.keys (analyzeProject [simpleComponent "A" ["Rigidbody"]]).m_components = ["A"] ∧
    ¬ List.Perm ["A", "Rigidbody"] ["A"] := by
  refine ⟨by decide, by decide, fun h => ?_⟩
  have := h.length_eq
  simp at this

/-- C4, amended: for every reachable analyzer state `getTopologicalOrder` returns a list
without repetition that contains every registered component, and every other name in it is
the target of a raw edge; when every edge target is a registered component, the list is a
permutation of the registered components. -/
theorem topologicalOrder_covers_components (s : ComponentDependencyAnalyzer) (h : Reachable s) :
    ∃ order, getTopologicalOrder s = some order ∧ order.Nodup ∧
      (∀ c ∈ StdMap.keys s.m_components, c ∈ order) ∧
      (∀ x ∈ order, x ∈ StdMap.keys s.m_components ∨
        ∃ dep ∈ s.m_dependencies, dep.target_component = x) ∧
      ((∀ dep ∈ s.m_dependencies, dep.target_component ∈ StdMap.keys s.m_components) →
        order.Perm (StdMap.keys s.m_components)) := by
  obtain ⟨order, heq, hnd, hkeys, _, hreach, _⟩ := getTopologicalOrder_run s
  have hmem : ∀ x ∈ order, x ∈ StdMap.keys s.m_components ∨
      ∃ dep ∈ s.m_dependencies, dep.target_component = x :=
    fun x hx => mem_order_registered_or_target (hreach x hx)
  refine ⟨order, heq, hnd, hkeys, hmem, fun hall => ?_⟩
  rw [List.perm_ext_iff_of_nodup hnd (nodup_of_sorted_strLt (reachable_keysSorted h))]
  intro x
  refine ⟨fun hx => ?_, hkeys x⟩
  rcases hmem x hx with hx | ⟨dep, hdep, rfl⟩
  · exact hx
  · exact hall dep hdep

/-- C4 amended, at the components `A`, which references `B`, and `B`. -/
theorem topologicalOrder_covers_components_witness :
    Reachable (analyzeProject [simpleComponent "A" ["B"], simpleComponent "B" []]) ∧
    ∃ order,
      getTopologicalOrder (analyzeProject [simpleComponent "A" ["B"], simpleComponent "B" []]) =
        some order ∧
      order.Nodup ∧
      (∀ c ∈ StdMap.keys
          (analyzeProject [simpleComponent "A" ["B"], simpleComponent "B" []]).m_components,
        c ∈ order) ∧
      (∀ x ∈ order,
        x ∈ StdMap.keys
            (analyzeProject [simpleComponent "A" ["B"], simpleComponent "B" []]).m_components ∨
        ∃ dep ∈ (analyzeProject [simpleComponent "A" ["B"], simpleComponent "B" []]).m_dependencies,
          dep.target_component = x) ∧
      ((∀ dep ∈
          (analyzeProject [simpleComponent "A" ["B"], simpleComponent "B" []]).m_dependencies,
          dep.target_component ∈ StdMap.keys
            (analyzeProject [simpleComponent "A" ["B"], simpleComponent "B" []]).m_components) →
        order.Perm (StdMap.keys
          (analyzeProject [simpleComponent "A" ["B"], simpleComponent "B" []]).m_components)) :=
  ⟨Reachable.analyze _, topologicalOrder_covers_components _ (Reachable.analyze _)⟩

/-- C6, refuted as stated: the component `A` that `analyzeCode` produces for a class with the
attribute `RequireComponent(typeof(Rigidbody))` has one declared dependency, and
`analyzeProject` gives it two raw edges, one of kind `GetComponent` and one of kind
`RequireComponent`. -/
theorem raw_edges_exceed_declared :
    (analyzeCode (some requireRigidbodyFile) "A.cs").2.map
        (fun mb => (mb.class_name, mb.component_dependencies)) = [("A", ["Rigidbody"])] ∧
    (analyzeProject (analyzeCode (some requireRigidbodyFile) "A.cs").2).m_dependencies.map
        (fun dep => (dep.source_component, dep.target_component, dep.dependency_type)) =
      [("A", "Rigidbody", "GetComponent"), ("A", "Rigidbody", "RequireComponent")] := by
  decide

/-- C6, amended: after `analyzeProject` the raw edges of kind `GetComponent` that leave a name
are, in order, one per entry of the declared-dependency lists of the records with that class
name, duplicates retained; their number is the sum of the lengths of these lists. -/
theorem getComponent_edges_match_declared (mbs : List MonoBehaviourInfo) (n : String) :
    (((analyzeProject mbs).m_dependencies.filter
        (fun dep => dep.source_component = n ∧ dep.dependency_type = "GetComponent")).map
      (fun dep => dep.target_component)) =
      (mbs.filter (fun mb => mb.class_name = n)).flatMap (fun mb => mb.component_dependencies) ∧
    ((analyzeProject mbs).m_dependencies.filter
        (fun dep => dep.source_component = n ∧ dep.dependency_type = "GetComponent")).length =
      ((mbs.filter (fun mb => mb.class_name = n)).map
        (fun mb => mb.component_dependencies.length)).sum := by
  have hlist : (((analyzeProject mbs).m_dependencies.filter
        (fun dep => dep.source_component = n ∧ dep.dependency_type = "GetComponent")).map
      (fun dep => dep.target_component)) =
      (mbs.filter (fun mb => mb.class_name = n)).flatMap
        (fun mb => mb.component_dependencies) := by
    rw [analyzeProject_dependencies, List.filter_append, List.map_append,
      filter_getComponent_flatMap]
    have h2 : (crossReferenceEdges (analyzeProject mbs).m_components).filter
        (fun dep => dep.source_component = n ∧ dep.dependency_type = "GetComponent") = [] := by
      rw [List.filter_eq_nil_iff]
      intro dep hdep
      simp [mem_crossReferenceEdges_kind hdep]
    rw [h2]
    simp
  refine ⟨hlist, ?_⟩
  have hlen := congrArg List.length hlist
  rw [List.length_map, List.length_flatMap] at hlen
  exact hlen

/-- C9, refuted as stated: of two records named `A`, the first declaring `X` and the second
declaring `Y`, both contribute to `dependencies["A"]`, while the second alone would give
`["Y"]`. -/
theorem earlier_record_still_contributes :
    (buildDependencyGraph
        (analyzeProject [simpleComponent "A" ["X"], simpleComponent "A" ["Y"]])).adj "A" =
      ["X", "Y"] ∧
    (buildDependencyGraph (analyzeProject [simpleComponent "A" ["Y"]])).adj "A" = ["Y"] := by
  decide

/-- C9, amended: when several records carry the same class name, the later one overwrites
the earlier one in the component map only. The outgoing dependencies of a name are the
declared dependencies and `RequireComponent` targets of every record with that name, together
with the types of the serialized fields of the last such record that are registered
components. -/
theorem duplicate_name_dependencies (mbs : List MonoBehaviourInfo) (n b : String) :
    StdMap.find (analyzeProject mbs).m_components n = lastNamed mbs n ∧
    (b ∈ (buildDependencyGraph (analyzeProject mbs)).adj n ↔
      (∃ mb ∈ mbs, mb.class_name = n ∧
        (b ∈ mb.component_dependencies ∨
          b ∈ extractRequireComponentAttributes mb.attributes)) ∨
      ∃ mb, lastNamed mbs n = some mb ∧ ∃ field ∈ mb.serialized_fields,
        fieldTypeOf field = some b ∧ ∃ mb2 ∈ mbs, mb2.class_name = b) := by
  refine ⟨find_analyzeProject mbs n, ?_⟩
  rw [mem_adj, analyzeProject_dependencies, ← mem_reference_edges]
  constructor
  · rintro ⟨dep, hdep, hs, ht⟩
    rcases List.mem_append.1 hdep with hdep | hdep
    · obtain ⟨mb, hmb, hdep⟩ := List.mem_flatMap.1 hdep
      refine Or.inl ⟨mb, hmb, ?_, mem_extract_target.1 ⟨dep, hdep, ht⟩⟩
      rw [← mem_extractDependenciesFromComponent hdep, hs]
    · refine Or.inr ?_
      obtain ⟨pair, hp, field, hf, t, _, _, heq⟩ := mem_crossReferenceEdges.1 hdep
      have : dep = referenceEdge n b := by
        rw [heq] at hs ht ⊢
        simp only [referenceEdge] at hs ht ⊢
        rw [hs, ht]
      exact this ▸ hdep
  · rintro (⟨mb, hmb, hn, hb⟩ | href)
    · obtain ⟨dep, hdep, ht⟩ := mem_extract_target.2 hb
      exact ⟨dep, List.mem_append_left _ (List.mem_flatMap.2 ⟨mb, hmb, hdep⟩),
        (mem_extractDependenciesFromComponent hdep).trans hn, ht⟩
    · exact ⟨_, List.mem_append_right _ href, rfl, rfl⟩

/-- C10, refuted as stated: in `Game.cs` the component class `A` declares no field; the one
field of the file, `public B target;`, is declared in the class `Helper`. The parser keeps
the fields of a file in one flat list and the analyzer hands that list to the record of
every component class of the file, so the records of `A` and of `B` both list
`target : B`, and the raw edges hold a `Reference` edge from `A` to `B` (and one from `B` to
itself). -/
theorem reference_edge_from_field_of_other_class :
    siblingFieldTree.getChildren =
      [siblingFieldClassA, siblingFieldClassHelper, siblingFieldClassB] ∧
    (extractClassInfo siblingFieldClassA).name = "A" ∧
    (siblingFieldClassA.findNodesByType "field_declaration").length = 0 ∧
    (siblingFieldClassHelper.findNodesByType "field_declaration").map extractFieldInfo =
      [{ name := "target", type := "B", attributes := [], access_modifier := "public" }] ∧
    (siblingFieldDisk.parseFile "Game.cs").map (fun parsed => parsed.fields) =
      some [{ name := "target", type := "B", attributes := [], access_modifier := "public" }] ∧
    (MonoBehaviourAnalyzer.analyzeFile siblingFieldDisk "Game.cs").2.map
        (fun mb => (mb.class_name, mb.serialized_fields)) =
      [("A", ["target : B"]), ("B", ["target : B"])] ∧
    (analyzeProject
        (MonoBehaviourAnalyzer.analyzeFile siblingFieldDisk "Game.cs").2).m_dependencies =
      [referenceEdge "A" "B", referenceEdge "B" "B"] := by
  refine ⟨rfl, by decide, by decide, by decide, by decide, by decide, by decide⟩

/-- C10, amended: after `analyzeProject` on the records built by `analyzeMonoBehaviour`, the
raw edge list has an edge of kind `Reference` from `A` to `T` exactly when the record in the
component map under `A` (the last input named `A`) was built from a field list with a public
or `SerializeField` field of type exactly `T`, and `T` is the class name of a component of
the run. Field names are identifiers: they hold no blank. The field list from which
`analyzeCode` and `analyzeFile` build the record of a class is the field list of the whole
file, one entry per `field_declaration` node of its syntax tree, whichever class of the file
declares the field. -/
theorem reference_edge_iff_serialized_field (inputs : List ComponentInput)
    (hnames : ∀ input ∈ inputs, ∀ fld ∈ input.fields, ' ' ∉ fld.name.data) (a t : String) :
    ((∃ dep ∈ (analyzeProject (inputs.map ComponentInput.record)).m_dependencies,
      dep.source_component = a ∧ dep.target_component = t ∧
        dep.dependency_type = "Reference") ↔
    ((∃ input, lastInputNamed inputs a = some input ∧ ∃ fld ∈ input.fields,
        (fld.access_modifier = "public" ∨
          hasUnityAttribute fld.attributes "SerializeField" = true) ∧ fld.type = t) ∧
      ∃ input2 ∈ inputs, input2.class_info.name = t)) ∧
    (∀ (parsed : ParsedFile) (file_path : String),
      (analyzeCode (some parsed) file_path).2 =
        (parsed.classes.filter isMonoBehaviour).map (fun class_info =>
          ComponentInput.record
            { class_info := class_info, methods := parsed.methods, fields := parsed.fields,
              file_path := file_path, source_code := parsed.source_code })) ∧
    ∀ (env : Environment) (file_path source_code : String) (root : ASTNode),
      env.readFile file_path = some source_code → env.treeSitter source_code = some root →
      (MonoBehaviourAnalyzer.analyzeFile env file_path).2 =
        (((root.preorder.filter (fun node => node.getType = "class_declaration")).map
            extractClassInfo).filter isMonoBehaviour).map (fun class_info =>
          ComponentInput.record
            { class_info := class_info
              methods :=
                (root.preorder.filter (fun node => node.getType = "method_declaration")).map
                  extractMethodInfo
              fields :=
                (root.preorder.filter (fun node => node.getType = "field_declaration")).map
                  extractFieldInfo
              file_path := file_path
              source_code := source_code }) := by
  refine ⟨?_, fun parsed file_path => rfl, analyzeFile_records⟩
  rw [reference_edge_mem_iff, mem_reference_edges, lastNamed_map_record]
  constructor
  · rintro ⟨mb, hmb, field, hf, ht, mb2, hmb2, hname2⟩
    obtain ⟨input, hin, rfl⟩ := Option.map_eq_some'.1 hmb
    obtain ⟨input2, hin2, rfl⟩ := List.mem_map.1 hmb2
    rw [record_serialized_fields, mem_extractSerializedFields] at hf
    obtain ⟨fld, hfld, hser, rfl⟩ := hf
    have hmem : input ∈ inputs := (List.mem_filter.1 (List.mem_of_getLast?_eq_some hin)).1
    rw [fieldTypeOf_serialized _ _ (hnames input hmem fld hfld)] at ht
    exact ⟨⟨input, hin, fld, hfld, hser, Option.some.inj ht⟩, input2, hin2,
      (record_class_name input2).symm.trans hname2⟩
  · rintro ⟨⟨input, hin, fld, hfld, hser, rfl⟩, input2, hin2, hname2⟩
    have hmem : input ∈ inputs := (List.mem_filter.1 (List.mem_of_getLast?_eq_some hin)).1
    refine ⟨input.record, by rw [hin]; rfl, fld.name ++ " : " ++ fld.type, ?_,
      fieldTypeOf_serialized _ _ (hnames input hmem fld hfld), input2.record,
      List.mem_map_of_mem _ hin2, (record_class_name input2).trans hname2⟩
    rw [record_serialized_fields, mem_extractSerializedFields]
    exact ⟨fld, hfld, hser, rfl⟩

/-- C10 amended, at the components `A`, with a public field of type `B` and a private field
of type `C`, and `B`: the raw edges hold a `Reference` edge from `A` to `B`. -/
theorem reference_edge_iff_serialized_field_witness :
    (∀ input ∈ fieldReferenceInputs, ∀ fld ∈ input.fields, ' ' ∉ fld.name.data) ∧
    ((∃ dep ∈ (analyzeProject (fieldReferenceInputs.map ComponentInput.record)).m_dependencies,
      dep.source_component = "A" ∧ dep.target_component = "B" ∧
        dep.dependency_type = "Reference") ↔
    ((∃ input, lastInputNamed fieldReferenceInputs "A" = some input ∧ ∃ fld ∈ input.fields,
        (fld.access_modifier = "public" ∨
          hasUnityAttribute fld.attributes "SerializeField" = true) ∧ fld.type = "B") ∧
      ∃ input2 ∈ fieldReferenceInputs, input2.class_info.name = "B")) ∧
    (analyzeProject (fieldReferenceInputs.map ComponentInput.record)).m_dependencies =
      [referenceEdge "A" "B"] :=
  ⟨by decide,
    (reference_edge_iff_serialized_field fieldReferenceInputs (by decide) "A" "B").1,
    by decide⟩

/-- C7, refuted as stated: the text of `A` has two call sites `GetComponent<T>()`, both found
by the regular expression, and the pipeline yields a single raw edge from `A` to `T`. -/
theorem two_call_sites_one_edge :
    regexFindAll "GetComponent<".data ">()".data 0 twoCallSitesFile.source_code.data =
      ["T", "T"] ∧
    (analyzeProject (analyzeCode (some twoCallSitesFile) "A.cs").2).m_dependencies =
      [getComponentEdge "A" "T"] := by
  decide

/-- C7, amended: a text has a typed-accessor call site for `T` when `GetComponent<T>()`,
`GetComponentInChildren<T>()` or `GetComponentInParent<T>()` stands somewhere in it, `T` a
nonempty run of word characters. `extractGetComponentCalls` lists exactly the types that
have a call site in the text, each once and in ascending order, however many call sites a
type has. So for a component without attributes and without fields, analysed alone, every
type `T` with a call site gets exactly one raw edge from the component to `T`, a
`GetComponent` edge, and every raw edge is the edge of such a type; `analyzeCode` builds
that record from a file with this one class. -/
theorem call_sites_deduplicated (input : ComponentInput)
    (hattrs : input.class_info.attributes = []) (hfields : input.fields = []) :
    (∀ T : String, T ∈ extractGetComponentCalls input.source_code ↔
      HasCallSite input.source_code T) ∧
    (∀ T : String, HasCallSite input.source_code T →
      getComponentEdge input.class_info.name T ∈
          (analyzeProject [input.record]).m_dependencies ∧
        (((analyzeProject [input.record]).m_dependencies.map
          (fun dep => dep.target_component)).count T) = 1) ∧
    (∀ dep ∈ (analyzeProject [input.record]).m_dependencies,
      dep = getComponentEdge input.class_info.name dep.target_component ∧
        HasCallSite input.source_code dep.target_component) ∧
    (analyzeProject [input.record]).m_dependencies =
      (extractGetComponentCalls input.source_code).map
        (getComponentEdge input.class_info.name) ∧
    List.Sorted strLt (extractGetComponentCalls input.source_code) ∧
    (isMonoBehaviour input.class_info = true →
      (analyzeCode
        (some { classes := [input.class_info], methods := input.methods,
                fields := input.fields, source_code := input.source_code })
        input.file_path).2 = [input.record]) := by
  have hedges : (analyzeProject [input.record]).m_dependencies =
      (extractGetComponentCalls input.source_code).map
        (getComponentEdge input.class_info.name) := by
    rw [analyzeProject_dependencies]
    have hcross : crossReferenceEdges (analyzeProject [input.record]).m_components = [] := by
      simp [analyzeProject, analyzeCrossComponentReferences, addMonoBehaviour,
        ComponentDependencyAnalyzer.init, StdMap.assign, crossReferenceEdges,
        record_serialized_fields, hfields, extractSerializedFields]
    rw [hcross]
    simp [extract_eq, record_component_dependencies, record_attributes, hattrs,
      extractRequireComponentAttributes, record_class_name]
  refine ⟨fun T => mem_extractGetComponentCalls_iff _ T, fun T hT => ⟨?_, ?_⟩,
    fun dep hdep => ?_, hedges, sorted_extractGetComponentCalls _, fun hmono => ?_⟩
  · rw [hedges]
    exact List.mem_map_of_mem _ ((mem_extractGetComponentCalls_iff _ T).2 hT)
  · rw [hedges, List.map_map]
    have hid : ((fun dep : ComponentDependency => dep.target_component) ∘
        getComponentEdge input.class_info.name) = id := rfl
    rw [hid, List.map_id]
    exact List.count_eq_one_of_mem
      (nodup_of_sorted_strLt (sorted_extractGetComponentCalls _))
      ((mem_extractGetComponentCalls_iff _ T).2 hT)
  · rw [hedges] at hdep
    obtain ⟨T, hT, rfl⟩ := List.mem_map.1 hdep
    exact ⟨rfl, (mem_extractGetComponentCalls_iff _ T).1 hT⟩
  · simp [analyzeCode, hmono, ComponentInput.record]

/-- C7 amended, at the component `A` whose text has two call sites `GetComponent<T>()`:
the type `T` has a call site and exactly one raw edge leads to it. -/
theorem call_sites_deduplicated_witness :
    twoCallSitesInput.class_info.attributes = [] ∧ twoCallSitesInput.fields = [] ∧
    HasCallSite twoCallSitesInput.source_code "T" ∧
    (((analyzeProject [twoCallSitesInput.record]).m_dependencies.map
      (fun dep => dep.target_component)).count "T") = 1 ∧
    (analyzeProject [twoCallSitesInput.record]).m_dependencies = [getComponentEdge "A" "T"] :=
  ⟨rfl, rfl, ((call_sites_deduplicated twoCallSitesInput rfl rfl).1 "T").1 (by decide),
    by decide, by decide⟩

/-- C8: when the class names are pairwise distinct, permuting the list given to
`analyzeProject` changes neither the `dependencies` map, nor the `dependents` map, nor the
result of `hasCyclicDependencies`, nor the list returned by `getTopologicalOrder`. -/
theorem permutation_invariance (mbs mbs2 : List MonoBehaviourInfo) (hperm : mbs.Perm mbs2)
    (hdistinct : (mbs.map (fun mb => mb.class_name)).Nodup) :
    (buildDependencyGraph (analyzeProject mbs)).dependencies =
      (buildDependencyGraph (analyzeProject mbs2)).dependencies ∧
    (buildDependencyGraph (analyzeProject mbs)).dependents =
      (buildDependencyGraph (analyzeProject mbs2)).dependents ∧
    hasCyclicDependencies (analyzeProject mbs) = hasCyclicDependencies (analyzeProject mbs2) ∧
    getTopologicalOrder (analyzeProject mbs) = getTopologicalOrder (analyzeProject mbs2) := by
  have hcomp := components_perm hperm hdistinct
  have hdeps := dependencies_perm hperm hdistinct
  have hmaps := graph_maps_perm hdeps
  have hfuel : traversalFuel (analyzeProject mbs) = traversalFuel (analyzeProject mbs2) := by
    simp only [traversalFuel, hcomp, hdeps.length_eq]
  refine ⟨hmaps.1, hmaps.2, ?_, ?_⟩
  · simp only [hasCyclicDependencies, hfuel, hcomp]
    exact cyclicOuterLoop_congr hmaps.1 _ _ _ _
  · simp only [getTopologicalOrder, hfuel, hcomp]
    rw [topologicalOuterLoop_congr hmaps.1]

/-- C8, at the components `A`, which references `B` and `C`, `B`, which references `C`, and
`C`, given in two different orders. -/
theorem permutation_invariance_witness :
    List.Perm [simpleComponent "A" ["C", "B"], simpleComponent "B" ["C"], simpleComponent "C" []]
      [simpleComponent "C" [], simpleComponent "A" ["C", "B"], simpleComponent "B" ["C"]] ∧
    ([simpleComponent "A" ["C", "B"], simpleComponent "B" ["C"], simpleComponent "C" []].map
      (fun mb => mb.class_name)).Nodup ∧
    ((buildDependencyGraph (analyzeProject
        [simpleComponent "A" ["C", "B"], simpleComponent "B" ["C"],
          simpleComponent "C" []])).dependencies =
      (buildDependencyGraph (analyzeProject
        [simpleComponent "C" [], simpleComponent "A" ["C", "B"],
          simpleComponent "B" ["C"]])).dependencies ∧
    (buildDependencyGraph (analyzeProject
        [simpleComponent "A" ["C", "B"], simpleComponent "B" ["C"],
          simpleComponent "C" []])).dependents =
      (buildDependencyGraph (analyzeProject
        [simpleComponent "C" [], simpleComponent "A" ["C", "B"],
          simpleComponent "B" ["C"]])).dependents ∧
    hasCyclicDependencies (analyzeProject
        [simpleComponent "A" ["C", "B"], simpleComponent "B" ["C"], simpleComponent "C" []]) =
      hasCyclicDependencies (analyzeProject
        [simpleComponent "C" [], simpleComponent "A" ["C", "B"], simpleComponent "B" ["C"]]) ∧
    getTopologicalOrder (analyzeProject
        [simpleComponent "A" ["C", "B"], simpleComponent "B" ["C"], simpleComponent "C" []]) =
      getTopologicalOrder (analyzeProject
        [simpleComponent "C" [], simpleComponent "A" ["C", "B"], simpleComponent "B" ["C"]])) :=
  ⟨by decide, by decide,
    permutation_invariance _ _ (by decide) (by decide)⟩

/-- C11: the flow that `analyzeComponent` stores for a component has one method record per
entry of the component's lifecycle-method list (the names are a permutation of the list),
each with the phase and order of its name, and the records are in non-decreasing canonical
order; for `Awake`, `Update`, `FixedUpdate` in any input order the records are
`Awake`, `Update`, `FixedUpdate` with phases Initialization, FrameUpdate, PhysicsUpdate. -/
theorem analyzeComponent_records_sorted (s : LifecycleAnalyzer) (mb : MonoBehaviourInfo) :
    ((s.analyzeComponent mb).getComponentLifecycle mb.class_name).methods.length =
      mb.unity_methods.length ∧
    (((s.analyzeComponent mb).getComponentLifecycle mb.class_name).methods.map
      (fun m => m.method_name)).Perm mb.unity_methods ∧
    List.Sorted (fun a b : LifecycleMethodInfo => a.execution_order ≤ b.execution_order)
      ((s.analyzeComponent mb).getComponentLifecycle mb.class_name).methods ∧
    (∀ m ∈ ((s.analyzeComponent mb).getComponentLifecycle mb.class_name).methods,
      m.phase = getMethodPhase m.method_name ∧
        m.execution_order = getMethodExecutionOrder m.method_name) ∧
    (mb.unity_methods.Perm ["Awake", "Update", "FixedUpdate"] →
      ((s.analyzeComponent mb).getComponentLifecycle mb.class_name).methods.map
          (fun m => m.method_name) = ["Awake", "Update", "FixedUpdate"] ∧
      ((s.analyzeComponent mb).getComponentLifecycle mb.class_name).methods.map
          (fun m => m.phase) =
        [LifecyclePhase.Initialization, LifecyclePhase.FrameUpdate,
          LifecyclePhase.PhysicsUpdate]) := by
  rw [getComponentLifecycle_analyzeComponent]
  have hperm := methods_perm mb
  refine ⟨?_, ?_, methods_sorted mb, fun m hm => ?_, fun h => ?_⟩
  · rw [hperm.length_eq, List.length_map]
  · have := hperm.map (fun m => m.method_name)
    rw [List.map_map] at this
    have hid : ((fun m : LifecycleMethodInfo => m.method_name) ∘ lifecycleMethodInfo mb) = id :=
      rfl
    rw [hid, List.map_id] at this
    exact this
  · have := methods_record mb hm
    constructor <;> (rw [this]; rfl)
  · have hnames := (methods_names mb).trans (scenario_three_methods _ h)
    refine ⟨hnames, ?_⟩
    rw [methods_phases, hnames]
    decide

/-- C11, at a component that lists `Update`, `FixedUpdate`, `Awake` in this order. -/
theorem analyzeComponent_records_sorted_witness :
    ((LifecycleAnalyzer.analyzeProject []).analyzeComponent
        (lifecycleComponent "Player" ["Update", "FixedUpdate", "Awake"])).getComponentLifecycle
      "Player" =
      componentLifecycleFlow (lifecycleComponent "Player" ["Update", "FixedUpdate", "Awake"]) ∧
    (componentLifecycleFlow
        (lifecycleComponent "Player" ["Update", "FixedUpdate", "Awake"])).methods.map
      (fun m => (m.method_name, m.phase, m.execution_order)) =
      [("Awake", LifecyclePhase.Initialization, 1), ("Update", LifecyclePhase.FrameUpdate, 100),
        ("FixedUpdate", LifecyclePhase.PhysicsUpdate, 101)] ∧
    ((((LifecycleAnalyzer.analyzeProject []).analyzeComponent
        (lifecycleComponent "Player" ["Update", "FixedUpdate", "Awake"])).getComponentLifecycle
      "Player").methods.map (fun m => m.method_name) = ["Awake", "Update", "FixedUpdate"] ∧
    (((LifecycleAnalyzer.analyzeProject []).analyzeComponent
        (lifecycleComponent "Player" ["Update", "FixedUpdate", "Awake"])).getComponentLifecycle
      "Player").methods.map (fun m => m.phase) =
        [LifecyclePhase.Initialization, LifecyclePhase.FrameUpdate,
          LifecyclePhase.PhysicsUpdate]) :=
  ⟨by decide, by decide,
    (analyzeComponent_records_sorted (LifecycleAnalyzer.analyzeProject [])
      (lifecycleComponent "Player" ["Update", "FixedUpdate", "Awake"])).2.2.2.2 (by decide)⟩

/-- C12, the defect: `OnTriggerEnter2D` is in the callback vocabulary and has the phase
PhysicsEvent, but `METHOD_EXECUTION_ORDER` has no entry for it and its order is the default
1000. Over the whole vocabulary: every name has a phase other than Custom, and the names with
the default order are exactly the six 2D physics callbacks. -/
theorem order_table_misses_2d_callbacks :
    isUnityMethod "OnTriggerEnter2D" = true ∧
    getMethodPhase "OnTriggerEnter2D" = LifecyclePhase.PhysicsEvent ∧
    getMethodExecutionOrder "OnTriggerEnter2D" = 1000 ∧
    ∀ n : String, isUnityMethod n = true →
      getMethodPhase n ≠ LifecyclePhase.Custom ∧
        (getMethodExecutionOrder n = 1000 ↔ n ∈ callbacksWithoutOrder) := by
  refine ⟨by decide, by decide, by decide, fun n hn => ?_⟩
  rw [isUnityMethod_iff] at hn
  revert n
  decide

/-- C13: a method name that is a key of neither table has the phase Custom and the order
1000; every order stored in the table is below 1000, so every name of the table sorts
before it. -/
theorem unknown_method_defaults (n : String) (hphase : n ∉ StdMap.keys METHOD_PHASES)
    (horder : n ∉ StdMap.keys METHOD_EXECUTION_ORDER) :
    getMethodPhase n = LifecyclePhase.Custom ∧ getMethodExecutionOrder n = 1000 ∧
    (∀ pair ∈ METHOD_EXECUTION_ORDER, pair.2 < 1000) ∧
    ∀ m ∈ StdMap.keys METHOD_EXECUTION_ORDER,
      getMethodExecutionOrder m < getMethodExecutionOrder n := by
  refine ⟨getMethodPhase_of_not_mem hphase, getMethodExecutionOrder_of_not_mem horder,
    stored_orders_lt, fun m hm => ?_⟩
  rw [getMethodExecutionOrder_of_not_mem horder]
  exact known_order_lt m hm

/-- C13, at the name `CustomMethod`. -/
theorem unknown_method_defaults_witness :
    "CustomMethod" ∉ StdMap.keys METHOD_PHASES ∧
    "CustomMethod" ∉ StdMap.keys METHOD_EXECUTION_ORDER ∧
    (getMethodPhase "CustomMethod" = LifecyclePhase.Custom ∧
      getMethodExecutionOrder "CustomMethod" = 1000 ∧
      (∀ pair ∈ METHOD_EXECUTION_ORDER, pair.2 < 1000) ∧
      ∀ m ∈ StdMap.keys METHOD_EXECUTION_ORDER,
        getMethodExecutionOrder m < getMethodExecutionOrder "CustomMethod") :=
  ⟨by decide, by decide, unknown_method_defaults "CustomMethod" (by decide) (by decide)⟩

/-- C14: the inferred data-flow list of a component contains `Input → Physics` exactly when
its lifecycle methods include both `Update` and `FixedUpdate`, `Physics → Rendering` exactly
when they include `FixedUpdate` and a method whose name contains `OnRender` or `OnDraw`, and
the single labels `Input Processing`, `Physics Update`, `Rendering` exactly when `Update`,
`FixedUpdate`, or such a rendering method is present. -/
theorem dataFlow_labels (mb : MonoBehaviourInfo) :
    ("Input → Physics" ∈ extractDataFlow mb ↔
      "Update" ∈ mb.unity_methods ∧ "FixedUpdate" ∈ mb.unity_methods) ∧
    ("Physics → Rendering" ∈ extractDataFlow mb ↔
      "FixedUpdate" ∈ mb.unity_methods ∧
        ∃ m ∈ mb.unity_methods,
          (strFind m "OnRender").isSome = true ∨ (strFind m "OnDraw").isSome = true) ∧
    ("Input Processing" ∈ extractDataFlow mb ↔ "Update" ∈ mb.unity_methods) ∧
    ("Physics Update" ∈ extractDataFlow mb ↔ "FixedUpdate" ∈ mb.unity_methods) ∧
    ("Rendering" ∈ extractDataFlow mb ↔
      ∃ m ∈ mb.unity_methods,
        (strFind m "OnRender").isSome = true ∨ (strFind m "OnDraw").isSome = true) := by
  have hren : ∀ m : String, ((strFind m "OnRender").isSome = true ∨
      (strFind m "OnDraw").isSome = true) ↔ isRenderingName m = true := by
    intro m
    simp [isRenderingName]
  simp only [hren]
  rw [extractDataFlow_eq]
  simp only [List.mem_append, mem_filterMap_dataFlowLabel]
  by_cases hu : "Update" ∈ mb.unity_methods <;>
    by_cases hf : "FixedUpdate" ∈ mb.unity_methods <;>
    by_cases hr : ∃ m ∈ mb.unity_methods, isRenderingName m = true <;>
    simp [hu, hf, hr]

/-- C16: `analyzeProject` emits the patterns of type Component Composition one per component
with 3 or more declared dependencies, in input order, each naming only that component; a
component has such an instance exactly when it has 3 or more declared dependencies; and the
confidence of every instance, so also for exactly 3 declared dependencies, is the binary32
value `0.95f`, which is what `0.5 + 3 * 0.15` gives after the clamp. -/
theorem composition_pattern_iff (mbs : List MonoBehaviourInfo) (g : ComponentGraph) :
    (UnityPatternDetector.analyzeProject mbs g).getPatternsByType
        UnityPattern.ComponentComposition =
      (mbs.filter (fun mb => decide (3 ≤ mb.component_dependencies.length))).map
        (fun mb => compositionPattern mb.class_name) ∧
    (∀ n : String,
      (∃ p ∈ (UnityPatternDetector.analyzeProject mbs g).getDetectedPatterns,
        p.pattern_name = "Component Composition" ∧ p.involved_components = [n]) ↔
      ∃ mb ∈ mbs, mb.class_name = n ∧ 3 ≤ mb.component_dependencies.length) ∧
    (∀ n : String, (compositionPattern n).pattern_name = "Component Composition" ∧
      (compositionPattern n).involved_components = [n] ∧
      (compositionPattern n).confidence_score = Float32.c095) ∧
    |Float32.c095.toRat - 95 / 100| ≤ (2 : ℚ) ^ (-25 : ℤ) := by
  have hlist : (UnityPatternDetector.analyzeProject mbs g).getPatternsByType
        UnityPattern.ComponentComposition =
      (mbs.filter (fun mb => decide (3 ≤ mb.component_dependencies.length))).map
        (fun mb => compositionPattern mb.class_name) := getPatternsByType_composition mbs g
  refine ⟨hlist, fun n => ?_, fun n => ⟨rfl, rfl, compositionPattern_confidence n⟩, c095_nearest⟩
  constructor
  · rintro ⟨p, hp, hname, hinv⟩
    have hty := (detected_name_iff_type hp UnityPattern.ComponentComposition).1 hname
    have hmem := mem_getPatternsByType.2 ⟨hp, hty⟩
    rw [hlist] at hmem
    obtain ⟨mb, hmb, rfl⟩ := List.mem_map.1 hmem
    have hmb2 := List.mem_filter.1 hmb
    refine ⟨mb, hmb2.1, ?_, by simpa using hmb2.2⟩
    simpa [compositionPattern, makePattern] using hinv
  · rintro ⟨mb, hmb, rfl, hlen⟩
    have hmem : compositionPattern mb.class_name ∈
        (UnityPatternDetector.analyzeProject mbs g).getPatternsByType
          UnityPattern.ComponentComposition := by
      rw [hlist]
      exact List.mem_map.2 ⟨mb, List.mem_filter.2 ⟨hmb, by simpa using hlen⟩, rfl⟩
    exact ⟨_, (mem_getPatternsByType.1 hmem).1, rfl, rfl⟩

/-- C16, at the component `PlayerManager` with exactly 3 declared dependencies. -/
theorem composition_pattern_iff_witness :
    (UnityPatternDetector.analyzeProject
        [simpleComponent "PlayerManager" ["Rigidbody", "Animator", "Collider"]]
        emptyGraph).getDetectedPatterns = [compositionPattern "PlayerManager"] ∧
    (UnityPatternDetector.analyzeProject
        [simpleComponent "PlayerManager" ["Rigidbody", "Animator", "Collider"]]
        emptyGraph).getPatternsByType UnityPattern.ComponentComposition =
      ([simpleComponent "PlayerManager" ["Rigidbody", "Animator", "Collider"]].filter
        (fun mb => decide (3 ≤ mb.component_dependencies.length))).map
        (fun mb => compositionPattern mb.class_name) :=
  ⟨by decide,
    (composition_pattern_iff
      [simpleComponent "PlayerManager" ["Rigidbody", "Animator", "Collider"]] emptyGraph).1⟩

/-- C17, the defect: the component `EventHub`, as `analyzeMonoBehaviour` builds it, has the
custom methods `NotifyListeners` and `Subscribe`, and `hasObserverCharacteristics` holds, but
no Observer instance is emitted: the loop of `detectObserverPattern` tests the names in
`unity_methods`, which are callback names only. For records whose `unity_methods` are all in
the callback vocabulary no Observer instance is ever emitted. -/
theorem observer_not_emitted :
    observerInput.record.custom_methods = ["NotifyListeners", "Subscribe"] ∧
    observerInput.record.unity_methods = ["Update"] ∧
    hasObserverCharacteristics [observerInput.record] = true ∧
    (UnityPatternDetector.analyzeProject [observerInput.record]
        (buildDependencyGraph (analyzeProject [observerInput.record]))).getDetectedPatterns =
      [] ∧
    ∀ (mbs : List MonoBehaviourInfo) (g : ComponentGraph),
      (∀ mb ∈ mbs, ∀ m ∈ mb.unity_methods, isUnityMethod m = true) →
        (UnityPatternDetector.analyzeProject mbs g).getPatternsByType
          UnityPattern.ObserverPattern = [] := by
  refine ⟨by decide, by decide, by decide, by decide, fun mbs g h => ?_⟩
  rw [getPatternsByType_eq]
  simp [detectObserverPattern_nil h]

/-- C18, counterexample: of the two components `ViewModel` and `PlayerController` (distinct
names) only two match the Controller/View/Model family, and the MVC detector emits an
instance: `ViewModel` is found by the View search and by the Model search, and the three
match lists are appended. -/
theorem mvc_emitted_for_two_components :
    (mvcTwoComponents.map (fun mb => mb.class_name)).Nodup ∧
    (matchingComponents mvcTwoComponents ["Controller", "View", "Model"]).length = 2 ∧
    ((UnityPatternDetector.analyzeProject mvcTwoComponents
        (buildDependencyGraph (analyzeProject mvcTwoComponents))).getDetectedPatterns.map
      (fun p => (p.pattern_type, p.pattern_name, p.involved_components))) =
      [(UnityPattern.MVC_Pattern, "MVC Pattern",
        ["PlayerController", "ViewModel", "ViewModel"])] := by
  decide

/-- C18, amended: the MVC detector emits an instance exactly when the Controller matches,
the View matches and the Model matches number at least 3 together (a component matching two
families counts twice), hence whenever 3 components match the family, and only then when no
class name matches two families; the ECS detector emits exactly when at least 3 components
match Entity/Component/System; the factory and the command detector emit exactly when at
least 1 component matches their family. -/
theorem pattern_emission_thresholds (mbs : List MonoBehaviourInfo) (g : ComponentGraph) :
    ((∃ p ∈ (UnityPatternDetector.analyzeProject mbs g).getDetectedPatterns,
        p.pattern_type = UnityPattern.MVC_Pattern) ↔
      3 ≤ (matchingComponents mbs ["Controller"]).length +
        (matchingComponents mbs ["View"]).length +
        (matchingComponents mbs ["Model"]).length) ∧
    (3 ≤ (matchingComponents mbs ["Controller", "View", "Model"]).length →
      ∃ p ∈ (UnityPatternDetector.analyzeProject mbs g).getDetectedPatterns,
        p.pattern_type = UnityPattern.MVC_Pattern) ∧
    ((∀ mb ∈ mbs, matchesOneFamily mb.class_name = true) →
      ((∃ p ∈ (UnityPatternDetector.analyzeProject mbs g).getDetectedPatterns,
          p.pattern_type = UnityPattern.MVC_Pattern) ↔
        3 ≤ (matchingComponents mbs ["Controller", "View", "Model"]).length)) ∧
    ((∃ p ∈ (UnityPatternDetector.analyzeProject mbs g).getDetectedPatterns,
        p.pattern_type = UnityPattern.ECS_Pattern) ↔
      3 ≤ (matchingComponents mbs ["Entity", "Component", "System"]).length) ∧
    ((∃ p ∈ (UnityPatternDetector.analyzeProject mbs g).getDetectedPatterns,
        p.pattern_type = UnityPattern.FactoryPattern) ↔
      1 ≤ (matchingComponents mbs ["Factory", "Creator", "Builder"]).length) ∧
    ((∃ p ∈ (UnityPatternDetector.analyzeProject mbs g).getDetectedPatterns,
        p.pattern_type = UnityPattern.CommandPattern) ↔
      1 ≤ (matchingComponents mbs ["Command", "Action"]).length) := by
  have hmvc : (∃ p ∈ (UnityPatternDetector.analyzeProject mbs g).getDetectedPatterns,
        p.pattern_type = UnityPattern.MVC_Pattern) ↔
      3 ≤ (matchingComponents mbs ["Controller"]).length +
        (matchingComponents mbs ["View"]).length +
        (matchingComponents mbs ["Model"]).length := by
    rw [emitted_iff, getPatternsByType_eq]
    simpa using detectMVCPattern_ne_nil mbs
  refine ⟨hmvc, ?_, ?_, ?_, ?_, ?_⟩
  · intro h
    exact hmvc.2 (le_trans h (family_length_le mbs))
  · intro h
    rw [hmvc, family_length_eq h]
  · rw [emitted_iff, getPatternsByType_eq]
    simpa using detectECSPattern_ne_nil mbs
  · rw [emitted_iff, getPatternsByType_eq]
    simpa using detectFactoryPattern_ne_nil mbs
  · rw [emitted_iff, getPatternsByType_eq]
    simpa using detectCommandPattern_ne_nil mbs

/-- C19: after a successful parse, `analyzeCode` returns true and leaves one record per class
whose `base_class` is `MonoBehaviour` or `UnityEngine.MonoBehaviour`, built from that class,
in declaration order, and none for any other class; after a failed parse it returns false
and leaves no record. In the file `derivedClassFile` the class `Enemy`, which derives from
the user class `Player`, gets no record. -/
theorem analyzeCode_one_record_per_component_class (p : ParsedFile) (file_path : String) :
    (analyzeCode (some p) file_path).1 = true ∧
    (analyzeCode (some p) file_path).2 =
      (p.classes.filter (fun c =>
          decide (c.base_class = "MonoBehaviour" ∨ c.base_class = "UnityEngine.MonoBehaviour"))).map
        (fun c => analyzeMonoBehaviour c p.methods p.fields file_path p.source_code) ∧
    (analyzeCode (some p) file_path).2.map (fun mb => mb.class_name) =
      (p.classes.filter (fun c =>
          decide (c.base_class = "MonoBehaviour" ∨ c.base_class = "UnityEngine.MonoBehaviour"))).map
        (fun c => c.name) ∧
    (analyzeCode (some p) file_path).2.length =
      p.classes.countP (fun c =>
        decide (c.base_class = "MonoBehaviour" ∨ c.base_class = "UnityEngine.MonoBehaviour")) ∧
    ((∀ c ∈ p.classes, c.base_class ≠ "MonoBehaviour" ∧
        c.base_class ≠ "UnityEngine.MonoBehaviour") →
      (analyzeCode (some p) file_path).2 = []) ∧
    analyzeCode none file_path = (false, []) ∧
    (analyzeCode (some derivedClassFile) file_path).2.map (fun mb => mb.class_name) =
      ["Player", "Boss"] := by
  have hfilter : (fun c : ClassInfo =>
      decide (c.base_class = "MonoBehaviour" ∨ c.base_class = "UnityEngine.MonoBehaviour")) =
      isMonoBehaviour := by
    funext c
    simp [isMonoBehaviour]
  rw [hfilter]
  refine ⟨rfl, rfl, ?_, ?_, ?_, rfl, ?_⟩
  · simp only [analyzeCode, List.map_map]
    apply List.map_congr_left
    intro c _
    exact analyzeMonoBehaviour_class_name c p.methods p.fields file_path p.source_code
  · simp [analyzeCode, List.countP_eq_length_filter]
  · intro h
    have hnil : p.classes.filter isMonoBehaviour = [] := by
      rw [List.filter_eq_nil_iff]
      intro c hc
      simp [isMonoBehaviour, (h c hc).1, (h c hc).2]
    simp [analyzeCode, hnil]
  · simp only [analyzeCode, List.map_map]
    trans (derivedClassFile.classes.filter isMonoBehaviour).map (fun c => c.name)
    · apply List.map_congr_left
      intro c _
      exact analyzeMonoBehaviour_class_name c derivedClassFile.methods derivedClassFile.fields
        file_path derivedClassFile.source_code
    · decide

/-- C20, counterexample: in `twoClassFile` the record of `A` lists `Awake` among its
lifecycle methods and `Helper` among its custom methods, which are declared inside `B`, and
the record of `B` lists the methods of `A`: each record receives every method of the file. -/
theorem record_lists_methods_of_other_class :
    (analyzeCode (some twoClassFile) "Two.cs").2.map
        (fun mb => (mb.class_name, mb.unity_methods, mb.custom_methods)) =
      [("A", ["Update", "Awake"], ["CustomMethod", "Helper"]),
       ("B", ["Update", "Awake"], ["CustomMethod", "Helper"])] ∧
    twoClassFile.classes.map (fun c =>
        (c.name, (twoClassFile.methods.filter (declaredInside c)).map (fun m => m.name))) =
      [("A", ["Update", "CustomMethod"]), ("B", ["Awake", "Helper"])] := by
  decide

/-- C20, amended: the lifecycle-method list and the custom-method list of a component
partition the methods of the whole file: the lifecycle list holds, in file order, the names
in the callback vocabulary (such as `Update` and `Awake`), the custom list the other names
(such as `CustomMethod`), and together they hold every method of the file once. When every
method of the file is declared inside the class, they partition the class's own methods. -/
theorem method_lists_partition_file_methods (class_info : ClassInfo)
    (methods : List MethodInfo) (fields : List FieldInfo) (file_path source_code : String) :
    (analyzeMonoBehaviour class_info methods fields file_path source_code).unity_methods =
      (methods.map (fun m => m.name)).filter (fun n => decide (n ∈ unityMethodNames)) ∧
    (analyzeMonoBehaviour class_info methods fields file_path source_code).custom_methods =
      (methods.map (fun m => m.name)).filter (fun n => decide (n ∉ unityMethodNames)) ∧
    List.Perm
      ((analyzeMonoBehaviour class_info methods fields file_path source_code).unity_methods ++
        (analyzeMonoBehaviour class_info methods fields file_path source_code).custom_methods)
      (methods.map (fun m => m.name)) ∧
    ((∀ m ∈ methods, declaredInside class_info m = true) →
      List.Perm
        ((analyzeMonoBehaviour class_info methods fields file_path source_code).unity_methods ++
          (analyzeMonoBehaviour class_info methods fields file_path source_code).custom_methods)
        ((methods.filter (declaredInside class_info)).map (fun m => m.name))) ∧
    "Update" ∈ unityMethodNames ∧ "Awake" ∈ unityMethodNames ∧
    "CustomMethod" ∉ unityMethodNames := by
  have hu : (fun n : String => decide (n ∈ unityMethodNames)) = isUnityMethod := by
    funext n
    rw [Bool.eq_iff_iff]
    simp [isUnityMethod_iff]
  have hc : (fun n : String => decide (n ∉ unityMethodNames)) =
      fun n => !isUnityMethod n := by
    funext n
    rw [Bool.eq_iff_iff]
    simp [← isUnityMethod_iff]
  have hperm : List.Perm
      ((analyzeMonoBehaviour class_info methods fields file_path source_code).unity_methods ++
        (analyzeMonoBehaviour class_info methods fields file_path source_code).custom_methods)
      (methods.map (fun m => m.name)) := by
    rw [analyzeMonoBehaviour_unity_methods, analyzeMonoBehaviour_custom_methods]
    exact List.filter_append_perm _ _
  refine ⟨?_, ?_, hperm, ?_, by decide, by decide, by decide⟩
  · rw [hu, analyzeMonoBehaviour_unity_methods]
  · rw [hc, analyzeMonoBehaviour_custom_methods]
  · intro h
    rw [List.filter_eq_self.2 h]
    exact hperm

/-- C15: in binary32 arithmetic (round to nearest, ties to even) `calculateConfidenceScore`
returns, for every evidence list, a value within `2 ^ (-24)` of the exact number
`0.5 + 0.15 * n` clamped to at most `0.95`, where `n` is the number of evidence strings; the
value lies in `[0, 0.95]`, and it is the float `0.95f` as soon as `n` is 3 or more. Every
pattern returned by `analyzeProject` carries the score of its own evidence list, which has
three strings, so its confidence is `0.95f` and lies in `[0, 0.95]`. -/
theorem confidence_score_clamped (evidence : List String) :
    |(calculateConfidenceScore evidence).toRat -
        min (95 / 100) (1 / 2 + 15 / 100 * (evidence.length : ℚ))| ≤ (2 : ℚ) ^ (-24 : ℤ) ∧
    0 ≤ (calculateConfidenceScore evidence).toRat ∧
    (calculateConfidenceScore evidence).toRat ≤ 95 / 100 ∧
    (3 ≤ evidence.length → calculateConfidenceScore evidence = Float32.c095) ∧
    ∀ (mbs : List MonoBehaviourInfo) (g : ComponentGraph),
      ∀ p ∈ (UnityPatternDetector.analyzeProject mbs g).getDetectedPatterns,
        p.confidence_score = calculateConfidenceScore p.evidence ∧
        p.confidence_score = Float32.c095 ∧
        0 ≤ p.confidence_score.toRat ∧ p.confidence_score.toRat ≤ 95 / 100 := by
  obtain ⟨hb1, hb2, hb3⟩ := confidence_bounds evidence
  refine ⟨hb1, hb2, hb3, confidence_of_three_le, fun mbs g p hp => ?_⟩
  obtain ⟨hc, hl⟩ := detected_evidence hp
  obtain ⟨_, hp2, hp3⟩ := confidence_bounds p.evidence
  rw [hc]
  exact ⟨rfl, confidence_of_three_le (le_of_eq hl.symm), hp2, hp3⟩

/-- C26: for a dependency graph (two maps, so no key twice) `findHighCouplingComponents`
returns each name at most once, and a name is returned exactly when its dependencies list or
its dependents list has 5 or more entries. -/
theorem findHighCouplingComponents_iff (g : ComponentGraph)
    (hdeps : (StdMap.keys g.dependencies).Nodup) (hrev : (StdMap.keys g.dependents).Nodup) :
    (findHighCouplingComponents g).Nodup ∧
    ∀ n : String, n ∈ findHighCouplingComponents g ↔
      5 ≤ (g.adj n).length ∨ 5 ≤ (g.rev n).length := by
  have h := highCoupling_foldl (fun dep_pair => 5 ≤ dep_pair.2.length) g.dependents
    ((g.dependencies.filter (fun dep_pair => decide (5 ≤ dep_pair.2.length))).map Prod.fst)
    (nodup_filter_keys hdeps _) hrev
  refine ⟨h.1, fun n => ?_⟩
  unfold findHighCouplingComponents
  rw [h.2 n, ComponentGraph.adj, ComponentGraph.rev,
    ← StdMap.exists_mem_iff_getD hdeps n 5 (by norm_num),
    ← StdMap.exists_mem_iff_getD hrev n 5 (by norm_num)]
  simp only [List.mem_map, List.mem_filter, decide_eq_true_eq, Prod.exists, exists_and_right,
    exists_eq_right]

/-- C26, at the graph of `couplingScenario`: `Hub` has five dependencies and five
dependents and is listed once, `Core` has five dependents, no other name is listed. -/
theorem findHighCouplingComponents_iff_witness :
    findHighCouplingComponents (buildDependencyGraph (analyzeProject couplingScenario)) =
      ["Hub", "Core"] ∧
    ((findHighCouplingComponents
        (buildDependencyGraph (analyzeProject couplingScenario))).Nodup ∧
      ∀ n : String,
        n ∈ findHighCouplingComponents (buildDependencyGraph (analyzeProject couplingScenario)) ↔
          5 ≤ ((buildDependencyGraph (analyzeProject couplingScenario)).adj n).length ∨
            5 ≤ ((buildDependencyGraph (analyzeProject couplingScenario)).rev n).length) :=
  ⟨by decide,
    findHighCouplingComponents_iff (buildDependencyGraph (analyzeProject couplingScenario))
      (by decide) (by decide)⟩

/-- C27: for every analyzer state, cyclic or not, `getTopologicalOrder` returns a list
without repetition whose elements are exactly the registered component names and the names
reachable from them along dependency edges; in `cyclicScenario` the unregistered
dependency `Rigidbody` is in it. -/
theorem topologicalOrder_elements (s : ComponentDependencyAnalyzer) :
    (∃ order, getTopologicalOrder s = some order ∧ order.Nodup ∧
      ∀ x : String, x ∈ order ↔
        ∃ c ∈ StdMap.keys s.m_components,
          Relation.ReflTransGen (buildDependencyGraph s).Edge c x) ∧
    getTopologicalOrder (analyzeProject cyclicScenario) =
      some ["B", "C", "A", "Rigidbody"] ∧
    StdMap.keys (analyzeProject cyclicScenario).m_components = ["A", "B", "C"] := by
  obtain ⟨order, heq, hnd, hkeys, hclosed, hreach, _⟩ := getTopologicalOrder_run s
  refine ⟨⟨order, heq, hnd, fun x => ⟨hreach x, ?_⟩⟩, by decide, by decide⟩
  rintro ⟨c, hc, hcx⟩
  exact reach_mem_of_closed hclosed hcx (hkeys c hc)

/-- C28: on every graph, cyclic or not, a call of `hasCyclicDependenciesRecursive` or of
`topologicalSortRecursive` on a name outside the sets returns: the result is the same for
every recursion depth allowed beyond the number of names of the graph, and the sets only
grow. The loops call the recursion only on names outside the sets, and the public
traversals `hasCyclicDependencies` and `getTopologicalOrder` return on every state. -/
theorem recursive_traversals_terminate (g : ComponentGraph) (component : String)
    (visiting visited result : List String)
    (hvisiting : component ∉ visiting) (hvisited : component ∉ visited) :
    (∃ b visiting1 visited1,
      (∀ fuel, (graphNames g).length + 1 ≤ fuel →
        hasCyclicDependenciesRecursive g fuel component visiting visited =
          some (b, visiting1, visited1)) ∧
      (∀ x ∈ visiting, x ∈ visiting1) ∧ ∀ x ∈ visited, x ∈ visited1) ∧
    (∃ visited1 result1,
      (∀ fuel, (graphNames g).length + 1 ≤ fuel →
        topologicalSortRecursive g fuel component visited result = some (visited1, result1)) ∧
      ∀ x ∈ visited, x ∈ visited1) ∧
    (∀ (r1 r2 : String → List String → List String →
        Option (Bool × List String × List String)),
      (∀ c vg vd, c ∉ vg → c ∉ vd → r1 c vg vd = r2 c vg vd) →
        ∀ deps vg vd, cyclicLoop r1 deps vg vd = cyclicLoop r2 deps vg vd) ∧
    (∀ (r1 r2 : String → List String → List String → Option (List String × List String)),
      (∀ c vd res, c ∉ vd → r1 c vd res = r2 c vd res) →
        ∀ deps vd res, topologicalLoop r1 deps vd res = topologicalLoop r2 deps vd res) ∧
    ∀ s : ComponentDependencyAnalyzer,
      (∃ b, hasCyclicDependencies s = some b) ∧ ∃ order, getTopologicalOrder s = some order := by
  have hU : ∀ x d, d ∈ g.adj x → d ∈ component :: graphNames g :=
    fun x d h => List.mem_cons_of_mem _ (adj_mem_graphNames g x d h)
  have hlen : (component :: graphNames g).length = (graphNames g).length + 1 := rfl
  refine ⟨?_, ?_, fun r1 r2 h => cyclicLoop_guarded h, fun r1 r2 h => topologicalLoop_guarded h,
    fun s => ⟨hasCyclicDependencies_total s, ?_⟩⟩
  · obtain ⟨b, vg1, vd1, heq, h1, h2⟩ :=
      hasCyclicDependenciesRecursive_total g _ hU ((graphNames g).length + 1) component
        visiting visited (List.mem_cons_self _ _) hvisiting hvisited
        (hlen ▸ unseenCount_le_length _ _)
    exact ⟨b, vg1, vd1,
      fun fuel hf => hasCyclicDependenciesRecursive_le g hf _ _ _ _ heq, h1, h2⟩
  · obtain ⟨vd1, res1, heq, h1⟩ :=
      topologicalSortRecursive_total g _ hU ((graphNames g).length + 1) component
        visited result (List.mem_cons_self _ _) hvisited (hlen ▸ unseenCount_le_length _ _)
    exact ⟨vd1, res1, fun fuel hf => topologicalSortRecursive_le g hf _ _ _ _ heq, h1⟩
  · obtain ⟨order, heq, _⟩ := getTopologicalOrder_run s
    exact ⟨order, heq⟩

/-- C28, at the graph of `cyclicScenario`, which has a self-loop on `A` and the cycle
`B`, `C`: the traversals return there. -/
theorem recursive_traversals_terminate_witness :
    hasCyclicDependencies (analyzeProject cyclicScenario) = some true ∧
    hasCyclicDependenciesRecursive (buildDependencyGraph (analyzeProject cyclicScenario)) 6
      "A" [] [] = some (true, ["A"], []) ∧
    topologicalSortRecursive (buildDependencyGraph (analyzeProject cyclicScenario)) 6
      "B" [] [] = some (["C", "B"], ["C", "B"]) ∧
    ∃ b visiting1 visited1,
      (∀ fuel,
        (graphNames (buildDependencyGraph (analyzeProject cyclicScenario))).length + 1 ≤ fuel →
        hasCyclicDependenciesRecursive (buildDependencyGraph (analyzeProject cyclicScenario))
          fuel "A" [] [] = some (b, visiting1, visited1)) ∧
      (∀ x ∈ ([] : List String), x ∈ visiting1) ∧ ∀ x ∈ ([] : List String), x ∈ visited1 :=
  ⟨by decide, by decide, by decide,
    (recursive_traversals_terminate (buildDependencyGraph (analyzeProject cyclicScenario))
      "A" [] [] [] (by decide) (by decide)).1⟩

/-- C29: for every analyzer state and every name, `getComponentDependencies` returns the
list filed under that name in the `dependencies` map of `buildDependencyGraph`, and the
empty list when the name is no key; `getComponentDependents` and the `dependents` map agree
in the same way. -/
theorem component_queries_agree_with_graph (s : ComponentDependencyAnalyzer) (n : String) :
    getComponentDependencies s n = (buildDependencyGraph s).adj n ∧
    getComponentDependents s n = (buildDependencyGraph s).rev n ∧
    (∀ l, StdMap.find (buildDependencyGraph s).dependencies n = some l →
      getComponentDependencies s n = l) ∧
    (StdMap.find (buildDependencyGraph s).dependencies n = none →
      getComponentDependencies s n = []) ∧
    (∀ l, StdMap.find (buildDependencyGraph s).dependents n = some l →
      getComponentDependents s n = l) ∧
    (StdMap.find (buildDependencyGraph s).dependents n = none →
      getComponentDependents s n = []) := by
  have hadj : getComponentDependencies s n = (buildDependencyGraph s).adj n := by
    rw [adj_eq]
    rfl
  have hrev : getComponentDependents s n = (buildDependencyGraph s).rev n := by
    rw [rev_eq]
    rfl
  refine ⟨hadj, hrev, fun l hl => ?_, fun hl => ?_, fun l hl => ?_, fun hl => ?_⟩
  · rw [hadj, ComponentGraph.adj, hl]
    rfl
  · rw [hadj, ComponentGraph.adj, hl]
    rfl
  · rw [hrev, ComponentGraph.rev, hl]
    rfl
  · rw [hrev, ComponentGraph.rev, hl]
    rfl

/-- C25: from every prior state of the three analyzers, `analyzeProject` on a component list
`X` leaves the state, and so the graph, the lifecycle flows and the patterns, that it leaves
on a freshly constructed analyzer; a second run on the same input changes nothing. -/
theorem analysis_independent_of_prior_state (s1 : ComponentDependencyAnalyzer)
    (s2 : LifecycleAnalyzer) (s3 : UnityPatternDetector) (X : List MonoBehaviourInfo)
    (g : ComponentGraph) :
    s1.analyzeProjectFrom X = ComponentDependencyAnalyzer.init.analyzeProjectFrom X ∧
    buildDependencyGraph (s1.analyzeProjectFrom X) =
      buildDependencyGraph (ComponentDependencyAnalyzer.init.analyzeProjectFrom X) ∧
    s2.analyzeProjectFrom X = LifecycleAnalyzer.init.analyzeProjectFrom X ∧
    (s2.analyzeProjectFrom X).getAllLifecycleFlows =
      (LifecycleAnalyzer.init.analyzeProjectFrom X).getAllLifecycleFlows ∧
    s3.analyzeProjectFrom X g = UnityPatternDetector.init.analyzeProjectFrom X g ∧
    (s3.analyzeProjectFrom X g).getDetectedPatterns =
      (UnityPatternDetector.init.analyzeProjectFrom X g).getDetectedPatterns ∧
    (s1.analyzeProjectFrom X).analyzeProjectFrom X = s1.analyzeProjectFrom X ∧
    (s2.analyzeProjectFrom X).analyzeProjectFrom X = s2.analyzeProjectFrom X ∧
    (s3.analyzeProjectFrom X g).analyzeProjectFrom X g = s3.analyzeProjectFrom X g ∧
    (∀ mb : MonoBehaviourInfo,
      (addMonoBehaviour s1 mb).analyzeProjectFrom X = s1.analyzeProjectFrom X ∧
      (s2.analyzeComponent mb).analyzeProjectFrom X = s2.analyzeProjectFrom X) := by
  have h1 : ∀ s : ComponentDependencyAnalyzer, s.analyzeProjectFrom X = analyzeProject X :=
    fun s => dependency_analyzeProjectFrom_eq s X
  have h2 : ∀ s : LifecycleAnalyzer,
      s.analyzeProjectFrom X = LifecycleAnalyzer.analyzeProject X :=
    fun s => lifecycle_analyzeProjectFrom_eq s X
  have h3 : ∀ s : UnityPatternDetector,
      s.analyzeProjectFrom X g = UnityPatternDetector.analyzeProject X g :=
    fun s => pattern_analyzeProjectFrom_eq s X g
  refine ⟨?_, ?_, ?_, ?_, ?_, ?_, ?_, ?_, ?_, fun mb => ⟨?_, ?_⟩⟩
  · rw [h1, h1]
  · rw [h1, h1]
  · rw [h2, h2]
  · rw [h2, h2]
  · rw [h3, h3]
  · rw [h3, h3]
  · rw [h1, h1]
  · rw [h2, h2]
  · rw [h3, h3]
  · rw [h1, h1]
  · rw [h2, h2]

/-- C30: every pattern that `analyzeProject` returns, whatever the input and the detector,
carries three evidence strings and the confidence computed from them, which is the clamp
value, the float `0.95f` (the binary32 number `15938355 * 2 ^ (-24)`, the nearest to 0.95);
so any two returned patterns, of any two inputs, have the same confidence. -/
theorem detected_confidence_constant (mbs : List MonoBehaviourInfo) (g : ComponentGraph) :
    (∀ p ∈ (UnityPatternDetector.analyzeProject mbs g).getDetectedPatterns,
      p.evidence.length = 3 ∧ p.confidence_score = calculateConfidenceScore p.evidence ∧
      p.confidence_score = Float32.c095 ∧
      ∀ (mbs2 : List MonoBehaviourInfo) (g2 : ComponentGraph),
        ∀ q ∈ (UnityPatternDetector.analyzeProject mbs2 g2).getDetectedPatterns,
          q.confidence_score = p.confidence_score) ∧
    Float32.c095.toRat = 15938355 / 16777216 ∧
    |Float32.c095.toRat - 95 / 100| ≤ (2 : ℚ) ^ (-25 : ℤ) ∧
    (UnityPatternDetector.analyzeProject
        [simpleComponent "EnemyFactory" [], simpleComponent "Hud" ["A", "B", "C"]]
        emptyGraph).getDetectedPatterns.map
      (fun p => (p.pattern_name, p.evidence.length, p.confidence_score)) =
      [("Component Composition", 3, Float32.c095), ("Factory Pattern", 3, Float32.c095)] := by
  have hall : ∀ (mbs : List MonoBehaviourInfo) (g : ComponentGraph),
      ∀ p ∈ (UnityPatternDetector.analyzeProject mbs g).getDetectedPatterns,
        p.evidence.length = 3 ∧ p.confidence_score = calculateConfidenceScore p.evidence ∧
        p.confidence_score = Float32.c095 := by
    intro mbs g p hp
    obtain ⟨hc, hl⟩ := detected_evidence hp
    refine ⟨hl, hc, ?_⟩
    rw [hc]
    exact confidence_of_three_le (le_of_eq hl.symm)
  refine ⟨fun p hp => ?_, ?_, c095_nearest, by decide⟩
  · obtain ⟨h1, h2, h3⟩ := hall mbs g p hp
    refine ⟨h1, h2, h3, fun mbs2 g2 q hq => ?_⟩
    rw [h3, (hall mbs2 g2 q hq).2.2]
  · simp only [Float32.toRat, Float32.c095]
    rw [zpow_neg]
    norm_num

/-- C21: the walk of `analyzeNode` looks at every node of the tree in depth-first pre-order:
it appends one class record per `class_declaration` node, one method record per
`method_declaration` node and one field record per `field_declaration` node, nested ones
included, in that order, and a node of any other type adds no such record and does not stop
the walk. `parseCode` starts from empty containers. On `sampleTree` the records are those of
`TestClass`, `Inner`, `Start`, `Run` and `speed`. -/
theorem analyzeNode_records_preorder (s : CSharpParser) (root : ASTNode) :
    s.analyzeNode root = root.preorder.foldl CSharpParser.visit s ∧
    (s.analyzeNode root).m_classes =
      s.m_classes ++
        (root.preorder.filter (fun node => node.getType = "class_declaration")).map
          extractClassInfo ∧
    (s.analyzeNode root).m_methods =
      s.m_methods ++
        (root.preorder.filter (fun node => node.getType = "method_declaration")).map
          extractMethodInfo ∧
    (s.analyzeNode root).m_fields =
      s.m_fields ++
        (root.preorder.filter (fun node => node.getType = "field_declaration")).map
          extractFieldInfo ∧
    (s.parseCode (some root)).1 = true ∧
    (s.parseCode (some root)).2.m_classes.length =
      root.preorder.countP (fun node => node.getType = "class_declaration") ∧
    (s.parseCode (some root)).2.m_methods.length =
      root.preorder.countP (fun node => node.getType = "method_declaration") ∧
    (s.parseCode (some root)).2.m_fields.length =
      root.preorder.countP (fun node => node.getType = "field_declaration") ∧
    sampleTree.preorder.length = 25 ∧
    (s.parseCode (some sampleTree)).2 =
      { m_classes :=
          [{ name := "TestClass", base_class := "MonoBehaviour", attributes := [],
             start_line := 4, end_line := 13 },
           { name := "Inner", base_class := "", attributes := [], start_line := 11,
             end_line := 12 }]
        m_methods := [{ name := "Start", start_line := 7 }, { name := "Run", start_line := 12 }]
        m_fields :=
          [{ name := "speed", type := "float", attributes := [], access_modifier := "public" }]
        m_using_directives := ["using UnityEngine;"]
        m_namespace := "" } := by
  have hfold := analyzeNode_eq_foldl root
  refine ⟨hfold s, ?_, ?_, ?_, rfl, ?_, ?_, ?_, by decide, parseCode_sampleTree s⟩
  · rw [hfold, foldl_visit_classes]
  · rw [hfold, foldl_visit_methods]
  · rw [hfold, foldl_visit_fields]
  · simp only [CSharpParser.parseCode]
    rw [hfold, foldl_visit_classes]
    simp [List.countP_eq_length_filter]
  · simp only [CSharpParser.parseCode]
    rw [hfold, foldl_visit_methods]
    simp [List.countP_eq_length_filter]
  · simp only [CSharpParser.parseCode]
    rw [hfold, foldl_visit_fields]
    simp [List.countP_eq_length_filter]

/-- C22, the defect: of the three files `Player.cs`, `Enemy.cs` and `Settings.cs` the last
one is bad: its `CreateAssetMenu` attribute gives the order 99999999999, on which
`std::stoi` throws in `ScriptableObjectAnalyzer::parseCreateAssetMenuAttribute`. The
components of the two valid files are collected, but the exception ends the run: `success`
is false and `error_message` is set. A missing file in its place is passed over and the run
succeeds. In general the component list is the concatenation, in input order, of the
components of the files that `analyzeFile` succeeds on, and `success` is true exactly when
no stage throws. -/
theorem bad_scriptable_object_fails_run :
    (CoreEngine.analyzeProject threeFileDisk ["Player.cs", "Enemy.cs", "Settings.cs"]
      AnalysisOptions.default).success = false ∧
    (CoreEngine.analyzeProject threeFileDisk ["Player.cs", "Enemy.cs", "Settings.cs"]
      AnalysisOptions.default).error_message = "Analysis failed: stoi" ∧
    (CoreEngine.analyzeProject threeFileDisk ["Player.cs", "Enemy.cs", "Settings.cs"]
      AnalysisOptions.default).monobehaviours.map (fun mb => mb.class_name) =
        ["Player", "Enemy"] ∧
    ScriptableObjectAnalyzer.analyzeFile threeFileDisk "Settings.cs" = some "stoi" ∧
    (CoreEngine.analyzeProject threeFileDisk ["Player.cs", "Missing.cs", "Enemy.cs"]
      AnalysisOptions.default).success = true ∧
    (CoreEngine.analyzeProject threeFileDisk ["Player.cs", "Missing.cs", "Enemy.cs"]
      AnalysisOptions.default).monobehaviours.map (fun mb => mb.class_name) =
        ["Player", "Enemy"] ∧
    ∀ (env : Environment) (files : List String) (options : AnalysisOptions),
      (CoreEngine.analyzeProject env files options).monobehaviours =
        (files.filter (analyzedSuccessfully env)).flatMap
          (fun file_path => (MonoBehaviourAnalyzer.analyzeFile env file_path).2) ∧
      ((CoreEngine.analyzeProject env files options).success = true ↔
        (if options.analyze_scriptable_objects then
            ScriptableObjectAnalyzer.analyzeProject env files else none) = none ∧
          env.otherStages = none) := by
  refine ⟨by decide, by decide, by decide, by decide, by decide, by decide,
    fun env files options => ⟨analyzeProject_monobehaviours env files options, ?_⟩⟩
  rw [analyzeProject_success, decide_eq_true_eq]

/-- C23, the defect: on a disk without the file, `analyzeSingleFile("NonExistentFile.cs")`
returns `success == true` and an empty `error_message`, with empty results: the path fails
`isValidCSharpFile` and is passed over. The same holds for every path that does not exist,
whatever the options, when no later stage throws. -/
theorem nonexistent_file_reports_success :
    CoreEngine.analyzeSingleFile emptyDisk "NonExistentFile.cs" AnalysisOptions.default =
      { success := true, error_message := "", monobehaviours := [],
        dependency_graph := emptyGraph, lifecycle_flows := [], patterns := [] } ∧
    ∀ (env : Environment) (options : AnalysisOptions) (file_path : String),
      env.fileExists file_path = false → env.readFile file_path = none →
      env.otherStages = none →
        (CoreEngine.analyzeSingleFile env file_path options).success = true ∧
        (CoreEngine.analyzeSingleFile env file_path options).error_message = "" ∧
        (CoreEngine.analyzeSingleFile env file_path options).monobehaviours = [] := by
  refine ⟨by decide, fun env options file_path hex hread hother => ?_⟩
  have hso : (if options.analyze_scriptable_objects then
      ScriptableObjectAnalyzer.analyzeProject env [file_path] else none) = none := by
    split
    · exact scriptableObject_missing_file env file_path hread
    · rfl
  have hfilter : [file_path].filter (analyzedSuccessfully env) = [] := by
    simp [analyzedSuccessfully, isValidCSharpFile, hex]
  unfold CoreEngine.analyzeSingleFile
  refine ⟨?_, ?_, (analyzeProject_no_components env _ options hfilter).1⟩
  · rw [analyzeProject_success, hso, hother]
    simp
  · rw [analyzeProject_error_message, hso, hother]

/-- C24: for an empty file list, whatever the options, the disk and the surroundings of the
later stages, `analyzeProject` returns `success == true`, an empty `error_message`, no
component, an empty dependency graph (both maps and the raw edges), no lifecycle flow and no
pattern. No stage throws: the ScriptableObject analysis and the API detection loop over no
file, the AI analysis over no usage, the metadata generation over no component, and the
project-level metadata and the context are computed from empty lists; with
`generate_metadata` and `generate_context` set they come out as stated. In particular
`inferComplexityLevel`, which divides by the number of components, returns: the quotient
`0.0f / 0` is a NaN, no comparison holds and the level is `Very Complex`. -/
theorem empty_project_is_valid (env : Environment) (world : LaterStages)
    (options : AnalysisOptions) (generate_metadata generate_context : Bool) :
    CoreEngine.analyzeProject
        (env.forRun world [] options generate_metadata generate_context) [] options =
      { success := true, error_message := "", monobehaviours := [],
        dependency_graph := { dependencies := [], dependents := [], edges := [] },
        lifecycle_flows := [], patterns := [] } ∧
    ScriptableObjectAnalyzer.analyzeProject env [] = none ∧
    UnityAPIDetector.analyzeProject env world [] = Except.ok [] ∧
    (∃ outcome,
      CoreEngine.laterStages env world []
        (CoreEngine.analyzeProject env [] options).monobehaviours
        (CoreEngine.analyzeProject env [] options).dependency_graph
        (CoreEngine.analyzeProject env [] options).lifecycle_flows
        (CoreEngine.analyzeProject env [] options).patterns
        generate_metadata generate_context = Except.ok outcome) ∧
    CoreEngine.laterStages env world []
        (CoreEngine.analyzeProject env [] options).monobehaviours
        (CoreEngine.analyzeProject env [] options).dependency_graph
        (CoreEngine.analyzeProject env [] options).lifecycle_flows
        (CoreEngine.analyzeProject env [] options).patterns true true =
      Except.ok
        (some
          { project_summary :=
              { architecture_pattern := "Component-based", key_systems := [],
                game_type := "Generic Game", complexity_level := "Very Complex",
                total_components := 0, total_dependencies := 0 }
            systems :=
              { system_groups := [], core_systems := [], support_systems := [],
                system_complexity := [] }
            dependencies :=
              { dependency_clusters := [], high_coupling_components := [],
                isolated_components := [], has_circular_dependencies := false,
                topological_order := [] }
            patterns := { pattern_frequency := [], dominant_patterns := [] }
            components := []
            files_analyzed := [] },
         some
          { project_type := "Generic Game"
            architecture_pattern := "Component-based"
            complexity_level := "Very Complex"
            recommended_approach :=
              "Follow established patterns and maintain component separation"
            key_patterns :=
              ["Standard Unity MonoBehaviour pattern", "Component-based architecture",
               "Unity lifecycle method usage", "SerializeField for inspector exposure"]
            critical_components := [] }) ∧
    inferComplexityLevel [] = "Very Complex" := by
  have hso : (if options.analyze_scriptable_objects then
      ScriptableObjectAnalyzer.analyzeProject
        (env.forRun world [] options generate_metadata generate_context) [] else none) =
        none := by
    split <;> rfl
  have hother := forRun_otherStages_empty env world options generate_metadata generate_context
  obtain ⟨h1, h2, h3, h4⟩ := analyzeProject_no_components
    (env.forRun world [] options generate_metadata generate_context) [] options rfl
  obtain ⟨g1, g2, g3, g4⟩ := analyzeProject_no_components env [] options rfl
  have h5 : (CoreEngine.analyzeProject
      (env.forRun world [] options generate_metadata generate_context) [] options).success =
      true := by
    rw [analyzeProject_success, hso, hother]
    simp
  have h6 : (CoreEngine.analyzeProject
      (env.forRun world [] options generate_metadata generate_context) [] options).error_message =
      "" := by
    rw [analyzeProject_error_message, hso, hother]
  refine ⟨?_, rfl, rfl, ?_, ?_, by decide⟩
  · cases hr : CoreEngine.analyzeProject
        (env.forRun world [] options generate_metadata generate_context) [] options with
    | mk success error_message monobehaviours dependency_graph lifecycle_flows patterns =>
      rw [hr] at h1 h2 h3 h4 h5 h6
      simp only at h1 h2 h3 h4 h5 h6
      rw [h1, h2, h3, h4, h5, h6]
      rfl
  · rw [g1, g2, g3, g4]
    exact laterStages_empty env world generate_metadata generate_context
  · rw [g1, g2, g3, g4]
    cases hai : world.ai_enabled <;>
      (simp only [CoreEngine.laterStages, UnityAPIDetector.analyzeProject,
        CoreEngine.runAIAnalysis, hai, ProjectMetadataGenerator.analyzeProject,
        ComponentMetadataGenerator.analyzeProject, if_true, if_false, Bool.false_eq_true,
        Option.getD_some]
       rfl)

end UnityContextGen
